import Mathlib

/-!
# BGOS physical-memory core: buddy allocator, page tables, copy-on-write

A shallow embedding of `kernel/mm/memory.c` and of the self-test in
`kernel/init/main.c`, followed by theorems about it.

Modelling conventions

* `unsigned long` is a natural number below `2 ^ 64`, `unsigned int` one below
  `2 ^ 32`; additions that the C code performs on addresses are reduced
  modulo `2 ^ 64`.
* The global arrays `free_list`, `bitmap` and `mem_map` are total functions on
  the index; `mem_map` holds the 8-bit pattern of each `char`.
* Memory is a map from physical byte addresses to bytes.  A pointer designates
  the physical address obtained by clearing the bits of `DMW_MASK` (the
  direct-mapping window), so `x` and `x | DMW_MASK` are the same cell.  A
  `buddy_t` node or a page-table entry is the little-endian 8-byte word at its
  address.
* `panic` never returns: a call that panics yields `Result.halted` with the
  state at the moment of the panic.  `print_debug`, `printk` and `invalidate`
  have no effect on the modelled state.
-/

namespace BGOS

/-! ## Constants -/

def MAX_ORDER : Nat := 14

def PAGE_SIZE : Nat := 4096

def ENTRYS : Nat := 512

def ENTRY_SIZE : Nat := 8

def MEMORY_SIZE : Nat := 0x8000000

def NR_PAGE : Nat := MEMORY_SIZE >>> 12

def KERNEL_START_PAGE : Nat := 0x200000 >>> 12

def KERNEL_END_PAGE : Nat := 0x300000 >>> 12

/-- The constants that `memory.c` takes from `xtos.h`, a header that is not
among the sources, together with the signedness of plain `char`, which the
C standard leaves to the platform.  Every definition below takes them as a
parameter. -/
structure Xtos where
  DMW_MASK : Nat
  PTE_V : Nat
  PTE_D : Nat
  PTE_PLV : Nat
  char_signed : Bool

/-- The LoongArch64 values of the `xtos.h` constants, used wherever a concrete
machine is evaluated. -/
def loongarch : Xtos :=
  { DMW_MASK := 0x9000000000000000, PTE_V := 1, PTE_D := 2, PTE_PLV := 12,
    char_signed := true }

/-! ## Machine state and memory -/

/-- The global state of `memory.c` together with physical memory. -/
structure State where
  free_list : Nat → Nat
  bitmap : Nat → Nat
  mem_map : Nat → Nat
  mem : Nat → Nat

/-- Pointwise update of an array or of memory. -/
def upd (f : Nat → Nat) (i v : Nat) : Nat → Nat :=
  fun x => if x = i then v else f x

/-- The 64-bit complement `~x`. -/
def not64 (x : Nat) : Nat := (2 ^ 64 - 1) ^^^ (x % 2 ^ 64)

/-- Addition of two `unsigned long` values. -/
def add64 (a b : Nat) : Nat := (a + b) % 2 ^ 64

/-- The physical address a pointer designates: `p & ~DMW_MASK`. -/
def phys (K : Xtos) (p : Nat) : Nat := p &&& not64 K.DMW_MASK

/-- One byte of memory. -/
def load8 (m : Nat → Nat) (a : Nat) : Nat := m a % 256

/-- The little-endian 8-byte word at physical address `a`. -/
def load64 (m : Nat → Nat) (a : Nat) : Nat :=
  load8 m a + 2 ^ 8 * load8 m (a + 1) + 2 ^ 16 * load8 m (a + 2)
    + 2 ^ 24 * load8 m (a + 3) + 2 ^ 32 * load8 m (a + 4)
    + 2 ^ 40 * load8 m (a + 5) + 2 ^ 48 * load8 m (a + 6)
    + 2 ^ 56 * load8 m (a + 7)

/-- Store of the 8-byte word `v` at physical address `a`. -/
def store64 (m : Nat → Nat) (a v : Nat) : Nat → Nat :=
  fun x => if a ≤ x ∧ x < a + 8 then (v / 2 ^ (8 * (x - a))) % 256 else m x

/-- Effect of `set_mem(p, c, n)`: `n` bytes from physical address `a` on
become `c`. -/
def set_mem (m : Nat → Nat) (a c n : Nat) : Nat → Nat :=
  fun x => if a ≤ x ∧ x < a + n then c % 256 else m x

/-- Effect of `copy_mem(dst, src, n)`: `n` bytes from physical address `src`
are copied to physical address `dst`. -/
def copy_mem (m : Nat → Nat) (dst src n : Nat) : Nat → Nat :=
  fun x => if dst ≤ x ∧ x < dst + n then m (src + (x - dst)) else m x

/-- Read of the 8-byte word a pointer designates. -/
def rd (K : Xtos) (s : State) (p : Nat) : Nat := load64 s.mem (phys K p)

/-- Write of the 8-byte word a pointer designates. -/
def wr (K : Xtos) (s : State) (p v : Nat) : State :=
  { s with mem := store64 s.mem (phys K p) v }

/-! ## The buddy allocator -/

/-- The loop of `get_order`: one iteration per remaining bit of `size`.  The
first argument bounds the number of iterations; 32 is enough for an
`unsigned int` (see `get_order_loop_spec`). -/
def get_order_loop : Nat → Nat → Nat → Nat
  | 0, _, order => order
  | fuel + 1, size, order =>
    if size > 0 then get_order_loop fuel (size >>> 1) (order + 1) else order

/-- The value of `size - 1` in `unsigned int`: `0 - 1` wraps to
`0xFFFFFFFF`. -/
def uint_pred (size : Nat) : Nat :=
  if size % 2 ^ 32 = 0 then 2 ^ 32 - 1 else size % 2 ^ 32 - 1

/-- The order for `size` bytes: `size = (size - 1) >> 12`, then one
increment per remaining bit. -/
def get_order (size : Nat) : Nat :=
  get_order_loop 32 (uint_pred size >>> 12) 0

/-- The buddy address `addr ^ (1 << (order + 12))`.  The shift is an `int`
shift, defined by C for `order + 12 < 31`. -/
def buddy_of (addr order : Nat) : Nat := addr ^^^ (2 ^ (order + 12))

/-- Sets the presence bit: `bitmap[order] |= 1U`. -/
def set_bit (order : Nat) (s : State) : State :=
  { s with bitmap := upd s.bitmap order (s.bitmap order ||| 1) }

/-- Clears the presence bit: `bitmap[order] &= ~1U`. -/
def clear_bit (order : Nat) (s : State) : State :=
  { s with bitmap := upd s.bitmap order (s.bitmap order &&& (2 ^ 32 - 2)) }

/-- The allocator part of the state after `buddy_init`: all lists and bits
cleared, then the arena at `0x300000` put on `free_list[MAX_ORDER]`. -/
def buddy_init (K : Xtos) (s : State) : State :=
  let s1 : State :=
    { s with
      free_list := fun i => if i ≤ MAX_ORDER then 0 else s.free_list i
      bitmap := fun i => if i ≤ MAX_ORDER then 0 else s.bitmap i }
  let base_addr := 0x300000
  let s2 : State := { s1 with free_list := upd s1.free_list MAX_ORDER base_addr }
  let s3 := wr K s2 (s2.free_list MAX_ORDER) 0
  set_bit MAX_ORDER s3

/-- The splitting loop of `buddy_alloc`: `while (i > order)`, recursing on
`i`. -/
def split_loop (K : Xtos) (order block : Nat) : Nat → State → State
  | 0, s => s
  | i + 1, s =>
    if i + 1 > order then
      let split_addr := add64 block (2 ^ (i + 12))
      let s1 := wr K s split_addr (s.free_list i)
      let s2 : State := { s1 with free_list := upd s1.free_list i split_addr }
      split_loop K order block i (set_bit i s2)
    else s

/-- The marking loop of `buddy_alloc`: `mem_map[start_page + j] = 1` for
`j = 0 .. n - 1`.  The array has `NR_PAGE` entries: the definition describes
the loop for `start_page + n ≤ NR_PAGE`; beyond that the C code writes outside
the array. -/
def mark_used (start_page : Nat) : Nat → (Nat → Nat) → (Nat → Nat)
  | 0, mm => mm
  | n + 1, mm => upd (mark_used start_page n mm) (start_page + n) 1

/-- The body of the scan loop of `buddy_alloc` once `bitmap[i]` is found
set. -/
def alloc_block (K : Xtos) (order i : Nat) (s : State) : Nat × State :=
  let block := s.free_list i
  let s1 : State := { s with free_list := upd s.free_list i (rd K s block) }
  let s2 := if s1.free_list i = 0 then clear_bit i s1 else s1
  let s3 := split_loop K order block i s2
  let start_page := block >>> 12
  let s4 : State := { s3 with mem_map := mark_used start_page (2 ^ order) s3.mem_map }
  let aligned_address := block ||| K.DMW_MASK
  let s5 : State := { s4 with mem := set_mem s4.mem (phys K aligned_address) 0 PAGE_SIZE }
  (aligned_address, s5)

/-- The scan loop of `buddy_alloc`, `for (i = order; i <= MAX_ORDER; i++)`;
the first argument counts the iterations left.  The result `0` is `NULL`. -/
def alloc_scan (K : Xtos) (order : Nat) : Nat → Nat → State → Nat × State
  | 0, _, s => (0, s)
  | n + 1, i, s =>
    if s.bitmap i ≠ 0 then alloc_block K order i s
    else alloc_scan K order n (i + 1) s

/-- The function `buddy_alloc(size)`: returned pointer (0 is `NULL`) and new
state. -/
def buddy_alloc (K : Xtos) (size : Nat) (s : State) : Nat × State :=
  let order := get_order size
  alloc_scan K order (MAX_ORDER + 1 - order) order s

/-- The release loop of `buddy_free`: decrements `mem_map[start_page + j]`
for `j = 0 .. n - 1` in 8-bit arithmetic and computes `flag`.  The array has
`NR_PAGE` entries: the definition describes the loop for
`start_page + n ≤ NR_PAGE`; beyond that the C code reads and writes outside
the array (the globals stored after `mem_map`), which this model does not
follow. -/
def release_loop (start_page : Nat) : Nat → (Nat → Nat) → (Nat → Nat) × Bool
  | 0, mm => (mm, true)
  | n + 1, mm =>
    let r := release_loop start_page n mm
    let v := (r.1 (start_page + n) + 255) % 256
    (upd r.1 (start_page + n) v, if v ≠ 0 then false else r.2)

/-- The merge loop of `buddy_free`; the first argument counts the iterations
left, `MAX_ORDER - order` at entry, so it reaches `0` only when
`order < MAX_ORDER` fails.  The result is the final `(order, phys_addr)`. -/
def merge_loop (free_list : Nat → Nat) : Nat → Nat → Nat → Nat → Nat × Nat
  | 0, order, phys_addr, _ => (order, phys_addr)
  | n + 1, order, phys_addr, buddy =>
    if order < MAX_ORDER ∧ free_list order = buddy then
      merge_loop free_list n (order + 1) (phys_addr &&& buddy)
        (buddy_of (phys_addr &&& buddy) (order + 1))
    else (order, phys_addr)

/-- The function `buddy_free(addr, size)`. -/
def buddy_free (K : Xtos) (addr size : Nat) (s : State) : State :=
  let order := get_order size
  let phys_addr := addr &&& not64 K.DMW_MASK
  let buddy := buddy_of phys_addr order
  let start_page := phys_addr >>> 12
  let r := release_loop start_page (2 ^ order) s.mem_map
  let s1 : State := { s with mem_map := r.1 }
  if r.2 then
    let m := merge_loop s1.free_list (MAX_ORDER - order) order phys_addr buddy
    let s2 := wr K s1 m.2 (s1.free_list m.1)
    let s3 : State := { s2 with free_list := upd s2.free_list m.1 m.2 }
    set_bit m.1 s3
  else s1

/-! ## Pages, page tables and copy-on-write -/

/-- Outcome of a function that may call `panic`: it returns `val` in state
`s`, or the kernel halts in state `s`. -/
inductive Result (α : Type) where
  | done (val : α) (s : State)
  | halted (s : State)

/-- The fields of `struct process` that `memory.c` reads. -/
structure process where
  page_directory : Nat
  exe_end : Nat

/-- The function `get_page`: one page from `buddy_alloc`, panic on `NULL`. -/
def get_page (K : Xtos) (s : State) : Result Nat :=
  let a := buddy_alloc K PAGE_SIZE s
  if a.1 = 0 then Result.halted a.2 else Result.done a.1 a.2

/-- The function `free_page`. -/
def free_page (K : Xtos) (page : Nat) (s : State) : State :=
  buddy_free K page PAGE_SIZE s

/-- The function `share_page`: panic on a free page, else `mem_map[i]++` in
8-bit arithmetic. -/
def share_page (K : Xtos) (page : Nat) (s : State) : Result Unit :=
  let i := (page &&& not64 K.DMW_MASK) >>> 12
  if s.mem_map i = 0 then Result.halted s
  else Result.done () { s with mem_map := upd s.mem_map i ((s.mem_map i + 1) % 256) }

/-- The comparison `c > 1` on a `char` with bit pattern `v`: patterns from 128
on are negative when plain `char` is signed. -/
def char_gt_one (K : Xtos) (v : Nat) : Bool :=
  if K.char_signed then decide (1 < v ∧ v < 128) else decide (1 < v)

/-- The function `is_share_page`: whether `mem_map[i] > 1`. -/
def is_share_page (K : Xtos) (page : Nat) (s : State) : Bool :=
  let i := (page &&& not64 K.DMW_MASK) >>> 12
  char_gt_one K (s.mem_map i)

/-- The pointer `pde` of `get_pte`:
`pd + ((u_vaddr >> 21) & 0x1ff) * ENTRY_SIZE`. -/
def pde_ptr (p : process) (u_vaddr : Nat) : Nat :=
  add64 p.page_directory (((u_vaddr >>> 21) &&& 0x1ff) * ENTRY_SIZE)

/-- The pointer `pte` of `get_pte` for the table `pt`:
`pt + ((u_vaddr >> 12) & 0x1ff) * ENTRY_SIZE`. -/
def pte_ptr (pt u_vaddr : Nat) : Nat :=
  add64 pt (((u_vaddr >>> 12) &&& 0x1ff) * ENTRY_SIZE)

/-- The function `get_pte`: pointer to the leaf entry of `u_vaddr`, after
allocating the second-level table when the directory entry is empty. -/
def get_pte (K : Xtos) (p : process) (u_vaddr : Nat) (s : State) : Result Nat :=
  let pde := pde_ptr p u_vaddr
  if rd K s pde ≠ 0 then
    let pt := rd K s pde ||| K.DMW_MASK
    Result.done (pte_ptr pt u_vaddr) s
  else
    match get_page K s with
    | Result.halted h => Result.halted h
    | Result.done pt s1 =>
      let s2 := wr K s1 pde (pt &&& not64 K.DMW_MASK)
      Result.done (pte_ptr pt u_vaddr) s2

/-- The page a leaf entry maps, as the sources compute it:
`(~0xfff & entry) | DMW_MASK`. -/
def entry_page (K : Xtos) (entry : Nat) : Nat :=
  (not64 0xfff &&& entry) ||| K.DMW_MASK

/-- The function `put_page`: panic when the leaf entry is non-zero, else store
`(k_vaddr & ~DMW_MASK) | attr`. -/
def put_page (K : Xtos) (p : process) (u_vaddr k_vaddr attr : Nat) (s : State) :
    Result Unit :=
  match get_pte K p u_vaddr s with
  | Result.halted h => Result.halted h
  | Result.done pte s1 =>
    if rd K s1 pte ≠ 0 then Result.halted s1
    else Result.done () (wr K s1 pte ((k_vaddr &&& not64 K.DMW_MASK) ||| attr))

/-- The body of the inner loop of `copy_page_table` for one leaf entry: an
empty entry and a shared dirty page are skipped (`continue`); otherwise the
page is shared, `PTE_D` is cleared in the source entry and the entry is copied
to the destination. -/
def copy_leaf (K : Xtos) (from_pte to_pte : Nat) (s : State) : Result Unit :=
  if rd K s from_pte = 0 then Result.done () s
  else
    let page := entry_page K (rd K s from_pte)
    if is_share_page K page s = true ∧ rd K s from_pte &&& K.PTE_D ≠ 0 then
      Result.done () s
    else
      match share_page K page s with
      | Result.halted h => Result.halted h
      | Result.done _ s1 =>
        let s2 := wr K s1 from_pte (rd K s1 from_pte &&& not64 K.PTE_D)
        Result.done () (wr K s2 to_pte (rd K s2 from_pte))

/-- The inner loop of `copy_page_table` over the leaf entries of one table;
the first argument counts the entries left, `from_pte` and `to_pte` advance by
one entry (8 bytes) per iteration. -/
def copy_leaves (K : Xtos) : Nat → Nat → Nat → State → Result Unit
  | 0, _, _, s => Result.done () s
  | n + 1, from_pte, to_pte, s =>
    match copy_leaf K from_pte to_pte s with
    | Result.halted h => Result.halted h
    | Result.done _ s1 =>
      copy_leaves K n (add64 from_pte ENTRY_SIZE) (add64 to_pte ENTRY_SIZE) s1

/-- The body of the outer loop of `copy_page_table` for one directory entry:
an empty entry is skipped; otherwise a table page is taken from `get_page`,
stored in the destination directory and filled by the inner loop. -/
def copy_table (K : Xtos) (from_pde to_pde : Nat) (s : State) : Result Unit :=
  if rd K s from_pde = 0 then Result.done () s
  else
    let from_pt := rd K s from_pde ||| K.DMW_MASK
    match get_page K s with
    | Result.halted h => Result.halted h
    | Result.done to_pt s1 =>
      let s2 := wr K s1 to_pde (to_pt &&& not64 K.DMW_MASK)
      copy_leaves K ENTRYS from_pt to_pt s2

/-- The outer loop of `copy_page_table` over the directory entries. -/
def copy_tables (K : Xtos) : Nat → Nat → Nat → State → Result Unit
  | 0, _, _, s => Result.done () s
  | n + 1, from_pde, to_pde, s =>
    match copy_table K from_pde to_pde s with
    | Result.halted h => Result.halted h
    | Result.done _ s1 =>
      copy_tables K n (add64 from_pde ENTRY_SIZE) (add64 to_pde ENTRY_SIZE) s1

/-- The function `copy_page_table(from, to)`. -/
def copy_page_table (K : Xtos) (from_p to_p : process) (s : State) : Result Unit :=
  copy_tables K ENTRYS from_p.page_directory to_p.page_directory s

/-- The function `do_wp_page`; `current` and the faulting address read from
`CSR_BADV` are arguments. -/
def do_wp_page (K : Xtos) (current : process) (u_vaddr : Nat) (s : State) :
    Result Unit :=
  match get_pte K current u_vaddr s with
  | Result.halted h => Result.halted h
  | Result.done pte s1 =>
    let old_page := entry_page K (rd K s1 pte)
    if is_share_page K old_page s1 = true then
      match get_page K s1 with
      | Result.halted h => Result.halted h
      | Result.done new_page s2 =>
        let s3 := wr K s2 pte
          ((new_page &&& not64 K.DMW_MASK) ||| K.PTE_PLV ||| K.PTE_D ||| K.PTE_V)
        let s4 : State :=
          { s3 with mem := copy_mem s3.mem (phys K new_page) (phys K old_page) PAGE_SIZE }
        Result.done () (free_page K old_page s4)
    else Result.done () (wr K s1 pte (rd K s1 pte ||| K.PTE_D))

/-- The state carried by a result. -/
def Result.state {α : Type} : Result α → State
  | Result.done _ s => s
  | Result.halted s => s

/-- The function `mem_init`: `buddy_init`, then the kernel pages are marked
used and every other page free.  The CSR writes are not part of the modelled
state. -/
def mem_init (K : Xtos) (s : State) : State :=
  let s1 := buddy_init K s
  { s1 with
    mem_map := fun i =>
      if i < NR_PAGE then
        (if KERNEL_START_PAGE ≤ i ∧ i < KERNEL_END_PAGE then 1 else 0)
      else s1.mem_map i }

/-- The machine before `main` runs: zero-initialised globals, zeroed memory. -/
def power_on : State :=
  { free_list := fun _ => 0, bitmap := fun _ => 0, mem_map := fun _ => 0,
    mem := fun _ => 0 }

/-- The state in which `main` calls `test_buddy_allocator`. -/
def boot : State := mem_init loongarch power_on

/-- The initial states considered: right after `buddy_init` alone, and after
the whole of `mem_init`, which is where `main` starts the self-test. -/
def initial_states : List State := [buddy_init loongarch power_on, boot]

/-! ## Call sequences

A caller that only allocates and frees, as `test_buddy_allocator` does: it
remembers the blocks it holds, and frees one of them with the size it was
allocated with. -/

/-- One call of the caller: allocate `size` bytes, or free the `k`-th block
it currently holds (most recent first). -/
inductive Call where
  | alloc (size : Nat)
  | free (k : Nat)

/-- The allocator state together with the outstanding allocations
`(pointer, size)`, most recent first. -/
structure Run where
  st : State
  live : List (Nat × Nat)

/-- One call.  A failed allocation (`NULL`) and a free of a block that is not
held leave the caller with the blocks it had. -/
def step (K : Xtos) (r : Run) : Call → Run
  | Call.alloc size =>
    let a := buddy_alloc K size r.st
    if a.1 = 0 then { st := a.2, live := r.live }
    else { st := a.2, live := (a.1, size) :: r.live }
  | Call.free k =>
    match r.live.get? k with
    | some b => { st := buddy_free K b.1 b.2 r.st, live := r.live.eraseIdx k }
    | none => r

/-- A sequence of calls from state `s`, nothing held at the start. -/
def run (K : Xtos) (calls : List Call) (s : State) : Run :=
  calls.foldl (step K) { st := s, live := [] }

/-- First physical page of a held block `(pointer, size)`. -/
def first_page (K : Xtos) (b : Nat × Nat) : Nat := phys K b.1 >>> 12

/-- The block `b` covers `page`: the page lies in
`[addr >> 12, (addr >> 12) + 2 ^ get_order size)`. -/
def covers (K : Xtos) (b : Nat × Nat) (page : Nat) : Prop :=
  first_page K b ≤ page ∧ page < first_page K b + 2 ^ get_order b.2

instance (K : Xtos) (b : Nat × Nat) (page : Nat) : Decidable (covers K b page) := by
  unfold covers; infer_instance

/-- Two held blocks have disjoint page ranges. -/
def disjoint (K : Xtos) (a b : Nat × Nat) : Prop :=
  first_page K a + 2 ^ get_order a.2 ≤ first_page K b ∨
    first_page K b + 2 ^ get_order b.2 ≤ first_page K a

instance (K : Xtos) (a b : Nat × Nat) : Decidable (disjoint K a b) := by
  unfold disjoint; infer_instance

/-- The calls of `test_buddy_allocator`, in order: 8KB, 16KB, 4KB, free the
16KB block, 16KB again, free the 8KB, the 4KB and the 16KB block. -/
def self_test : List Call :=
  [Call.alloc 8192, Call.alloc 16384, Call.alloc 4096, Call.free 1,
   Call.alloc 16384, Call.free 2, Call.free 1, Call.free 0]

/-- A process whose page directory is the first page handed out after boot. -/
def demo_process : process :=
  { page_directory := 0x9000000000300000, exe_end := 0 }

/-- The boot state after one `get_page` for the directory of
`demo_process`. -/
def demo_state : State := (get_page loongarch boot).state

/-- The state `demo_state` after `demo_process` maps the page `0x301000` at
virtual address 0 (`get_page`, then `put_page` with `PTE_PLV | PTE_V`) and the
page is shared once more (`share_page`), so that its count is 2. -/
def cow_state : State :=
  (share_page loongarch 0x9000000000301000
    (put_page loongarch demo_process 0 0x9000000000301000 13
      (get_page loongarch demo_state).state).state).state

/-- The assumptions on the `xtos.h` constants: `DMW_MASK` is a non-zero
64-bit mask above the physical address range, and the attribute bits of a
page-table entry lie in its low 12 bits. -/
def Xtos.sane (K : Xtos) : Prop :=
  K.DMW_MASK ≠ 0 ∧ K.DMW_MASK < 2 ^ 64 ∧ K.DMW_MASK % 2 ^ 32 = 0 ∧
    K.PTE_V < 2 ^ 12 ∧ K.PTE_D < 2 ^ 12 ∧ K.PTE_PLV < 2 ^ 12

instance (K : Xtos) : Decidable K.sane := by
  unfold Xtos.sane; infer_instance

/-- No block at the head of a free list whose bit is set reaches into the
bytes `[lo, hi)`, and each such block lies in physical memory. -/
def heads_avoid (s : State) (lo hi : Nat) : Prop :=
  ∀ o, o ≤ MAX_ORDER → s.bitmap o ≠ 0 →
    s.free_list o + 2 ^ (o + 12) ≤ MEMORY_SIZE ∧
      (hi ≤ s.free_list o ∨ s.free_list o + 2 ^ (o + 12) ≤ lo)

instance (s : State) (lo hi : Nat) : Decidable (heads_avoid s lo hi) := by
  unfold heads_avoid; infer_instance


/-! ## Free lists as linked lists in memory -/

/-- The chain of `next` pointers from head `h` visits exactly the blocks of
`l`, in order, and ends with `NULL`. -/
def IsList (m : Nat → Nat) : Nat → List Nat → Prop
  | h, [] => h = 0
  | h, b :: t => h = b ∧ b ≠ 0 ∧ IsList m (load64 m b) t

/-- Decision procedure for `IsList`. -/
def IsList.dec (m : Nat → Nat) : (h : Nat) → (l : List Nat) → Decidable (IsList m h l)
  | h, [] => inferInstanceAs (Decidable (h = 0))
  | h, b :: t =>
    haveI := IsList.dec m (load64 m b) t
    inferInstanceAs (Decidable (h = b ∧ b ≠ 0 ∧ IsList m (load64 m b) t))

instance (m : Nat → Nat) (h : Nat) (l : List Nat) : Decidable (IsList m h l) :=
  IsList.dec m h l

/-- The blocks of order `o` in a list of free blocks `(order, address)`. -/
def of_order : List (Nat × Nat) → Nat → List Nat
  | [], _ => []
  | x :: t, o => if x.1 = o then x.2 :: of_order t o else of_order t o

/-- Removal of the first block of order `k`. -/
def pop_order : List (Nat × Nat) → Nat → List (Nat × Nat)
  | [], _ => []
  | x :: t, k => if x.1 = k then t else x :: pop_order t k

/-- The upper halves split off a block at `b` when it is cut down from order
`i` to order 0: `b + 2 ^ (j + 12)` at order `j`, for `j < i`. -/
def split_blocks (b : Nat) : Nat → List (Nat × Nat)
  | 0 => []
  | i + 1 => (i, b + 2 ^ (i + 12)) :: split_blocks b i

/-- End address of a free block `(order, address)`. -/
def block_end (x : Nat × Nat) : Nat := x.2 + 2 ^ (x.1 + 12)

/-- The free lists are well formed with respect to the free blocks `F` and the
protected pages `X`: list `o` is the chain of the blocks of order `o`, a set
presence bit means a non-empty list, the blocks are page-aligned, inside
physical memory and pairwise disjoint, and none of them contains a page of
`X`. -/
def FreeInv (s : State) (F : List (Nat × Nat)) (X : List Nat) : Prop :=
  (∀ o, o ≤ MAX_ORDER → IsList s.mem (s.free_list o) (of_order F o)) ∧
  (∀ o, o ≤ MAX_ORDER → s.bitmap o ≤ 1 ∧ (s.bitmap o ≠ 0 → of_order F o ≠ [])) ∧
  (∀ x ∈ F, x.2 % 4096 = 0 ∧ block_end x ≤ MEMORY_SIZE) ∧
  F.Pairwise (fun x y => block_end x ≤ y.2 ∨ block_end y ≤ x.2) ∧
  (∀ x ∈ F, ∀ p ∈ X, p * 4096 + 4096 ≤ x.2 ∨ block_end x ≤ p * 4096)

instance (s : State) (F : List (Nat × Nat)) (X : List Nat) : Decidable (FreeInv s F X) := by
  unfold FreeInv; infer_instance

/-! ## Page-table trees -/

/-- The pointer `p` designates physical address `a`, directly or through the
direct-mapping window. -/
def points_to (K : Xtos) (p a : Nat) : Prop := p = a ∨ p = a ||| K.DMW_MASK

instance (K : Xtos) (p a : Nat) : Decidable (points_to K p a) := by
  unfold points_to; infer_instance

/-- Entry `i` of the directory at physical address `A`. -/
def dir_at (s : State) (A i : Nat) : Nat := load64 s.mem (A + 8 * i)

/-- Leaf entry `j` of the table that entry `i` of the directory at `A` points
to. -/
def leaf_at (s : State) (A i j : Nat) : Nat := load64 s.mem (dir_at s A i + 8 * j)

/-- The `mem_map` index of the page a leaf entry maps, as `share_page` and
`is_share_page` compute it. -/
def page_index (K : Xtos) (entry : Nat) : Nat := phys K (entry_page K entry) >>> 12

/-- The test of `copy_page_table` under which a leaf is skipped: the page is
shared and the entry has `PTE_D` set. -/
def cow_skipped (K : Xtos) (s : State) (entry : Nat) : Prop :=
  is_share_page K (entry_page K entry) s = true ∧ entry &&& K.PTE_D ≠ 0

instance (K : Xtos) (s : State) (entry : Nat) : Decidable (cow_skipped K s entry) := by
  unfold cow_skipped; infer_instance

/-- The source tree is well formed: the directory at `A` is a protected page
of physical memory, and every present directory entry holds the address of a
protected table page that is neither the directory nor the table of another
entry. -/
def TreeOK (s : State) (A : Nat) (X : List Nat) : Prop :=
  A % 4096 = 0 ∧ A + 4096 ≤ MEMORY_SIZE ∧ A / 4096 ∈ X ∧
  ∀ i, i < ENTRYS → dir_at s A i ≠ 0 →
    dir_at s A i % 4096 = 0 ∧ dir_at s A i + 4096 ≤ MEMORY_SIZE ∧
    dir_at s A i / 4096 ∈ X ∧ dir_at s A i ≠ A ∧
    ∀ i', i' < ENTRYS → i' ≠ i → dir_at s A i' ≠ dir_at s A i

instance (s : State) (A : Nat) (X : List Nat) : Decidable (TreeOK s A X) := by
  unfold TreeOK; infer_instance

/-- The destination directory at `B` is a protected page of physical memory
other than the source directory and its tables. -/
def DestOK (s : State) (A B : Nat) (X : List Nat) : Prop :=
  B % 4096 = 0 ∧ B + 4096 ≤ MEMORY_SIZE ∧ B / 4096 ∈ X ∧ B ≠ A ∧
  ∀ i, i < ENTRYS → dir_at s A i ≠ B

instance (s : State) (A B : Nat) (X : List Nat) : Decidable (DestOK s A B X) := by
  unfold DestOK; infer_instance

/-- No present leaf `j'` of table `i'`, other than those set aside by `skip`,
maps the page with index `q`. -/
def leaves_avoid (K : Xtos) (s : State) (A i' q : Nat) (skip : Nat → Prop)
    [DecidablePred skip] : Prop :=
  ∀ j', j' < ENTRYS → ¬ skip j' → leaf_at s A i' j' ≠ 0 →
    page_index K (leaf_at s A i' j') ≠ q

instance (K : Xtos) (s : State) (A i' q : Nat) (skip : Nat → Prop) [DecidablePred skip] :
    Decidable (leaves_avoid K s A i' q skip) := by
  unfold leaves_avoid; infer_instance

/-- The page mapped by leaf `(i, j)` of the tree at `A` is mapped by that leaf
only: no other present leaf of a present table has the same page index. -/
def only_leaf (K : Xtos) (s : State) (A i j : Nat) : Prop :=
  ∀ i', i' < ENTRYS → dir_at s A i' ≠ 0 →
    leaves_avoid K s A i' (page_index K (leaf_at s A i j)) (fun j' => i' = i ∧ j' = j)

instance (K : Xtos) (s : State) (A i j : Nat) : Decidable (only_leaf K s A i j) := by
  unfold only_leaf; infer_instance

/-- Successive clones of `from_p` into the processes of a list. -/
def clones (K : Xtos) (from_p : process) : List process → State → Result Unit
  | [], s => Result.done () s
  | to_p :: rest, s =>
    match copy_page_table K from_p to_p s with
    | Result.halted h => Result.halted h
    | Result.done _ s1 => clones K from_p rest s1


/-- Whether a result is a normal return. -/
def Result.is_done {α : Type} : Result α → Bool
  | Result.done _ _ => true
  | Result.halted _ => false

/-- The state `cow_state` after one more `get_page`, for the page directory
of the process `clone_dest`. -/
def clone_state : State := (get_page loongarch cow_state).state

/-- A process whose page directory is the page `0x303000`. -/
def clone_dest : process :=
  { page_directory := 0x9000000000303000, exe_end := 0 }

/-- The free blocks of `clone_state`: one block per order from 2 to 13. -/
def clone_free : List (Nat × Nat) :=
  (List.range 12).map (fun k => (k + 2, 0x300000 + 2 ^ (k + 14)))

/-- The pages in use in `clone_state`: directory, mapped page, table and
destination directory. -/
def clone_pages : List Nat := [0x300, 0x301, 0x302, 0x303]

/-! ## Further call sequences -/

/-- Four single pages are allocated, the second, the fourth and the third are
freed in that order, then a block of two pages is requested. -/
def stale_calls : List Call :=
  [Call.alloc 4096, Call.alloc 4096, Call.alloc 4096, Call.alloc 4096,
   Call.free 2, Call.free 0, Call.free 0, Call.alloc 8192]

/-- The boot state with one byte of the second arena page set to `0xAA`, as a
machine whose memory is not all zero at power-on would have it. -/
def stale_boot : State :=
  State.mk boot.free_list boot.bitmap boot.mem_map (upd boot.mem 0x301000 0xAA)

/-- Five blocks of 1MB are allocated, then the last four are freed, most
recent first. -/
def null_push : List Call :=
  [Call.alloc 0x100000, Call.alloc 0x100000, Call.alloc 0x100000, Call.alloc 0x100000,
   Call.alloc 0x100000, Call.free 0, Call.free 0, Call.free 0, Call.free 0]

/-- The boot state after a block of two pages was allocated and its first page
shared once more (`share_page`): the counts of the two pages are 2 and 1. -/
def shared_block : State :=
  (share_page loongarch 0x9000000000300000 (buddy_alloc loongarch 8192 boot).2).state

/-- The boot state after one page was allocated and freed again. -/
def freed_once : State :=
  buddy_free loongarch 0x9000000000300000 4096 (buddy_alloc loongarch 4096 boot).2

/-! ## Address-space teardown -/

/-- One record of `shmem_table`, with the two fields that `memory.c` uses.
The type `struct shmem` and the constant `NR_SHMEM` come from `xtos.h`, which
is not among the sources: the table is a parameter of the teardown, and
`NR_SHMEM` is its length. -/
structure shmem where
  mem : Nat
  count : Int

/-- The search loop `for (i = 0; i < NR_SHMEM; i++)` inside `free_page_table`,
on the records from index `i` on: the first record whose `mem` is `page` gets
its count decremented and the loop breaks.  The result is the value of `i`
when the loop ends, and the table. -/
def shmem_release (page : Nat) : List shmem → Nat → Nat × List shmem
  | [], i => (i, [])
  | e :: rest, i =>
    if e.mem = page then (i, { e with count := e.count - 1 } :: rest)
    else
      let r := shmem_release page rest (i + 1)
      (r.1, e :: r.2)

/-- What the loops of `free_page_table` carry: the variable `i`, which the
outer loop declares and the search loop assigns as well, the machine state and
the shared-memory table. -/
structure Walk where
  i : Nat
  st : State
  sh : List shmem

/-- The body of the inner loop of `free_page_table` for one leaf entry: an
empty entry is skipped; for a shared page with `PTE_D` set the search loop
runs on `i`; the page is freed and the entry cleared. -/
def free_leaf (K : Xtos) (pte : Nat) (w : Walk) : Walk :=
  if rd K w.st pte = 0 then w
  else
    let page := entry_page K (rd K w.st pte)
    let w1 : Walk :=
      if is_share_page K page w.st = true ∧ rd K w.st pte &&& K.PTE_D ≠ 0 then
        Walk.mk (shmem_release page w.sh 0).1 w.st (shmem_release page w.sh 0).2
      else w
    Walk.mk w1.i (wr K (free_page K page w1.st) pte 0) w1.sh

/-- The inner loop of `free_page_table` over the leaf entries of one table;
the first argument counts the entries left. -/
def free_leaves (K : Xtos) : Nat → Nat → Walk → Walk
  | 0, _, w => w
  | n + 1, pte, w => free_leaves K n (add64 pte ENTRY_SIZE) (free_leaf K pte w)

/-- The body of the outer loop of `free_page_table` for one directory entry:
an empty entry is skipped; otherwise the leaves are freed, then the table
page, and the entry is cleared. -/
def free_table (K : Xtos) (pde : Nat) (w : Walk) : Walk :=
  if rd K w.st pde = 0 then w
  else
    let pt := rd K w.st pde ||| K.DMW_MASK
    let w1 := free_leaves K ENTRYS pt w
    Walk.mk w1.i (wr K (free_page K (rd K w1.st pde ||| K.DMW_MASK) w1.st) pde 0) w1.sh

/-- The outer loop of `free_page_table`, `for (i = 0; i < ENTRYS; i++, pde++)`.
Its condition tests the variable `i` that the search loop may have assigned,
so the number of iterations is not known in advance: the first argument
bounds it, and `none` means the bound was reached. -/
def free_tables (K : Xtos) : Nat → Nat → Walk → Option Walk
  | 0, _, _ => none
  | fuel + 1, pde, w =>
    if w.i < ENTRYS then
      let w1 := free_table K pde w
      free_tables K fuel (add64 pde ENTRY_SIZE) (Walk.mk (w1.i + 1) w1.st w1.sh)
    else some w

/-- The function `free_page_table(p)`. -/
def free_page_table (K : Xtos) (fuel : Nat) (p : process) (s : State) (sh : List shmem) :
    Option Walk :=
  free_tables K fuel p.page_directory (Walk.mk 0 s sh)

/-- The state `demo_state` after `demo_process` maps the page `0x301000` at
virtual address 0 with `PTE_PLV | PTE_D | PTE_V`, the page is shared once more
(`share_page`), and the process maps the page `0x303000` at the last virtual
address range of its directory, `511 << 21`. -/
def teardown_state : State :=
  (put_page loongarch demo_process 0x3FE00000 0x9000000000303000 15
    (get_page loongarch
      (share_page loongarch 0x9000000000301000
        (put_page loongarch demo_process 0 0x9000000000301000 15
          (get_page loongarch demo_state).state).state).state).state).state

/-- A shared-memory table of two records, the second of which registers the
page `0x301000`. -/
def teardown_shmem : List shmem :=
  [{ mem := 0x9000000000310000, count := 1 }, { mem := 0x9000000000301000, count := 2 }]

/-- The state `demo_state` after `demo_process` gets the page `0x301000`,
stores the word `0x305000` at its start, maps it at virtual address `1 << 21`
(directory entry 1) with `PTE_PLV | PTE_D | PTE_V`, and the page is shared
once more. -/
def overrun_state : State :=
  (share_page loongarch 0x9000000000301000
    (put_page loongarch demo_process 0x200000 0x9000000000301000 15
      (wr loongarch (get_page loongarch demo_state).state
        0x9000000000301000 0x305000)).state).state

/-- A shared-memory table whose first record registers the page `0x301000`. -/
def overrun_shmem : List shmem :=
  [{ mem := 0x9000000000301000, count := 2 }]

/-- The state `teardown_state` after the teardown freed the page of leaf 0 of
the first table and cleared that leaf. -/
def teardown_after_leaf : State :=
  wr loongarch (free_page loongarch 0x9000000000301000 teardown_state) 0x9000000000302000 0

/-- The state `teardown_after_leaf` after the teardown freed the first table
page and cleared directory entry 0. -/
def teardown_after_table : State :=
  wr loongarch (free_page loongarch 0x9000000000302000 teardown_after_leaf)
    0x9000000000300000 0

/-! ## Closed forms of the page loops

The loops of `buddy_alloc` and `buddy_free` over the pages of a block, written
as one range test, and the allocator built on them.  Each definition here is
equal to the one translated from the source (`mark_used_closed`,
`release_loop_closed`, ..., `run_closed_eq`); they only serve to evaluate long
call sequences on large blocks. -/

/-- Closed form of `mark_used`: the pages `start_page .. start_page + n - 1`
get count 1. -/
def mark_range (start_page n : Nat) (mm : Nat → Nat) : Nat → Nat :=
  fun x => if start_page ≤ x ∧ x < start_page + n then 1 else mm x

/-- Closed form of `release_loop`: the counts of the pages of the range are
decremented in 8-bit arithmetic, and the flag tells whether all of them are
zero afterwards. -/
def release_range (start_page n : Nat) (mm : Nat → Nat) : (Nat → Nat) × Bool :=
  (fun x => if start_page ≤ x ∧ x < start_page + n then (mm x + 255) % 256 else mm x,
   decide (∀ j, j < n → (mm (start_page + j) + 255) % 256 = 0))

/-- The definition `alloc_block` with `mark_range` for `mark_used`. -/
def alloc_block_closed (K : Xtos) (order i : Nat) (s : State) : Nat × State :=
  let block := s.free_list i
  let s1 : State := { s with free_list := upd s.free_list i (rd K s block) }
  let s2 := if s1.free_list i = 0 then clear_bit i s1 else s1
  let s3 := split_loop K order block i s2
  let start_page := block >>> 12
  let s4 : State := { s3 with mem_map := mark_range start_page (2 ^ order) s3.mem_map }
  let aligned_address := block ||| K.DMW_MASK
  let s5 : State := { s4 with mem := set_mem s4.mem (phys K aligned_address) 0 PAGE_SIZE }
  (aligned_address, s5)

/-- The definition `alloc_scan` on `alloc_block_closed`. -/
def alloc_scan_closed (K : Xtos) (order : Nat) : Nat → Nat → State → Nat × State
  | 0, _, s => (0, s)
  | n + 1, i, s =>
    if s.bitmap i ≠ 0 then alloc_block_closed K order i s
    else alloc_scan_closed K order n (i + 1) s

/-- The definition `buddy_alloc` on `alloc_scan_closed`. -/
def buddy_alloc_closed (K : Xtos) (size : Nat) (s : State) : Nat × State :=
  let order := get_order size
  alloc_scan_closed K order (MAX_ORDER + 1 - order) order s

/-- The definition `buddy_free` with `release_range` for `release_loop`. -/
def buddy_free_closed (K : Xtos) (addr size : Nat) (s : State) : State :=
  let order := get_order size
  let phys_addr := addr &&& not64 K.DMW_MASK
  let buddy := buddy_of phys_addr order
  let start_page := phys_addr >>> 12
  let r := release_range start_page (2 ^ order) s.mem_map
  let s1 : State := { s with mem_map := r.1 }
  if r.2 then
    let m := merge_loop s1.free_list (MAX_ORDER - order) order phys_addr buddy
    let s2 := wr K s1 m.2 (s1.free_list m.1)
    let s3 : State := { s2 with free_list := upd s2.free_list m.1 m.2 }
    set_bit m.1 s3
  else s1

/-- The definition `step` on the closed forms. -/
def step_closed (K : Xtos) (r : Run) : Call → Run
  | Call.alloc size =>
    let a := buddy_alloc_closed K size r.st
    if a.1 = 0 then { st := a.2, live := r.live }
    else { st := a.2, live := (a.1, size) :: r.live }
  | Call.free k =>
    match r.live.get? k with
    | some b => { st := buddy_free_closed K b.1 b.2 r.st, live := r.live.eraseIdx k }
    | none => r

/-- The definition `run` on the closed forms. -/
def run_closed (K : Xtos) (calls : List Call) (s : State) : Run :=
  calls.foldl (step_closed K) { st := s, live := [] }

/-- The state `overrun_state` after the teardown freed the page of leaf 0 of
the table of directory entry 1 and cleared that leaf. -/
def overrun_after_leaf : State :=
  wr loongarch (free_page loongarch 0x9000000000301000 overrun_state) 0x9000000000302000 0

/-- The state `overrun_after_leaf` after the teardown freed that table page
and cleared directory entry 1. -/
def overrun_after_table : State :=
  wr loongarch (free_page loongarch 0x9000000000302000 overrun_after_leaf)
    0x9000000000300008 0

/-- The state `overrun_after_table` after the teardown took the word at
`0x301000`, one entry past the directory, for a directory entry: the page
`0x305000` it names is freed and the word cleared. -/
def overrun_after_stray : State :=
  wr loongarch (free_page loongarch 0x9000000000305000 overrun_after_table)
    0x9000000000301000 0

/-- The boot state after the calls of `test_buddy_allocator`. -/
def after_self_test : State := (run loongarch self_test boot).st

/-! ## States reached after a merging free

The states below are built by calls of the allocator and of the page-table
functions only, starting with one page that is allocated and freed again. -/

/-- The boot state after one page was allocated by `get_page` and freed by
`free_page`: the merge loop left the blocks `0x301000`, `0x302000`, ... on the
lists 0 to 7 and pushed `0x300000` on list 8. -/
def merged_state : State :=
  free_page loongarch 0x9000000000300000 (get_page loongarch boot).state

/-- Successive calls `buddy_alloc(size)` for the sizes of a list; the returned
blocks are kept by the caller. -/
def alloc_all (K : Xtos) (sizes : List Nat) (s : State) : State :=
  sizes.foldl (fun st size => (buddy_alloc K size st).2) s

/-- A process whose page directory is the page `0x301000`. -/
def wp_process : process :=
  { page_directory := 0x9000000000301000, exe_end := 0 }

/-- The state in which `wp_process` takes a write fault at virtual address 0:
from `merged_state`, `get_page` gives the directory `0x301000` and the page
`0x302000`, the process stores the word `0x1122334455667788` at the start of
the page, `put_page` maps it at virtual address 0 (its table is `0x303000`),
`share_page` raises its count to 2, and six more blocks of 16KB to 512KB are
allocated. -/
def wp_state : State :=
  alloc_all loongarch [0x4000, 0x8000, 0x10000, 0x20000, 0x40000, 0x80000]
    (share_page loongarch 0x9000000000302000
      (put_page loongarch wp_process 0 0x9000000000302000 13
        (wr loongarch (get_page loongarch (get_page loongarch merged_state).state).state
          0x9000000000302000 0x1122334455667788)).state).state

/-- The write fault of `wp_process` at virtual address 0 in `wp_state`. -/
def wp_fault : Result Unit := do_wp_page loongarch wp_process 0 wp_state

/-- A process whose page directory is the page `0x302000`. -/
def fork_parent : process :=
  { page_directory := 0x9000000000302000, exe_end := 0 }

/-- A process whose page directory is the page `0x305000`. -/
def fork_child : process :=
  { page_directory := 0x9000000000305000, exe_end := 0 }

/-- The state in which the address space of `fork_parent` is cloned: from
`merged_state`, `get_page` gives the pages `0x301000`, `0x302000` (the directory
of `fork_parent`) and `0x303000`, `put_page` maps `0x303000` writable at virtual
address 0 (its table is `0x304000`), `get_page` gives the directory `0x305000` of
`fork_child`, and six more blocks of 8KB to 512KB are allocated. -/
def fork_state : State :=
  alloc_all loongarch [0x2000, 0x8000, 0x10000, 0x20000, 0x40000, 0x80000]
    (get_page loongarch
      (put_page loongarch fork_parent 0 0x9000000000303000 15
        (get_page loongarch (get_page loongarch
          (get_page loongarch merged_state).state).state).state).state).state

/-- The clone of `fork_parent` into `fork_child` in `fork_state`. -/
def fork_clone : Result Unit := copy_page_table loongarch fork_parent fork_child fork_state

/-- The state `fork_state` after `get_page` gave the clone its first table page,
`0x300000`, and the page was stored in entry 0 of the directory of
`fork_child`. -/
def fork_after_entry : State :=
  wr loongarch (get_page loongarch fork_state).state 0x9000000000305000
    (0x9000000000300000 &&& not64 loongarch.DMW_MASK)

/-! ## `get_order` -/

theorem get_order_loop_spec (fuel : Nat) :
    ∀ n order, n < 2 ^ fuel →
      ∃ k, get_order_loop fuel n order = order + k ∧ n < 2 ^ k ∧
        ∀ j, n < 2 ^ j → k ≤ j := by
  induction fuel with
  | zero =>
    intro n order h
    have hn : n = 0 := by simpa using h
    subst hn
    exact ⟨0, by simp [get_order_loop], by simp, by simp⟩
  | succ f ih =>
    intro n order h
    by_cases hn : n = 0
    · subst hn
      exact ⟨0, by simp [get_order_loop], by simp, by simp⟩
    · have hpos : n > 0 := Nat.pos_of_ne_zero hn
      have h2 : n >>> 1 < 2 ^ f := by
        rw [Nat.shiftRight_eq_div_pow]
        rw [pow_succ] at h
        omega
      obtain ⟨k, hk, hlt, hmin⟩ := ih (n >>> 1) (order + 1) h2
      refine ⟨k + 1, ?_, ?_, ?_⟩
      · simp only [get_order_loop, hpos, if_true, hk]
        omega
      · rw [Nat.shiftRight_eq_div_pow] at hlt
        rw [pow_succ]
        omega
      · intro j hj
        cases j with
        | zero => simp at hj; omega
        | succ j =>
          have : n >>> 1 < 2 ^ j := by
            rw [Nat.shiftRight_eq_div_pow]
            rw [pow_succ] at hj
            omega
          have := hmin j this
          omega

/-- C3: for every size `1 ≤ s < 2 ^ 32`, `get_order s` is the least order `o`
with `2 ^ o * 4096 ≥ s`; `get_order 1 = 0` and `get_order 4097 = 1`. -/
theorem get_order_least (s : Nat) (h1 : 1 ≤ s) (h2 : s < 2 ^ 32) :
    (s ≤ 2 ^ get_order s * PAGE_SIZE ∧
      ∀ o, s ≤ 2 ^ o * PAGE_SIZE → get_order s ≤ o) ∧
    get_order 1 = 0 ∧ get_order 4097 = 1 := by
  refine ⟨?_, by decide, by decide⟩
  have hs : uint_pred s = s - 1 := by
    unfold uint_pred
    rw [Nat.mod_eq_of_lt h2, if_neg (by omega)]
  have hn : (s - 1) >>> 12 < 2 ^ 32 := by
    rw [Nat.shiftRight_eq_div_pow]
    omega
  obtain ⟨k, hk, hlt, hmin⟩ := get_order_loop_spec 32 ((s - 1) >>> 12) 0 hn
  have hg : get_order s = k := by
    unfold get_order
    rw [hs, hk]
    omega
  rw [hg]
  rw [Nat.shiftRight_eq_div_pow] at hlt hmin
  have key : ∀ j, (s - 1) / 2 ^ 12 < 2 ^ j ↔ s ≤ 2 ^ j * PAGE_SIZE := by
    intro j
    rw [Nat.div_lt_iff_lt_mul (by norm_num)]
    simp only [PAGE_SIZE]
    omega
  exact ⟨(key k).1 hlt, fun o ho => hmin o ((key o).2 ho)⟩

theorem get_order_least_witness :
    (1 ≤ 5000 ∧ 5000 < 2 ^ 32) ∧
    ((5000 ≤ 2 ^ get_order 5000 * PAGE_SIZE ∧
      ∀ o, 5000 ≤ 2 ^ o * PAGE_SIZE → get_order 5000 ≤ o) ∧
    get_order 1 = 0 ∧ get_order 4097 = 1) :=
  ⟨by decide, get_order_least 5000 (by decide) (by decide)⟩

/-! ## Bit-level facts -/

theorem not64_lt (x : Nat) : not64 x < 2 ^ 64 := by
  unfold not64
  exact Nat.xor_lt_two_pow (by norm_num) (Nat.mod_lt _ (by norm_num))

theorem testBit_not64 (x i : Nat) :
    (not64 x).testBit i = (decide (i < 64) && !x.testBit i) := by
  unfold not64
  rw [Nat.testBit_xor, Nat.testBit_two_pow_sub_one, Nat.testBit_mod_two_pow]
  by_cases h : i < 64 <;> simp [h]

theorem clear_then_set (p D : Nat) (hp : p < 2 ^ 64) :
    (p &&& not64 D) ||| D = p ||| D := by
  apply Nat.eq_of_testBit_eq
  intro i
  simp only [Nat.testBit_or, Nat.testBit_and, testBit_not64]
  by_cases h : i < 64
  · simp [h]
    cases p.testBit i <;> cases D.testBit i <;> simp
  · have h64 : 64 ≤ i := by omega
    have : p.testBit i = false :=
      Nat.testBit_lt_two_pow (lt_of_lt_of_le hp (Nat.pow_le_pow_right (by norm_num) h64))
    simp [h, this]

theorem lor_ne_zero_right (x D : Nat) (hD : D ≠ 0) : x ||| D ≠ 0 := by
  intro h
  apply hD
  apply Nat.eq_of_testBit_eq
  intro i
  have := congrArg (fun n => Nat.testBit n i) h
  simp only [Nat.testBit_or, Nat.zero_testBit, Bool.or_eq_false_iff] at this
  simp [this.2]
theorem alloc_block_ne (K : Xtos) (hD : K.DMW_MASK ≠ 0) (order i : Nat) (s : State) :
    (alloc_block K order i s).1 ≠ 0 := by
  show s.free_list i ||| K.DMW_MASK ≠ 0
  exact lor_ne_zero_right _ _ hD

theorem alloc_scan_fail (K : Xtos) (hD : K.DMW_MASK ≠ 0) (order : Nat) :
    ∀ n i s,
      ((alloc_scan K order n i s).1 = 0 ↔ ∀ j, i ≤ j → j < i + n → s.bitmap j = 0) ∧
      ((alloc_scan K order n i s).1 = 0 → (alloc_scan K order n i s).2 = s) := by
  intro n
  induction n with
  | zero =>
    intro i s
    simp [alloc_scan]
    intro j h1 h2; omega
  | succ n ih =>
    intro i s
    by_cases hb : s.bitmap i = 0
    · have := ih (i + 1) s
      have e : alloc_scan K order (n + 1) i s = alloc_scan K order n (i + 1) s := by
        simp [alloc_scan, hb]
      rw [e]
      refine ⟨?_, this.2⟩
      rw [this.1]
      constructor
      · intro h j h1 h2
        by_cases hj : j = i
        · subst hj; exact hb
        · exact h j (by omega) (by omega)
      · intro h j h1 h2
        exact h j (by omega) (by omega)
    · have hne := alloc_block_ne K hD order i s
      have e : alloc_scan K order (n + 1) i s = alloc_block K order i s := by
        simp [alloc_scan, hb]
      rw [e]
      refine ⟨?_, fun h => absurd h hne⟩
      constructor
      · intro h; exact absurd h hne
      · intro h; exact absurd (h i (le_refl _) (by omega)) hb

/-- C4: `buddy_alloc(size)` returns `NULL` exactly when no order `i` with
`get_order size ≤ i ≤ MAX_ORDER` has `bitmap[i]` set, and then the free
lists, the bitmap, `mem_map` and memory are unchanged. -/
theorem buddy_alloc_fails_iff (K : Xtos) (hD : K.DMW_MASK ≠ 0) (size : Nat) (s : State) :
    ((buddy_alloc K size s).1 = 0 ↔
      ∀ i, get_order size ≤ i → i ≤ MAX_ORDER → s.bitmap i = 0) ∧
    ((buddy_alloc K size s).1 = 0 → (buddy_alloc K size s).2 = s) := by
  have h := alloc_scan_fail K hD (get_order size) (MAX_ORDER + 1 - get_order size)
    (get_order size) s
  refine ⟨?_, h.2⟩
  show (alloc_scan K (get_order size) (MAX_ORDER + 1 - get_order size)
    (get_order size) s).1 = 0 ↔ _
  rw [h.1]
  generalize get_order size = o
  simp only [MAX_ORDER]
  constructor
  · intro g i h1 h2; exact g i h1 (by omega)
  · intro g i h1 h2; exact g i h1 (by omega)

theorem buddy_alloc_fails_iff_witness :
    loongarch.DMW_MASK ≠ 0 ∧
    (((buddy_alloc loongarch 0x8000000 boot).1 = 0 ↔
      ∀ i, get_order 0x8000000 ≤ i → i ≤ MAX_ORDER → boot.bitmap i = 0) ∧
    ((buddy_alloc loongarch 0x8000000 boot).1 = 0 →
      (buddy_alloc loongarch 0x8000000 boot).2 = boot)) :=
  ⟨by decide, buddy_alloc_fails_iff loongarch (by decide) 0x8000000 boot⟩

/-! ## `buddy_free` followed by `buddy_alloc` -/

theorem merge_loop_order_le (fl : Nat → Nat) :
    ∀ n order p b, order ≤ (merge_loop fl n order p b).1 := by
  intro n
  induction n with
  | zero => intro order p b; exact le_refl _
  | succ n ih =>
    intro order p b
    by_cases g : order < MAX_ORDER ∧ fl order = b
    · have e : merge_loop fl (n + 1) order p b =
          merge_loop fl n (order + 1) (p &&& b) (buddy_of (p &&& b) (order + 1)) := by
        simp [merge_loop, g]
      rw [e]
      exact le_trans (Nat.le_succ _) (ih _ _ _)
    · have e : merge_loop fl (n + 1) order p b = (order, p) := by
        simp only [merge_loop, g, if_false]
      rw [e]

theorem merge_loop_same (fl : Nat → Nat) (n order p b : Nat)
    (h : (merge_loop fl n order p b).1 = order) : (merge_loop fl n order p b).2 = p := by
  cases n with
  | zero => rfl
  | succ n =>
    by_cases g : order < MAX_ORDER ∧ fl order = b
    · have e : merge_loop fl (n + 1) order p b =
          merge_loop fl n (order + 1) (p &&& b) (buddy_of (p &&& b) (order + 1)) := by
        simp [merge_loop, g]
      rw [e] at h
      have := merge_loop_order_le fl n (order + 1) (p &&& b) (buddy_of (p &&& b) (order + 1))
      omega
    · have e : merge_loop fl (n + 1) order p b = (order, p) := by
        simp only [merge_loop, g, if_false]
      rw [e]

theorem lor_one_ne_zero (x : Nat) : x ||| 1 ≠ 0 := lor_ne_zero_right x 1 (by decide)

/-- C6: if `buddy_free(p, s)` drops every count of the block to zero and
re-lists it at its own order, the next `buddy_alloc(s)` succeeds and returns
`p`; and in the self-test the first three allocations succeed at pairwise
disjoint, 4096-aligned blocks and the second 16KB allocation returns the
address just freed. -/
theorem lifo_reuse (K : Xtos) (s : State) (p size : Nat)
    (hD : K.DMW_MASK ≠ 0) (hp : p < 2 ^ 64) (hw : p ||| K.DMW_MASK = p)
    (ho : get_order size ≤ MAX_ORDER)
    (hflag : (release_loop (phys K p >>> 12) (2 ^ get_order size) s.mem_map).2 = true)
    (hsame : (merge_loop s.free_list (MAX_ORDER - get_order size) (get_order size)
      (phys K p) (buddy_of (phys K p) (get_order size))).1 = get_order size) :
    ((buddy_alloc K size (buddy_free K p size s)).1 = p ∧ p ≠ 0) ∧
    (∀ s0 ∈ initial_states,
      (run loongarch (self_test.take 3) s0).live =
        [(0x9000000000302000, 4096), (0x9000000000304000, 16384),
         (0x9000000000300000, 8192)] ∧
      (run loongarch (self_test.take 3) s0).live.Pairwise (disjoint loongarch) ∧
      (∀ b ∈ (run loongarch (self_test.take 3) s0).live, b.1 % 4096 = 0) ∧
      (run loongarch (self_test.take 4) s0).live =
        [(0x9000000000302000, 4096), (0x9000000000300000, 8192)] ∧
      (run loongarch (self_test.take 5) s0).live =
        [(0x9000000000304000, 16384), (0x9000000000302000, 4096),
         (0x9000000000300000, 8192)]) := by
  refine ⟨⟨?_, ?_⟩, by decide!⟩
  · have h2 := merge_loop_same _ _ _ _ _ hsame
    have hfree : (buddy_free K p size s).free_list (get_order size) = phys K p ∧
        (buddy_free K p size s).bitmap (get_order size) ≠ 0 := by
      simp only [buddy_free]
      have hflag' : (release_loop ((p &&& not64 K.DMW_MASK) >>> 12) (2 ^ get_order size)
          s.mem_map).2 = true := hflag
      have hsame' : (merge_loop s.free_list (MAX_ORDER - get_order size) (get_order size)
          (p &&& not64 K.DMW_MASK) (buddy_of (p &&& not64 K.DMW_MASK) (get_order size))).1
          = get_order size := hsame
      have h2' : (merge_loop s.free_list (MAX_ORDER - get_order size) (get_order size)
          (p &&& not64 K.DMW_MASK) (buddy_of (p &&& not64 K.DMW_MASK) (get_order size))).2
          = p &&& not64 K.DMW_MASK := h2
      rw [if_pos hflag']
      simp only [set_bit, wr, hsame', h2', upd, if_true]
      exact ⟨rfl, lor_one_ne_zero _⟩
    generalize buddy_free K p size s = s1 at hfree
    obtain ⟨hf, hb⟩ := hfree
    have hn : MAX_ORDER + 1 - get_order size = (MAX_ORDER - get_order size) + 1 := by omega
    have e : buddy_alloc K size s1 = alloc_block K (get_order size) (get_order size) s1 := by
      show alloc_scan K (get_order size) (MAX_ORDER + 1 - get_order size) (get_order size) s1 = _
      rw [hn]
      simp only [alloc_scan, ne_eq, hb, not_false_eq_true, if_true]
    rw [e]
    show s1.free_list (get_order size) ||| K.DMW_MASK = p
    rw [hf]
    show (p &&& not64 K.DMW_MASK) ||| K.DMW_MASK = p
    rw [clear_then_set p _ hp, hw]
  · intro h0
    rw [h0] at hw
    apply hD
    simpa using hw

theorem lifo_reuse_witness :
    (loongarch.DMW_MASK ≠ 0 ∧ 0x9000000000304000 < 2 ^ 64 ∧
      0x9000000000304000 ||| loongarch.DMW_MASK = 0x9000000000304000 ∧
      get_order 16384 ≤ MAX_ORDER ∧
      (release_loop (phys loongarch 0x9000000000304000 >>> 12) (2 ^ get_order 16384)
        (run loongarch (self_test.take 3) boot).st.mem_map).2 = true ∧
      (merge_loop (run loongarch (self_test.take 3) boot).st.free_list
        (MAX_ORDER - get_order 16384) (get_order 16384)
        (phys loongarch 0x9000000000304000)
        (buddy_of (phys loongarch 0x9000000000304000) (get_order 16384))).1
        = get_order 16384) ∧
    (buddy_alloc loongarch 16384
      (buddy_free loongarch 0x9000000000304000 16384
        (run loongarch (self_test.take 3) boot).st)).1 = 0x9000000000304000 :=
  ⟨by decide!,
   (lifo_reuse loongarch (run loongarch (self_test.take 3) boot).st 0x9000000000304000
      16384 (by decide!) (by decide!) (by decide!) (by decide!) (by decide!)
      (by decide!)).1.1⟩

/-! ## The missing unlink in the merge loop of `buddy_free`

The merge loop of `buddy_free` advances `phys_addr` and `order` when the buddy
is the head of `free_list[order]`, but never removes that head from the list.
The buddy therefore stays allocatable at its old order while the merged block
that contains it is listed one order up.  The arena base `0x300000` is also
not aligned to `2 ^ 26`, so `buddy_of` leaves the arena at order 8. -/

/-- C1, evaluation: after `alloc 4KB; free it; alloc 4KB; alloc 1MB`, from the
state `buddy_init` produces and from the state after `mem_init`, both blocks
are held, the first at page `0x301` and the second on pages `0x300 .. 0x3ff`,
so two live blocks overlap. -/
theorem live_blocks_overlap :
    ((run loongarch [Call.alloc 4096, Call.free 0, Call.alloc 4096, Call.alloc 0x100000]
        (buddy_init loongarch power_on)).live = [(0x9000000000300000, 0x100000), (0x9000000000301000, 4096)] ∧
      ¬ (run loongarch [Call.alloc 4096, Call.free 0, Call.alloc 4096, Call.alloc 0x100000]
        (buddy_init loongarch power_on)).live.Pairwise (disjoint loongarch)) ∧
    ((run loongarch [Call.alloc 4096, Call.free 0, Call.alloc 4096, Call.alloc 0x100000]
        boot).live = [(0x9000000000300000, 0x100000), (0x9000000000301000, 4096)] ∧
      ¬ (run loongarch [Call.alloc 4096, Call.free 0, Call.alloc 4096, Call.alloc 0x100000]
        boot).live.Pairwise (disjoint loongarch)) := by
  decide!

/-- C2, evaluation: from the state `buddy_init` produces (and from the state
after `mem_init`) `buddy_alloc(4096)` succeeds, and after the matching
`buddy_free` the top list is empty with its bit clear, while before the
allocation it held the arena; order 0 now lists the block at `0x301000` and
order 8 the block at `0x300000`. -/
theorem alloc_free_changes_lists :
    ((buddy_alloc loongarch 4096 (buddy_init loongarch power_on)).1 = 0x9000000000300000 ∧
      (buddy_init loongarch power_on).free_list 14 = 0x300000 ∧ (buddy_init loongarch power_on).bitmap 14 = 1 ∧
      (buddy_init loongarch power_on).free_list 0 = 0 ∧ (buddy_init loongarch power_on).bitmap 0 = 0 ∧
      (buddy_free loongarch (buddy_alloc loongarch 4096 (buddy_init loongarch power_on)).1 4096
        (buddy_alloc loongarch 4096 (buddy_init loongarch power_on)).2).free_list 14 = 0 ∧
      (buddy_free loongarch (buddy_alloc loongarch 4096 (buddy_init loongarch power_on)).1 4096
        (buddy_alloc loongarch 4096 (buddy_init loongarch power_on)).2).bitmap 14 = 0 ∧
      (buddy_free loongarch (buddy_alloc loongarch 4096 (buddy_init loongarch power_on)).1 4096
        (buddy_alloc loongarch 4096 (buddy_init loongarch power_on)).2).free_list 0 = 0x301000 ∧
      (buddy_free loongarch (buddy_alloc loongarch 4096 (buddy_init loongarch power_on)).1 4096
        (buddy_alloc loongarch 4096 (buddy_init loongarch power_on)).2).bitmap 0 = 1 ∧
      (buddy_free loongarch (buddy_alloc loongarch 4096 (buddy_init loongarch power_on)).1 4096
        (buddy_alloc loongarch 4096 (buddy_init loongarch power_on)).2).free_list 8 = 0x300000) ∧
    ((buddy_alloc loongarch 4096 boot).1 = 0x9000000000300000 ∧
      boot.free_list 14 = 0x300000 ∧ boot.bitmap 14 = 1 ∧
      boot.free_list 0 = 0 ∧ boot.bitmap 0 = 0 ∧
      (buddy_free loongarch (buddy_alloc loongarch 4096 boot).1 4096
        (buddy_alloc loongarch 4096 boot).2).free_list 14 = 0 ∧
      (buddy_free loongarch (buddy_alloc loongarch 4096 boot).1 4096
        (buddy_alloc loongarch 4096 boot).2).bitmap 14 = 0 ∧
      (buddy_free loongarch (buddy_alloc loongarch 4096 boot).1 4096
        (buddy_alloc loongarch 4096 boot).2).free_list 0 = 0x301000 ∧
      (buddy_free loongarch (buddy_alloc loongarch 4096 boot).1 4096
        (buddy_alloc loongarch 4096 boot).2).bitmap 0 = 1 ∧
      (buddy_free loongarch (buddy_alloc loongarch 4096 boot).1 4096
        (buddy_alloc loongarch 4096 boot).2).free_list 8 = 0x300000) := by
  decide!

/-- C5, evaluation: after the eight calls of the self-test, run from the state
`buddy_init` produces and from the state after `mem_init`, nothing is held,
yet `free_list[14]` is `NULL` with its bit clear, orders 0 to 13 all have
their bit set, and the merged block sits on `free_list[8]`. -/
theorem self_test_final_state :
    ((run loongarch self_test (buddy_init loongarch power_on)).live = [] ∧
      (buddy_init loongarch power_on).free_list 14 = 0x300000 ∧ (buddy_init loongarch power_on).bitmap 14 = 1 ∧
      (run loongarch self_test (buddy_init loongarch power_on)).st.free_list 14 = 0 ∧
      (run loongarch self_test (buddy_init loongarch power_on)).st.bitmap 14 = 0 ∧
      (∀ o < 14, (run loongarch self_test (buddy_init loongarch power_on)).st.bitmap o = 1) ∧
      (run loongarch self_test (buddy_init loongarch power_on)).st.free_list 0 = 0x303000 ∧
      (run loongarch self_test (buddy_init loongarch power_on)).st.free_list 1 = 0x300000 ∧
      (run loongarch self_test (buddy_init loongarch power_on)).st.free_list 2 = 0x300000 ∧
      (run loongarch self_test (buddy_init loongarch power_on)).st.free_list 8 = 0x300000) ∧
    ((run loongarch self_test boot).live = [] ∧
      boot.free_list 14 = 0x300000 ∧ boot.bitmap 14 = 1 ∧
      (run loongarch self_test boot).st.free_list 14 = 0 ∧
      (run loongarch self_test boot).st.bitmap 14 = 0 ∧
      (∀ o < 14, (run loongarch self_test boot).st.bitmap o = 1) ∧
      (run loongarch self_test boot).st.free_list 0 = 0x303000 ∧
      (run loongarch self_test boot).st.free_list 1 = 0x300000 ∧
      (run loongarch self_test boot).st.free_list 2 = 0x300000 ∧
      (run loongarch self_test boot).st.free_list 8 = 0x300000) := by
  decide!

/-- C7, evaluation: after `alloc 4KB; free it; alloc 4KB; alloc 1MB; free the
second 4KB block`, from the state `buddy_init` produces and from the state
after `mem_init`, the 1MB block at `0x300000` is the only one held and covers
page `0x301`, whose `mem_map` entry is zero. -/
theorem used_pages_differ :
    ((run loongarch [Call.alloc 4096, Call.free 0, Call.alloc 4096, Call.alloc 0x100000,
        Call.free 1] (buddy_init loongarch power_on)).live = [(0x9000000000300000, 0x100000)] ∧
      covers loongarch (0x9000000000300000, 0x100000) 0x301 ∧
      (run loongarch [Call.alloc 4096, Call.free 0, Call.alloc 4096, Call.alloc 0x100000,
        Call.free 1] (buddy_init loongarch power_on)).st.mem_map 0x301 = 0) ∧
    ((run loongarch [Call.alloc 4096, Call.free 0, Call.alloc 4096, Call.alloc 0x100000,
        Call.free 1] boot).live = [(0x9000000000300000, 0x100000)] ∧
      covers loongarch (0x9000000000300000, 0x100000) 0x301 ∧
      (run loongarch [Call.alloc 4096, Call.free 0, Call.alloc 4096, Call.alloc 0x100000,
        Call.free 1] boot).st.mem_map 0x301 = 0) := by
  decide!

/-! ## Memory: loads and stores -/

theorem store64_out (m : Nat → Nat) (a v x : Nat) (h : x < a ∨ a + 8 ≤ x) :
    store64 m a v x = m x := by
  unfold store64
  rw [if_neg (by omega)]

theorem load8_lt (m : Nat → Nat) (a : Nat) : load8 m a < 256 :=
  Nat.mod_lt _ (by norm_num)

theorem load64_lt (m : Nat → Nat) (a : Nat) : load64 m a < 2 ^ 64 := by
  unfold load64
  have h0 := load8_lt m a
  have h1 := load8_lt m (a + 1)
  have h2 := load8_lt m (a + 2)
  have h3 := load8_lt m (a + 3)
  have h4 := load8_lt m (a + 4)
  have h5 := load8_lt m (a + 5)
  have h6 := load8_lt m (a + 6)
  have h7 := load8_lt m (a + 7)
  norm_num
  omega

theorem load64_congr (m m' : Nat → Nat) (a : Nat)
    (h : ∀ x, a ≤ x → x < a + 8 → m' x = m x) : load64 m' a = load64 m a := by
  unfold load64 load8
  rw [h a (by omega) (by omega), h (a + 1) (by omega) (by omega),
    h (a + 2) (by omega) (by omega), h (a + 3) (by omega) (by omega),
    h (a + 4) (by omega) (by omega), h (a + 5) (by omega) (by omega),
    h (a + 6) (by omega) (by omega), h (a + 7) (by omega) (by omega)]

theorem load64_store64_other (m : Nat → Nat) (a v b : Nat) (h : b + 8 ≤ a ∨ a + 8 ≤ b) :
    load64 (store64 m a v) b = load64 m b :=
  load64_congr _ _ _ (fun x h1 h2 => store64_out m a v x (by omega))

theorem store64_in (m : Nat → Nat) (a v k : Nat) (h : k < 8) :
    store64 m a v (a + k) = v / 2 ^ (8 * k) % 256 := by
  unfold store64
  rw [if_pos (by omega)]
  have : a + k - a = k := by omega
  rw [this]

theorem load64_store64_same (m : Nat → Nat) (a v : Nat) :
    load64 (store64 m a v) a = v % 2 ^ 64 := by
  have e0 := store64_in m a v 0 (by norm_num)
  have e1 := store64_in m a v 1 (by norm_num)
  have e2 := store64_in m a v 2 (by norm_num)
  have e3 := store64_in m a v 3 (by norm_num)
  have e4 := store64_in m a v 4 (by norm_num)
  have e5 := store64_in m a v 5 (by norm_num)
  have e6 := store64_in m a v 6 (by norm_num)
  have e7 := store64_in m a v 7 (by norm_num)
  rw [Nat.add_zero] at e0
  have b0 : v / 2 ^ (8 * 0) % 256 = v % 256 := by norm_num
  have b1 : v / 2 ^ (8 * 1) % 256 = v / 256 % 256 := by norm_num
  have b2 : v / 2 ^ (8 * 2) % 256 = v / 65536 % 256 := by norm_num
  have b3 : v / 2 ^ (8 * 3) % 256 = v / 16777216 % 256 := by norm_num
  have b4 : v / 2 ^ (8 * 4) % 256 = v / 4294967296 % 256 := by norm_num
  have b5 : v / 2 ^ (8 * 5) % 256 = v / 1099511627776 % 256 := by norm_num
  have b6 : v / 2 ^ (8 * 6) % 256 = v / 281474976710656 % 256 := by norm_num
  have b7 : v / 2 ^ (8 * 7) % 256 = v / 72057594037927936 % 256 := by norm_num
  rw [b0] at e0; rw [b1] at e1; rw [b2] at e2; rw [b3] at e3
  rw [b4] at e4; rw [b5] at e5; rw [b6] at e6; rw [b7] at e7
  have p8 : (2 : Nat) ^ 8 = 256 := by norm_num
  have p16 : (2 : Nat) ^ 16 = 65536 := by norm_num
  have p24 : (2 : Nat) ^ 24 = 16777216 := by norm_num
  have p32 : (2 : Nat) ^ 32 = 4294967296 := by norm_num
  have p40 : (2 : Nat) ^ 40 = 1099511627776 := by norm_num
  have p48 : (2 : Nat) ^ 48 = 281474976710656 := by norm_num
  have p56 : (2 : Nat) ^ 56 = 72057594037927936 := by norm_num
  have p64 : (2 : Nat) ^ 64 = 18446744073709551616 := by norm_num
  unfold load64 load8
  rw [e0, e1, e2, e3, e4, e5, e6, e7, p8, p16, p24, p32, p40, p48, p56, p64]
  clear e0 e1 e2 e3 e4 e5 e6 e7 b0 b1 b2 b3 b4 b5 b6 b7 p8 p16 p24 p32 p40 p48 p56 p64
  omega

theorem rd_wr_same (K : Xtos) (s : State) (p v : Nat) (hv : v < 2 ^ 64) :
    rd K (wr K s p v) p = v := by
  show load64 (store64 s.mem (phys K p) v) (phys K p) = v
  rw [load64_store64_same, Nat.mod_eq_of_lt hv]

/-! ## `put_page` -/

/-- C8: when the leaf entry resolved by `get_pte` is non-zero, `put_page`
panics in the very state `get_pte` left, so the entry keeps its value; when it
is zero, `put_page` returns, the entry holds `(k_vaddr & ~DMW_MASK) | attr`
and nothing but the entry's eight bytes is written. -/
theorem put_page_no_overwrite (K : Xtos) (p : process) (u_vaddr k_vaddr attr : Nat)
    (s s1 : State) (pte : Nat) (hattr : attr < 2 ^ 64)
    (h : get_pte K p u_vaddr s = Result.done pte s1) :
    (rd K s1 pte ≠ 0 → put_page K p u_vaddr k_vaddr attr s = Result.halted s1) ∧
    (rd K s1 pte = 0 →
      put_page K p u_vaddr k_vaddr attr s =
        Result.done () (wr K s1 pte ((k_vaddr &&& not64 K.DMW_MASK) ||| attr)) ∧
      rd K (wr K s1 pte ((k_vaddr &&& not64 K.DMW_MASK) ||| attr)) pte =
        (k_vaddr &&& not64 K.DMW_MASK) ||| attr) := by
  have hv : (k_vaddr &&& not64 K.DMW_MASK) ||| attr < 2 ^ 64 :=
    Nat.or_lt_two_pow (Nat.and_lt_two_pow _ (not64_lt _)) hattr
  constructor
  · intro hne
    rw [put_page, h]
    exact if_pos hne
  · intro hz
    refine ⟨?_, rd_wr_same K s1 pte _ hv⟩
    rw [put_page, h]
    exact if_neg (fun hne => hne hz)

theorem put_page_no_overwrite_witness :
    ((0xf : Nat) < 2 ^ 64 ∧
      get_pte loongarch demo_process 0 demo_state =
        Result.done 0x9000000000301000 (get_pte loongarch demo_process 0 demo_state).state) ∧
    rd loongarch (get_pte loongarch demo_process 0 demo_state).state 0x9000000000301000 = 0 ∧
    put_page loongarch demo_process 0 0x9000000000400000 0xf demo_state =
      Result.done () (wr loongarch (get_pte loongarch demo_process 0 demo_state).state
        0x9000000000301000 ((0x9000000000400000 &&& not64 loongarch.DMW_MASK) ||| 0xf)) :=
  ⟨⟨by decide, rfl⟩, by decide!,
   ((put_page_no_overwrite loongarch demo_process 0 0x9000000000400000 0xf demo_state
      (get_pte loongarch demo_process 0 demo_state).state 0x9000000000301000
      (by decide) rfl).2 (by decide!)).1⟩

/-! ## Pointers into the direct-mapping window -/

theorem dmw_low_bit (D i : Nat) (hD : D % 2 ^ 32 = 0) (hi : i < 32) :
    D.testBit i = false := by
  have h := Nat.testBit_mod_two_pow D 32 i
  rw [hD, Nat.zero_testBit] at h
  simpa [hi] using h.symm

theorem small_high_bit (a i : Nat) (ha : a < 2 ^ 32) (hi : 32 ≤ i) :
    a.testBit i = false :=
  Nat.testBit_lt_two_pow (lt_of_lt_of_le ha (Nat.pow_le_pow_right (by norm_num) hi))

theorem phys_small (K : Xtos) (hD : K.DMW_MASK % 2 ^ 32 = 0) (a : Nat) (ha : a < 2 ^ 32) :
    phys K a = a := by
  apply Nat.eq_of_testBit_eq
  intro i
  simp only [phys, Nat.testBit_and, testBit_not64]
  by_cases hi : i < 32
  · have h64 : i < 64 := by omega
    simp [dmw_low_bit _ _ hD hi, h64]
  · simp [small_high_bit a i ha (by omega)]

theorem phys_lor (K : Xtos) (hD : K.DMW_MASK % 2 ^ 32 = 0) (a : Nat) (ha : a < 2 ^ 32) :
    phys K (a ||| K.DMW_MASK) = a := by
  apply Nat.eq_of_testBit_eq
  intro i
  simp only [phys, Nat.testBit_and, Nat.testBit_or, testBit_not64]
  by_cases hi : i < 32
  · have h64 : i < 64 := by omega
    simp [dmw_low_bit _ _ hD hi, h64]
  · rw [small_high_bit a i ha (by omega)]
    cases K.DMW_MASK.testBit i <;> simp

theorem lor_dmw_eq_add (D a : Nat) (hD : D % 2 ^ 32 = 0) (ha : a < 2 ^ 32) :
    a ||| D = a + D := by
  have h1 : 2 ^ 32 * (D / 2 ^ 32) = D := Nat.mul_div_cancel' (Nat.dvd_of_mod_eq_zero hD)
  have h2 := Nat.mul_add_lt_is_or ha (D / 2 ^ 32)
  rw [h1] at h2
  rw [Nat.lor_comm, ← h2, Nat.add_comm]

theorem add64_eq (a b : Nat) (h : a + b < 2 ^ 64) : add64 a b = a + b :=
  Nat.mod_eq_of_lt h

theorem phys_add_small (K : Xtos) (hD : K.DMW_MASK % 2 ^ 32 = 0) (a c : Nat)
    (h : a + c < 2 ^ 32) : phys K (add64 a c) = a + c := by
  rw [add64_eq a c (lt_trans h (by norm_num)), phys_small K hD _ h]

theorem phys_add_dmw (K : Xtos) (hD : K.DMW_MASK % 2 ^ 32 = 0) (hD64 : K.DMW_MASK < 2 ^ 64)
    (a c : Nat) (h : a + c < 2 ^ 32) : phys K (add64 (a ||| K.DMW_MASK) c) = a + c := by
  have ha : a < 2 ^ 32 := by omega
  have e : add64 (a ||| K.DMW_MASK) c = (a + c) ||| K.DMW_MASK := by
    rw [lor_dmw_eq_add _ _ hD ha, lor_dmw_eq_add _ _ hD h, add64_eq]
    · omega
    · omega
  rw [e, phys_lor K hD _ h]

/-! ## Effect of one call of `buddy_alloc` -/

theorem mark_used_eq (sp : Nat) :
    ∀ n mm x, mark_used sp n mm x = if sp ≤ x ∧ x < sp + n then 1 else mm x := by
  intro n
  induction n with
  | zero =>
    intro mm x
    rw [mark_used, if_neg (by omega)]
  | succ n ih =>
    intro mm x
    rw [mark_used]
    unfold upd
    by_cases hx : x = sp + n
    · rw [if_pos hx, if_pos (by omega)]
    · rw [if_neg hx, ih]
      by_cases h : sp ≤ x ∧ x < sp + n
      · rw [if_pos h, if_pos (by omega)]
      · rw [if_neg h, if_neg (by omega)]

theorem split_loop_mem_map (K : Xtos) (order b : Nat) :
    ∀ i s, (split_loop K order b i s).mem_map = s.mem_map := by
  intro i
  induction i with
  | zero => intro s; rfl
  | succ i ih =>
    intro s
    rw [split_loop]
    by_cases h : i + 1 > order
    · rw [if_pos h]
      exact ih _
    · rw [if_neg h]

theorem split_loop_free_list (K : Xtos) (order b : Nat) :
    ∀ i s j, (split_loop K order b i s).free_list j =
      if order ≤ j ∧ j < i then add64 b (2 ^ (j + 12)) else s.free_list j := by
  intro i
  induction i with
  | zero =>
    intro s j
    rw [if_neg (by omega)]
    rfl
  | succ i ih =>
    intro s j
    rw [split_loop]
    by_cases h : i + 1 > order
    · rw [if_pos h]
      show (split_loop K order b i _).free_list j = _
      rw [ih]
      by_cases hj : order ≤ j ∧ j < i
      · rw [if_pos hj, if_pos (by omega)]
      · rw [if_neg hj]
        by_cases hji : j = i
        · subst hji
          rw [if_pos (by omega)]
          show upd _ j _ j = _
          unfold upd
          rw [if_pos rfl]
        · rw [if_neg (by omega)]
          show upd _ i _ j = _
          unfold upd
          rw [if_neg hji]
          rfl
    · rw [if_neg h, if_neg (by omega)]

theorem split_loop_bitmap (K : Xtos) (order b : Nat) :
    ∀ i s j, (split_loop K order b i s).bitmap j =
      if order ≤ j ∧ j < i then s.bitmap j ||| 1 else s.bitmap j := by
  intro i
  induction i with
  | zero =>
    intro s j
    rw [if_neg (by omega)]
    rfl
  | succ i ih =>
    intro s j
    rw [split_loop]
    by_cases h : i + 1 > order
    · rw [if_pos h]
      show (split_loop K order b i _).bitmap j = _
      rw [ih]
      by_cases hji : j = i
      · subst hji
        rw [if_neg (by omega), if_pos (by omega)]
        show upd _ j _ j = _
        unfold upd
        rw [if_pos rfl]
        rfl
      · have e : ∀ v, (set_bit i v).bitmap j = v.bitmap j := by
          intro v
          show upd _ i _ j = _
          unfold upd
          rw [if_neg hji]
        rw [e]
        by_cases hj : order ≤ j ∧ j < i
        · rw [if_pos hj, if_pos (by omega)]; rfl
        · rw [if_neg hj, if_neg (by omega)]; rfl
    · rw [if_neg h, if_neg (by omega)]

theorem two_pow_ge_page (i : Nat) : 4096 ≤ 2 ^ (i + 12) := by
  have h := Nat.pow_le_pow_right (show 0 < 2 by norm_num) (show 12 ≤ i + 12 by omega)
  have e : (2 : Nat) ^ 12 = 4096 := by norm_num
  omega

theorem two_pow_succ_order (i : Nat) : 2 ^ (i + 1 + 12) = 2 * 2 ^ (i + 12) := by
  rw [show i + 1 + 12 = (i + 12) + 1 by omega, pow_succ, Nat.mul_comm]

theorem split_loop_mem_out (K : Xtos) (hD : K.DMW_MASK % 2 ^ 32 = 0) (order b : Nat) :
    ∀ i s x, b + 2 ^ (i + 12) ≤ 2 ^ 32 → (x < b + 4096 ∨ b + 2 ^ (i + 12) ≤ x) →
      (split_loop K order b i s).mem x = s.mem x := by
  intro i
  induction i with
  | zero => intro s x _ _; rfl
  | succ i ih =>
    intro s x hb hx
    rw [split_loop]
    by_cases h : i + 1 > order
    · rw [if_pos h]
      have hp := two_pow_succ_order i
      have hq := two_pow_ge_page i
      generalize 2 ^ (i + 1 + 12) = Q at hb hx hp
      have hb' : b + 2 ^ (i + 12) ≤ 2 ^ 32 := by omega
      have hlt : b + 2 ^ (i + 12) < 2 ^ 32 := by omega
      have hx' : x < b + 4096 ∨ b + 2 ^ (i + 12) ≤ x := by omega
      show (split_loop K order b i _).mem x = _
      rw [ih _ x hb' hx']
      show store64 s.mem (phys K (add64 b (2 ^ (i + 12)))) _ x = _
      rw [phys_add_small K hD _ _ hlt]
      apply store64_out
      omega
    · rw [if_neg h]

theorem alloc_scan_pick (K : Xtos) (order : Nat) :
    ∀ n i s, (alloc_scan K order n i s).1 ≠ 0 →
      ∃ k, i ≤ k ∧ k < i + n ∧ s.bitmap k ≠ 0 ∧ (∀ j, i ≤ j → j < k → s.bitmap j = 0) ∧
        alloc_scan K order n i s = alloc_block K order k s := by
  intro n
  induction n with
  | zero => intro i s h; exact absurd rfl h
  | succ n ih =>
    intro i s h
    by_cases hb : s.bitmap i = 0
    · have e : alloc_scan K order (n + 1) i s = alloc_scan K order n (i + 1) s := by
        rw [alloc_scan, if_neg (fun g => g hb)]
      rw [e] at h ⊢
      obtain ⟨k, h1, h2, h3, h4, h5⟩ := ih (i + 1) s h
      refine ⟨k, by omega, by omega, h3, ?_, h5⟩
      intro j hj1 hj2
      by_cases hji : j = i
      · subst hji; exact hb
      · exact h4 j (by omega) hj2
    · have e : alloc_scan K order (n + 1) i s = alloc_block K order i s := by
        rw [alloc_scan, if_pos hb]
      exact ⟨i, le_refl _, by omega, hb, fun j h1 h2 => by omega, e⟩

theorem buddy_alloc_pick (K : Xtos) (size : Nat) (s : State)
    (h : (buddy_alloc K size s).1 ≠ 0) :
    ∃ k, get_order size ≤ k ∧ k ≤ MAX_ORDER ∧ s.bitmap k ≠ 0 ∧
      (∀ j, get_order size ≤ j → j < k → s.bitmap j = 0) ∧
      buddy_alloc K size s = alloc_block K (get_order size) k s := by
  obtain ⟨k, h1, h2, h3, h4, h5⟩ :=
    alloc_scan_pick K (get_order size) (MAX_ORDER + 1 - get_order size) (get_order size) s h
  refine ⟨k, h1, ?_, h3, h4, h5⟩
  generalize get_order size = o at h1 h2
  simp only [MAX_ORDER] at h2 ⊢
  omega

theorem clear_if_mem (i : Nat) (s : State) (c : Prop) [Decidable c] :
    (if c then clear_bit i s else s).mem = s.mem ∧
    (if c then clear_bit i s else s).mem_map = s.mem_map ∧
    (if c then clear_bit i s else s).free_list = s.free_list := by
  by_cases h : c
  · rw [if_pos h]; exact ⟨rfl, rfl, rfl⟩
  · rw [if_neg h]; exact ⟨rfl, rfl, rfl⟩

theorem alloc_block_val (K : Xtos) (order i : Nat) (s : State) :
    (alloc_block K order i s).1 = s.free_list i ||| K.DMW_MASK := rfl

theorem alloc_block_mem_map (K : Xtos) (order i : Nat) (s : State) :
    (alloc_block K order i s).2.mem_map =
      mark_used (s.free_list i >>> 12) (2 ^ order) s.mem_map := by
  show mark_used (s.free_list i >>> 12) (2 ^ order) (split_loop K order _ i _).mem_map = _
  rw [split_loop_mem_map, (clear_if_mem _ _ _).2.1]

theorem alloc_block_mem_out (K : Xtos) (hD : K.DMW_MASK % 2 ^ 32 = 0) (order i : Nat)
    (s : State) (x : Nat) (hb : s.free_list i + 2 ^ (i + 12) ≤ 2 ^ 32)
    (hx : x < s.free_list i ∨ s.free_list i + 2 ^ (i + 12) ≤ x) :
    (alloc_block K order i s).2.mem x = s.mem x := by
  have hq := two_pow_ge_page i
  have hlt : s.free_list i < 2 ^ 32 := by omega
  show set_mem (split_loop K order (s.free_list i) i _).mem
    (phys K (s.free_list i ||| K.DMW_MASK)) 0 PAGE_SIZE x = _
  rw [phys_lor K hD _ hlt]
  unfold set_mem
  rw [if_neg (by simp only [PAGE_SIZE]; omega),
    split_loop_mem_out K hD order _ i _ x hb (by omega), (clear_if_mem _ _ _).1]

theorem alloc_block_zero (K : Xtos) (hD : K.DMW_MASK % 2 ^ 32 = 0) (order i : Nat)
    (s : State) (x : Nat) (hb : s.free_list i < 2 ^ 32)
    (hx : s.free_list i ≤ x ∧ x < s.free_list i + 4096) :
    (alloc_block K order i s).2.mem x = 0 := by
  show set_mem (split_loop K order (s.free_list i) i _).mem
    (phys K (s.free_list i ||| K.DMW_MASK)) 0 PAGE_SIZE x = _
  rw [phys_lor K hD _ hb]
  unfold set_mem
  rw [if_pos (by simp only [PAGE_SIZE]; omega)]

/-! ## `buddy_free` on a block that stays referenced -/

theorem release_loop_one (sp : Nat) (mm : Nat → Nat) :
    release_loop sp 1 mm =
      (upd mm sp ((mm sp + 255) % 256), if (mm sp + 255) % 256 ≠ 0 then false else true) := by
  rw [release_loop, release_loop]
  rfl

theorem buddy_free_shared (K : Xtos) (addr size : Nat) (s : State)
    (h : (release_loop (phys K addr >>> 12) (2 ^ get_order size) s.mem_map).2 = false) :
    buddy_free K addr size s =
      { s with mem_map := (release_loop (phys K addr >>> 12) (2 ^ get_order size)
          s.mem_map).1 } := by
  have h' : (release_loop ((addr &&& not64 K.DMW_MASK) >>> 12) (2 ^ get_order size)
      s.mem_map).2 = false := h
  rw [buddy_free]
  simp only [h']
  rfl

theorem get_order_page : get_order PAGE_SIZE = 0 := by decide

theorem char_gt_one_lt (K : Xtos) (v : Nat) (h : char_gt_one K v = true) : 1 < v := by
  unfold char_gt_one at h
  by_cases c : K.char_signed = true
  · rw [if_pos c] at h
    exact (of_decide_eq_true h).1
  · rw [if_neg c] at h
    exact of_decide_eq_true h

/-! ## `do_wp_page` -/

theorem get_pte_present (K : Xtos) (p : process) (u_vaddr : Nat) (s : State)
    (h : rd K s (pde_ptr p u_vaddr) ≠ 0) :
    get_pte K p u_vaddr s =
      Result.done (pte_ptr (rd K s (pde_ptr p u_vaddr) ||| K.DMW_MASK) u_vaddr) s := by
  rw [get_pte]
  exact if_pos h

theorem get_page_done (K : Xtos) (s : State) (h : (buddy_alloc K PAGE_SIZE s).1 ≠ 0) :
    get_page K s = Result.done (buddy_alloc K PAGE_SIZE s).1 (buddy_alloc K PAGE_SIZE s).2 := by
  rw [get_page]
  exact if_neg h

theorem do_wp_page_private (K : Xtos) (current : process) (u_vaddr : Nat) (s : State)
    (pte : Nat) (hget : get_pte K current u_vaddr s = Result.done pte s)
    (hsh : is_share_page K (entry_page K (rd K s pte)) s = false) :
    do_wp_page K current u_vaddr s =
      Result.done () (wr K s pte (rd K s pte ||| K.PTE_D)) := by
  rw [do_wp_page, hget]
  simp only [hsh]
  rfl

theorem do_wp_page_shared (K : Xtos) (current : process) (u_vaddr : Nat) (s : State)
    (pte new_page : Nat) (s2 : State)
    (hget : get_pte K current u_vaddr s = Result.done pte s)
    (hsh : is_share_page K (entry_page K (rd K s pte)) s = true)
    (hpage : get_page K s = Result.done new_page s2) :
    do_wp_page K current u_vaddr s =
      Result.done () (free_page K (entry_page K (rd K s pte))
        { (wr K s2 pte
            ((new_page &&& not64 K.DMW_MASK) ||| K.PTE_PLV ||| K.PTE_D ||| K.PTE_V)) with
          mem := copy_mem (wr K s2 pte
                ((new_page &&& not64 K.DMW_MASK) ||| K.PTE_PLV ||| K.PTE_D ||| K.PTE_V)).mem
              (phys K new_page) (phys K (entry_page K (rd K s pte))) PAGE_SIZE }) := by
  rw [do_wp_page, hget]
  simp only [hsh, hpage, if_true]

theorem copy_mem_in (m : Nat → Nat) (dst src n k : Nat) (h : k < n) :
    copy_mem m dst src n (dst + k) = m (src + k) := by
  unfold copy_mem
  rw [if_pos (by omega)]
  have : dst + k - dst = k := by omega
  rw [this]

theorem copy_mem_out (m : Nat → Nat) (dst src n x : Nat) (h : x < dst ∨ dst + n ≤ x) :
    copy_mem m dst src n x = m x := by
  unfold copy_mem
  rw [if_neg (by omega)]

theorem upd_same (f : Nat → Nat) (i v : Nat) : upd f i v i = v := by
  unfold upd
  rw [if_pos rfl]

theorem upd_other (f : Nat → Nat) (i v x : Nat) (h : x ≠ i) : upd f i v x = f x := by
  unfold upd
  rw [if_neg h]

/-- The handler `do_wp_page` on a present leaf entry, in a state in which the
free lists keep clear of the pages in use.  When the mapped page is shared
(`mem_map > 1`) and no block at the head of a free list reaches into the old
page or the entry, the handler takes a new page from `buddy_alloc`, the new
page's 4096 bytes equal the old page's, the old page's bytes are unchanged,
the entry becomes `new_phys | PTE_PLV | PTE_D | PTE_V`, the new page has count
1, the old page's count drops by exactly one, and `buddy_free` changes no free
list and no presence bit.  When the page is not shared the resulting state is
the old one with `PTE_D` or-ed into the entry. -/
theorem do_wp_page_cow (K : Xtos) (hK : K.sane) (current : process) (u_vaddr : Nat)
    (s : State) (pte e old : Nat)
    (hpde : rd K s (pde_ptr current u_vaddr) ≠ 0)
    (hpte : pte = pte_ptr (rd K s (pde_ptr current u_vaddr) ||| K.DMW_MASK) u_vaddr)
    (he : e = rd K s pte)
    (hold : old = phys K (entry_page K e)) :
    (is_share_page K (entry_page K e) s = true →
      s.mem_map (old >>> 12) < 256 →
      (buddy_alloc K PAGE_SIZE s).1 ≠ 0 →
      heads_avoid s old (old + 4096) →
      heads_avoid s (phys K pte) (phys K pte + 8) →
      (phys K pte + 8 ≤ old ∨ old + 4096 ≤ phys K pte) →
      ∃ f, do_wp_page K current u_vaddr s = Result.done () f ∧
        (∀ k, k < 4096 →
          f.mem (phys K (buddy_alloc K PAGE_SIZE s).1 + k) = s.mem (old + k)) ∧
        (∀ k, k < 4096 → f.mem (old + k) = s.mem (old + k)) ∧
        rd K f pte =
          phys K (buddy_alloc K PAGE_SIZE s).1 ||| K.PTE_PLV ||| K.PTE_D ||| K.PTE_V ∧
        f.mem_map (phys K (buddy_alloc K PAGE_SIZE s).1 >>> 12) = 1 ∧
        f.mem_map (old >>> 12) + 1 = s.mem_map (old >>> 12) ∧
        f.free_list = (buddy_alloc K PAGE_SIZE s).2.free_list ∧
        f.bitmap = (buddy_alloc K PAGE_SIZE s).2.bitmap) ∧
    (is_share_page K (entry_page K e) s = false →
      do_wp_page K current u_vaddr s = Result.done () (wr K s pte (e ||| K.PTE_D)) ∧
      rd K (wr K s pte (e ||| K.PTE_D)) pte = e ||| K.PTE_D) := by
  obtain ⟨hD0, hD64, hD, hV, hDb, hPLV⟩ := hK
  have hget : get_pte K current u_vaddr s = Result.done pte s := by
    rw [hpte]; exact get_pte_present K current u_vaddr s hpde
  have he64 : e < 2 ^ 64 := by rw [he]; exact load64_lt _ _
  have c12 : (2 : Nat) ^ 12 < 2 ^ 64 := by norm_num
  constructor
  · intro hsh hchar hne hav_old hav_pte hsep
    -- the allocation
    obtain ⟨k, hk1, hk2, hbit, _, halloc⟩ := buddy_alloc_pick K PAGE_SIZE s hne
    rw [get_order_page] at halloc
    obtain ⟨hbnd, hdis_old⟩ := hav_old k hk2 hbit
    obtain ⟨_, hdis_pte⟩ := hav_pte k hk2 hbit
    have hM : MEMORY_SIZE = 134217728 := rfl
    have h32 : (2 : Nat) ^ 32 = 4294967296 := by norm_num
    have hq := two_pow_ge_page k
    generalize hb : s.free_list k = b at hbnd hdis_old hdis_pte
    have hb32 : b + 2 ^ (k + 12) ≤ 2 ^ 32 := by omega
    have hblt : b < 2 ^ 32 := by omega
    have hnew : (buddy_alloc K PAGE_SIZE s).1 = b ||| K.DMW_MASK := by
      rw [halloc, alloc_block_val, hb]
    have hnp : phys K (buddy_alloc K PAGE_SIZE s).1 = b := by
      rw [hnew]; exact phys_lor K hD b hblt
    have hmm2 : (buddy_alloc K PAGE_SIZE s).2.mem_map = mark_used (b >>> 12) 1 s.mem_map := by
      rw [halloc, alloc_block_mem_map, hb]; rfl
    have hmem2 : ∀ x, x < b ∨ b + 2 ^ (k + 12) ≤ x →
        (buddy_alloc K PAGE_SIZE s).2.mem x = s.mem x := by
      intro x hx
      rw [halloc]
      exact alloc_block_mem_out K hD 0 k s x (by rw [hb]; exact hb32) (by rw [hb]; exact hx)
    rw [hnp]
    generalize hs2 : (buddy_alloc K PAGE_SIZE s).2 = s2 at hmm2 hmem2
    generalize hnpg : (buddy_alloc K PAGE_SIZE s).1 = new_page at hnew hnp
    have hpage : get_page K s = Result.done new_page s2 := by
      rw [get_page_done K s hne, hs2, hnpg]
    have hsh' : is_share_page K (entry_page K (rd K s pte)) s = true := by rw [← he]; exact hsh
    have hrun := do_wp_page_shared K current u_vaddr s pte new_page s2 hget hsh' hpage
    rw [← he, ← hold, hnp] at hrun
    -- the value written into the entry
    generalize hv : (new_page &&& not64 K.DMW_MASK) ||| K.PTE_PLV ||| K.PTE_D ||| K.PTE_V = v
      at hrun
    have hv' : phys K new_page ||| K.PTE_PLV ||| K.PTE_D ||| K.PTE_V = v := hv
    have hv64 : v < 2 ^ 64 := by
      rw [← hv]
      exact Nat.or_lt_two_pow (Nat.or_lt_two_pow (Nat.or_lt_two_pow
        (Nat.and_lt_two_pow _ (not64_lt _)) (lt_trans hPLV c12)) (lt_trans hDb c12))
        (lt_trans hV c12)
    -- the counts
    have hidx : old >>> 12 ≠ b >>> 12 := by
      rw [Nat.shiftRight_eq_div_pow, Nat.shiftRight_eq_div_pow]
      have e12 : (2 : Nat) ^ 12 = 4096 := by norm_num
      rw [e12]
      omega
    have hcnt : 1 < s.mem_map (old >>> 12) := by
      have := char_gt_one_lt K _ hsh
      rw [hold]
      exact this
    have hmm_old : s2.mem_map (old >>> 12) = s.mem_map (old >>> 12) := by
      rw [hmm2, mark_used_eq, if_neg (by omega)]
    have hmm_new : s2.mem_map (b >>> 12) = 1 := by
      rw [hmm2, mark_used_eq, if_pos (by omega)]
    have hrel : release_loop (phys K (entry_page K e) >>> 12) (2 ^ get_order PAGE_SIZE)
        s2.mem_map =
        (upd s2.mem_map (old >>> 12) ((s.mem_map (old >>> 12) + 255) % 256), false) := by
      rw [get_order_page, pow_zero, release_loop_one, ← hold, hmm_old,
        if_pos (by omega)]
    have hfree := buddy_free_shared K (entry_page K e) PAGE_SIZE
      { (wr K s2 pte v) with
        mem := copy_mem (wr K s2 pte v).mem b old PAGE_SIZE }
      (by
        show (release_loop (phys K (entry_page K e) >>> 12) (2 ^ get_order PAGE_SIZE)
          s2.mem_map).2 = false
        rw [hrel])
    have hfree' : free_page K (entry_page K e)
        { (wr K s2 pte v) with
          mem := copy_mem (wr K s2 pte v).mem b old PAGE_SIZE } =
        { free_list := s2.free_list, bitmap := s2.bitmap,
          mem_map := upd s2.mem_map (old >>> 12) ((s.mem_map (old >>> 12) + 255) % 256),
          mem := copy_mem (store64 s2.mem (phys K pte) v) b old PAGE_SIZE } := by
      show buddy_free K (entry_page K e) PAGE_SIZE _ = _
      rw [hfree]
      show State.mk _ _ (release_loop (phys K (entry_page K e) >>> 12)
        (2 ^ get_order PAGE_SIZE) s2.mem_map).1 _ = _
      rw [hrel]
      rfl
    rw [hfree'] at hrun
    refine ⟨_, hrun, ?_, ?_, ?_, ?_, ?_, rfl, rfl⟩
    · intro j hj
      show copy_mem (store64 s2.mem (phys K pte) v) b old PAGE_SIZE (b + j) = _
      rw [copy_mem_in _ _ _ _ _ (by simp only [PAGE_SIZE]; exact hj),
        store64_out _ _ _ _ (by omega), hmem2 _ (by omega)]
    · intro j hj
      show copy_mem (store64 s2.mem (phys K pte) v) b old PAGE_SIZE (old + j) = _
      rw [copy_mem_out _ _ _ _ _ (by simp only [PAGE_SIZE]; omega),
        store64_out _ _ _ _ (by omega), hmem2 _ (by omega)]
    · show load64 (copy_mem (store64 s2.mem (phys K pte) v) b old PAGE_SIZE) (phys K pte) = _
      have hv'' : b ||| K.PTE_PLV ||| K.PTE_D ||| K.PTE_V = v := by rw [← hnp]; exact hv'
      rw [load64_congr (store64 s2.mem (phys K pte) v)
        (copy_mem (store64 s2.mem (phys K pte) v) b old PAGE_SIZE) (phys K pte)
        (fun x h1 h2 => copy_mem_out (store64 s2.mem (phys K pte) v) b old PAGE_SIZE x
          (by simp only [PAGE_SIZE]; omega)),
        load64_store64_same, Nat.mod_eq_of_lt hv64, hv'']
    · show upd s2.mem_map (old >>> 12) _ (b >>> 12) = 1
      rw [upd_other _ _ _ _ (fun h => hidx h.symm), hmm_new]
    · show upd s2.mem_map (old >>> 12) _ (old >>> 12) + 1 = _
      rw [upd_same]
      omega
  · intro hsh
    have hsh' : is_share_page K (entry_page K (rd K s pte)) s = false := by rw [← he]; exact hsh
    rw [do_wp_page_private K current u_vaddr s pte hget hsh', ← he]
    refine ⟨rfl, rd_wr_same K s pte _ ?_⟩
    exact Nat.or_lt_two_pow he64 (lt_trans hDb c12)

theorem do_wp_page_cow_witness :
    (loongarch.sane ∧
      rd loongarch cow_state (pde_ptr demo_process 0) ≠ 0 ∧
      0x9000000000302000 =
        pte_ptr (rd loongarch cow_state (pde_ptr demo_process 0) ||| loongarch.DMW_MASK) 0 ∧
      0x30100d = rd loongarch cow_state 0x9000000000302000 ∧
      0x301000 = phys loongarch (entry_page loongarch 0x30100d) ∧
      is_share_page loongarch (entry_page loongarch 0x30100d) cow_state = true ∧
      cow_state.mem_map (0x301000 >>> 12) < 256 ∧
      (buddy_alloc loongarch PAGE_SIZE cow_state).1 ≠ 0 ∧
      heads_avoid cow_state 0x301000 (0x301000 + 4096) ∧
      heads_avoid cow_state (phys loongarch 0x9000000000302000)
        (phys loongarch 0x9000000000302000 + 8) ∧
      (phys loongarch 0x9000000000302000 + 8 ≤ 0x301000 ∨
        0x301000 + 4096 ≤ phys loongarch 0x9000000000302000)) ∧
    ∃ f, do_wp_page loongarch demo_process 0 cow_state = Result.done () f ∧
      (∀ k, k < 4096 →
        f.mem (phys loongarch (buddy_alloc loongarch PAGE_SIZE cow_state).1 + k) =
          cow_state.mem (0x301000 + k)) ∧
      (∀ k, k < 4096 → f.mem (0x301000 + k) = cow_state.mem (0x301000 + k)) ∧
      rd loongarch f 0x9000000000302000 =
        phys loongarch (buddy_alloc loongarch PAGE_SIZE cow_state).1 ||| loongarch.PTE_PLV
          ||| loongarch.PTE_D ||| loongarch.PTE_V ∧
      f.mem_map (phys loongarch (buddy_alloc loongarch PAGE_SIZE cow_state).1 >>> 12) = 1 ∧
      f.mem_map (0x301000 >>> 12) + 1 = cow_state.mem_map (0x301000 >>> 12) ∧
      f.free_list = (buddy_alloc loongarch PAGE_SIZE cow_state).2.free_list ∧
      f.bitmap = (buddy_alloc loongarch PAGE_SIZE cow_state).2.bitmap :=
  ⟨by decide!,
   (do_wp_page_cow loongarch (by decide) demo_process 0 cow_state 0x9000000000302000
      0x30100d 0x301000 (by decide!) (by decide!) (by decide!) (by decide!)).1
      (by decide!) (by decide!) (by decide!) (by decide!) (by decide!) (by decide!)⟩

/-! ## Lists of free blocks -/

theorem of_order_pop_same (k : Nat) :
    ∀ F, of_order (pop_order F k) k = (of_order F k).tail := by
  intro F
  induction F with
  | nil => rfl
  | cons x t ih =>
    by_cases h : x.1 = k
    · rw [pop_order, if_pos h, of_order, if_pos h]; rfl
    · rw [pop_order, if_neg h, of_order, if_neg h, of_order, if_neg h, ih]

theorem of_order_pop_other (k o : Nat) (hko : o ≠ k) :
    ∀ F, of_order (pop_order F k) o = of_order F o := by
  intro F
  induction F with
  | nil => rfl
  | cons x t ih =>
    by_cases h : x.1 = k
    · rw [pop_order, if_pos h, of_order, if_neg (by omega)]
    · rw [pop_order, if_neg h]
      by_cases g : x.1 = o
      · rw [of_order, if_pos g, of_order, if_pos g, ih]
      · rw [of_order, if_neg g, of_order, if_neg g, ih]

theorem pop_order_sublist (k : Nat) : ∀ F, (pop_order F k).Sublist F := by
  intro F
  induction F with
  | nil => exact List.Sublist.refl _
  | cons x t ih =>
    by_cases h : x.1 = k
    · rw [pop_order, if_pos h]; exact List.sublist_cons_self x t
    · rw [pop_order, if_neg h]; exact List.Sublist.cons₂ x ih

theorem of_order_mem (o b : Nat) : ∀ F, b ∈ of_order F o → (o, b) ∈ F := by
  intro F
  induction F with
  | nil => intro h; cases h
  | cons x t ih =>
    intro h
    by_cases g : x.1 = o
    · rw [of_order, if_pos g] at h
      rcases List.mem_cons.1 h with h1 | h1
      · have : x = (o, b) := by
          cases x; simp only at g h1; rw [g, h1]
        rw [this]; exact List.mem_cons_self _ _
      · exact List.mem_cons_of_mem _ (ih h1)
    · rw [of_order, if_neg g] at h
      exact List.mem_cons_of_mem _ (ih h)

theorem of_order_head_pop (k b : Nat) (t : List Nat) :
    ∀ F, of_order F k = b :: t → ∀ y ∈ pop_order F k,
      y ∈ F ∧ (F.Pairwise (fun x y => block_end x ≤ y.2 ∨ block_end y ≤ x.2) →
        block_end (k, b) ≤ y.2 ∨ block_end y ≤ b) := by
  intro F
  induction F with
  | nil => intro h; cases h
  | cons x r ih =>
    intro h y hy
    by_cases g : x.1 = k
    · rw [of_order, if_pos g] at h
      rw [pop_order, if_pos g] at hy
      have hx : x = (k, b) := by
        cases x
        simp only at g
        simp only [List.cons.injEq] at h
        rw [g, h.1]
      refine ⟨List.mem_cons_of_mem _ hy, fun hp => ?_⟩
      have := (List.pairwise_cons.1 hp).1 y hy
      rw [hx] at this
      exact this
    · rw [of_order, if_neg g] at h
      rw [pop_order, if_neg g] at hy
      rcases List.mem_cons.1 hy with h1 | h1
      · rw [h1]
        refine ⟨List.mem_cons_self _ _, fun hp => ?_⟩
        have hm : (k, b) ∈ r := of_order_mem k b r (by rw [h]; exact List.mem_cons_self _ _)
        have := (List.pairwise_cons.1 hp).1 (k, b) hm
        rcases this with c | c
        · right; exact c
        · left; exact c
      · have := ih h y h1
        exact ⟨List.mem_cons_of_mem _ this.1, fun hp => this.2 (List.pairwise_cons.1 hp).2⟩

theorem of_order_split (b : Nat) (G : List (Nat × Nat)) (o : Nat) :
    ∀ i, of_order (split_blocks b i ++ G) o =
      if o < i then (b + 2 ^ (o + 12)) :: of_order G o else of_order G o := by
  intro i
  induction i with
  | zero => rw [if_neg (by omega)]; rfl
  | succ i ih =>
    rw [split_blocks, List.cons_append, of_order]
    by_cases h : i = o
    · subst h
      rw [if_pos rfl, ih, if_neg (by omega), if_pos (by omega)]
    · rw [if_neg h, ih]
      by_cases g : o < i
      · rw [if_pos g, if_pos (by omega)]
      · rw [if_neg g, if_neg (by omega)]

theorem mem_split_blocks (b : Nat) (x : Nat × Nat) :
    ∀ i, x ∈ split_blocks b i → x.1 < i ∧ x.2 = b + 2 ^ (x.1 + 12) := by
  intro i
  induction i with
  | zero => intro h; cases h
  | succ i ih =>
    intro h
    rw [split_blocks] at h
    rcases List.mem_cons.1 h with h1 | h1
    · rw [h1]; exact ⟨by simp, rfl⟩
    · have := ih h1
      exact ⟨by omega, this.2⟩

theorem IsList_congr (m m' : Nat → Nat) :
    ∀ l h, IsList m h l → (∀ b ∈ l, ∀ x, b ≤ x → x < b + 8 → m' x = m x) →
      IsList m' h l := by
  intro l
  induction l with
  | nil => intro h hl _; exact hl
  | cons b t ih =>
    intro h hl hm
    obtain ⟨h1, h2, h3⟩ := hl
    refine ⟨h1, h2, ?_⟩
    rw [load64_congr m m' b (hm b (List.mem_cons_self _ _))]
    exact ih _ h3 (fun c hc => hm c (List.mem_cons_of_mem _ hc))

theorem pow_order_le (j k : Nat) (h : j < k) : 2 * 2 ^ (j + 12) ≤ 2 ^ (k + 12) := by
  have h1 : 2 * 2 ^ (j + 12) = 2 ^ (j + 1 + 12) := (two_pow_succ_order j).symm
  rw [h1]
  exact Nat.pow_le_pow_right (by norm_num) (by omega)

theorem two_pow_mod_page (j : Nat) : 2 ^ (j + 12) % 4096 = 0 := by
  rw [pow_add]
  norm_num

theorem split_loop_next (K : Xtos) (hD : K.DMW_MASK % 2 ^ 32 = 0) (b : Nat) :
    ∀ i s j, j < i → b + 2 ^ (i + 12) ≤ 2 ^ 32 → s.free_list j < 2 ^ 64 →
      load64 (split_loop K 0 b i s).mem (b + 2 ^ (j + 12)) = s.free_list j := by
  intro i
  induction i with
  | zero => intro s j h; omega
  | succ i ih =>
    intro s j hj hb hf
    have hp := two_pow_succ_order i
    have hq := two_pow_ge_page i
    have hb' : b + 2 ^ (i + 12) ≤ 2 ^ 32 := by omega
    have hlt : b + 2 ^ (i + 12) < 2 ^ 32 := by omega
    rw [split_loop, if_pos (by omega)]
    show load64 (split_loop K 0 b i _).mem _ = _
    by_cases hji : j = i
    · subst hji
      rw [load64_congr _ _ _ (fun x h1 h2 =>
        split_loop_mem_out K hD 0 b j _ x hb' (Or.inr h1))]
      show load64 (store64 s.mem (phys K (add64 b (2 ^ (j + 12)))) _) _ = _
      rw [phys_add_small K hD _ _ hlt, load64_store64_same, Nat.mod_eq_of_lt hf]
    · have hj' : j < i := by omega
      rw [ih _ j hj' hb']
      · show upd _ i _ j = _
        rw [upd_other _ _ _ _ hji]
        rfl
      · show upd _ i _ j < _
        rw [upd_other _ _ _ _ hji]
        exact hf

theorem pairwise_split_blocks (b : Nat) :
    ∀ i, (split_blocks b i).Pairwise (fun x y => block_end x ≤ y.2 ∨ block_end y ≤ x.2) := by
  intro i
  induction i with
  | zero => exact List.Pairwise.nil
  | succ i ih =>
    rw [split_blocks]
    refine List.pairwise_cons.2 ⟨?_, ih⟩
    intro y hy
    obtain ⟨h1, h2⟩ := mem_split_blocks b y i hy
    right
    have := pow_order_le y.1 i h1
    show y.2 + 2 ^ (y.1 + 12) ≤ b + 2 ^ (i + 12)
    omega

theorem bit_clear_small (x : Nat) (h : x ≤ 1) : x &&& (2 ^ 32 - 2) = 0 := by
  rcases Nat.le_one_iff_eq_zero_or_eq_one.1 h with e | e <;> rw [e] <;> decide

theorem bit_set_small (x : Nat) (h : x ≤ 1) : x ||| 1 = 1 := by
  rcases Nat.le_one_iff_eq_zero_or_eq_one.1 h with e | e <;> rw [e] <;> decide

theorem IsList_head (m : Nat → Nat) (h : Nat) (l : List Nat) (hl : IsList m h l) :
    h = 0 ∨ h ∈ l := by
  cases l with
  | nil => exact Or.inl hl
  | cons b t => exact Or.inr (by rw [hl.1]; exact List.mem_cons_self _ _)

theorem alloc_block_free_list (K : Xtos) (order i : Nat) (s : State) (o : Nat) :
    (alloc_block K order i s).2.free_list o =
      if order ≤ o ∧ o < i then add64 (s.free_list i) (2 ^ (o + 12))
      else upd s.free_list i (rd K s (s.free_list i)) o := by
  show (split_loop K order (s.free_list i) i _).free_list o = _
  rw [split_loop_free_list, (clear_if_mem _ _ _).2.2]

theorem clear_if_bitmap (i : Nat) (s : State) (c : Prop) [Decidable c] (o : Nat) :
    (if c then clear_bit i s else s).bitmap o =
      if c ∧ o = i then s.bitmap i &&& (2 ^ 32 - 2) else s.bitmap o := by
  by_cases h : c
  · rw [if_pos h]
    by_cases g : o = i
    · rw [if_pos ⟨h, g⟩, g]
      show upd _ i _ i = _
      rw [upd_same]
    · rw [if_neg (fun x => g x.2)]
      show upd _ i _ o = _
      rw [upd_other _ _ _ _ g]
  · rw [if_neg h, if_neg (fun x => h x.1)]

theorem alloc_block_bitmap (K : Xtos) (order i : Nat) (s : State) (o : Nat) :
    (alloc_block K order i s).2.bitmap o =
      if order ≤ o ∧ o < i then
        (if rd K s (s.free_list i) = 0 ∧ o = i then s.bitmap i &&& (2 ^ 32 - 2)
          else s.bitmap o) ||| 1
      else
        (if rd K s (s.free_list i) = 0 ∧ o = i then s.bitmap i &&& (2 ^ 32 - 2)
          else s.bitmap o) := by
  have e : ∀ o, (if upd s.free_list i (rd K s (s.free_list i)) i = 0 then
        clear_bit i { s with free_list := upd s.free_list i (rd K s (s.free_list i)) }
      else { s with free_list := upd s.free_list i (rd K s (s.free_list i)) }).bitmap o =
      if rd K s (s.free_list i) = 0 ∧ o = i then s.bitmap i &&& (2 ^ 32 - 2)
      else s.bitmap o := by
    intro o
    rw [clear_if_bitmap, upd_same]
  show (split_loop K order (s.free_list i) i _).bitmap o = _
  rw [split_loop_bitmap]
  by_cases h : order ≤ o ∧ o < i
  · rw [if_pos h, if_pos h]
    exact congrArg (fun v => v ||| 1) (e o)
  · rw [if_neg h, if_neg h]
    exact e o

theorem alloc_block_next (K : Xtos) (hD : K.DMW_MASK % 2 ^ 32 = 0) (i : Nat) (s : State)
    (j : Nat) (hj : j < i) (hb : s.free_list i + 2 ^ (i + 12) ≤ 2 ^ 32)
    (hf : s.free_list j < 2 ^ 64) :
    load64 (alloc_block K 0 i s).2.mem (s.free_list i + 2 ^ (j + 12)) = s.free_list j := by
  have hq := two_pow_ge_page j
  have hq' := two_pow_ge_page i
  have hlt : s.free_list i < 2 ^ 32 := by omega
  have hfj : (if upd s.free_list i (rd K s (s.free_list i)) i = 0 then
        clear_bit i { s with free_list := upd s.free_list i (rd K s (s.free_list i)) }
      else { s with free_list := upd s.free_list i (rd K s (s.free_list i)) }).free_list j =
      s.free_list j := by
    rw [(clear_if_mem _ _ _).2.2]
    show upd _ i _ j = _
    rw [upd_other _ _ _ _ (by omega)]
  show load64 (set_mem (split_loop K 0 (s.free_list i) i _).mem
    (phys K (s.free_list i ||| K.DMW_MASK)) 0 PAGE_SIZE) _ = _
  rw [phys_lor K hD _ hlt]
  rw [load64_congr (split_loop K 0 (s.free_list i) i _).mem _ _ (fun x h1 h2 => by
    unfold set_mem
    rw [if_neg (by simp only [PAGE_SIZE]; omega)])]
  have key : ∀ s2 : State, s2.free_list j = s.free_list j →
      load64 (split_loop K 0 (s.free_list i) i s2).mem (s.free_list i + 2 ^ (j + 12)) =
        s.free_list j := fun s2 h2 => by
    rw [split_loop_next K hD _ i s2 j hj hb (by rw [h2]; exact hf), h2]
  exact key _ hfj

/-- One successful page allocation keeps the free lists well formed: the
block at the head of list `k` leaves the free blocks, its upper halves join
them, and its first page joins the protected pages. -/
theorem alloc_block_inv (K : Xtos) (hD : K.DMW_MASK % 2 ^ 32 = 0) (s : State)
    (F : List (Nat × Nat)) (X : List Nat) (k : Nat) (hinv : FreeInv s F X)
    (hk : k ≤ MAX_ORDER) (hbit : s.bitmap k ≠ 0) :
    s.free_list k % 4096 = 0 ∧ s.free_list k + 2 ^ (k + 12) ≤ MEMORY_SIZE ∧
    s.free_list k ≠ 0 ∧
    (∀ p ∈ X, p * 4096 + 4096 ≤ s.free_list k ∨
      s.free_list k + 2 ^ (k + 12) ≤ p * 4096) ∧
    FreeInv (alloc_block K 0 k s).2 (split_blocks (s.free_list k) k ++ pop_order F k)
      ((s.free_list k / 4096) :: X) := by
  obtain ⟨hl, hbits, hr, hd, hp⟩ := hinv
  have hne := (hbits k hk).2 hbit
  have hlk := hl k hk
  obtain ⟨t, ht⟩ : ∃ t, of_order F k = s.free_list k :: t := by
    cases hc : of_order F k with
    | nil => exact absurd hc hne
    | cons c t =>
      rw [hc] at hlk
      exact ⟨t, by rw [hlk.1]⟩
  rw [ht] at hlk
  obtain ⟨_, hb0, htail⟩ := hlk
  have hmemF : (k, s.free_list k) ∈ F :=
    of_order_mem k _ F (by rw [ht]; exact List.mem_cons_self _ _)
  obtain ⟨hal, hend⟩ := hr _ hmemF
  have hprot := hp _ hmemF
  have hM : MEMORY_SIZE = 134217728 := rfl
  have h32 : (2 : Nat) ^ 32 = 4294967296 := by norm_num
  have h64 : (2 : Nat) ^ 64 = 18446744073709551616 := by norm_num
  have hqk := two_pow_ge_page k
  have hend' : s.free_list k + 2 ^ (k + 12) ≤ MEMORY_SIZE := hend
  generalize hbdef : s.free_list k = b at *
  have hb32 : b + 2 ^ (k + 12) ≤ 2 ^ 32 := by omega
  have hblt : b < 2 ^ 32 := by omega
  have hrd : rd K s b = load64 s.mem b := by
    show load64 s.mem (phys K b) = _
    rw [phys_small K hD b hblt]
  -- blocks that stay free lie outside the block taken
  have hout : ∀ y ∈ pop_order F k, y ∈ F ∧ (block_end (k, b) ≤ y.2 ∨ block_end y ≤ b) :=
    fun y hy => ⟨(of_order_head_pop k b t F ht y hy).1,
      (of_order_head_pop k b t F ht y hy).2 hd⟩
  have hframe : ∀ o c, c ∈ of_order (pop_order F k) o → ∀ x, c ≤ x → x < c + 8 →
      (alloc_block K 0 k s).2.mem x = s.mem x := by
    intro o c hc x h1 h2
    have hm := of_order_mem o c _ hc
    obtain ⟨hy1, hy2⟩ := hout _ hm
    have hq := two_pow_ge_page o
    have e1 : block_end (k, b) = b + 2 ^ (k + 12) := rfl
    have e2 : block_end (o, c) = c + 2 ^ (o + 12) := rfl
    rw [e1, e2] at hy2
    apply alloc_block_mem_out K hD 0 k s x (by rw [hbdef]; exact hb32)
    rw [hbdef]
    have : (o, c).2 = c := rfl
    rw [this] at hy2
    omega
  have hheadlt : ∀ o, o ≤ MAX_ORDER → s.free_list o < 2 ^ 64 := by
    intro o ho
    rcases IsList_head _ _ _ (hl o ho) with e | e
    · rw [e]; norm_num
    · have := (hr _ (of_order_mem o _ F e)).2
      have e2 : block_end (o, s.free_list o) = s.free_list o + 2 ^ (o + 12) := rfl
      have hq := two_pow_ge_page o
      rw [e2] at this
      omega
  refine ⟨hal, hend', hb0, hprot, ?_, ?_, ?_, ?_, ?_⟩
  · -- the chains
    intro o ho
    rw [alloc_block_free_list, hbdef, of_order_split]
    by_cases hok : o < k
    · rw [if_pos ⟨Nat.zero_le _, hok⟩, if_pos hok, of_order_pop_other k o (by omega)]
      have hq := two_pow_ge_page o
      have hpo := pow_order_le o k hok
      rw [add64_eq _ _ (by omega)]
      refine ⟨rfl, by omega, ?_⟩
      have hn := alloc_block_next K hD k s o hok (by rw [hbdef]; exact hb32) (hheadlt o ho)
      rw [hbdef] at hn
      rw [hn]
      refine IsList_congr s.mem _ _ _ (hl o ho) ?_
      intro c hc
      exact hframe o c (by rw [of_order_pop_other k o (by omega)]; exact hc)
    · rw [if_neg (fun h => hok h.2), if_neg hok]
      by_cases hok' : o = k
      · subst hok'
        rw [upd_same, hrd, of_order_pop_same, ht]
        refine IsList_congr s.mem _ _ _ htail ?_
        intro c hc
        exact hframe o c (by rw [of_order_pop_same, ht]; exact hc)
      · rw [upd_other _ _ _ _ hok', of_order_pop_other k o hok']
        refine IsList_congr s.mem _ _ _ (hl o ho) ?_
        intro c hc
        exact hframe o c (by rw [of_order_pop_other k o hok']; exact hc)
  · -- the presence bits
    intro o ho
    rw [alloc_block_bitmap, hbdef, of_order_split, hrd]
    by_cases hok : o < k
    · rw [if_pos ⟨Nat.zero_le _, hok⟩, if_pos hok, if_neg (fun h => by omega),
        bit_set_small _ (hbits o ho).1]
      exact ⟨le_refl _, fun _ => List.cons_ne_nil _ _⟩
    · rw [if_neg (fun h => hok h.2), if_neg hok]
      by_cases hz : load64 s.mem b = 0 ∧ o = k
      · rw [if_pos hz, bit_clear_small _ (hbits k hk).1]
        exact ⟨Nat.zero_le _, fun h => absurd rfl h⟩
      · rw [if_neg hz]
        refine ⟨(hbits o ho).1, fun hnz => ?_⟩
        by_cases hok' : o = k
        · subst hok'
          rw [of_order_pop_same, ht]
          intro ht0
          have ht0' : t = [] := ht0
          rw [ht0'] at htail
          exact hz ⟨htail, rfl⟩
        · rw [of_order_pop_other k o hok']
          exact (hbits o ho).2 hnz
  · -- alignment and range
    intro x hx
    rcases List.mem_append.1 hx with h1 | h1
    · obtain ⟨hx1, hx2⟩ := mem_split_blocks b x k h1
      have hpo := pow_order_le x.1 k hx1
      have hmod := two_pow_mod_page x.1
      have e2 : block_end x = x.2 + 2 ^ (x.1 + 12) := rfl
      rw [e2, hx2]
      constructor
      · omega
      · omega
    · exact hr x (hout x h1).1
  · -- disjointness
    refine List.pairwise_append.2 ⟨pairwise_split_blocks b k,
      List.Pairwise.sublist (pop_order_sublist k F) hd, ?_⟩
    intro x hx y hy
    obtain ⟨hx1, hx2⟩ := mem_split_blocks b x k hx
    have hpo := pow_order_le x.1 k hx1
    have hy2 := (hout y hy).2
    have e1 : block_end (k, b) = b + 2 ^ (k + 12) := rfl
    have e2 : block_end x = x.2 + 2 ^ (x.1 + 12) := rfl
    rw [e1] at hy2
    rw [e2, hx2]
    have hq := two_pow_ge_page x.1
    omega
  · -- protected pages
    intro x hx p hpX
    have e2 : block_end x = x.2 + 2 ^ (x.1 + 12) := rfl
    have e1 : block_end (k, b) = b + 2 ^ (k + 12) := rfl
    rcases List.mem_cons.1 hpX with hpb | hpb
    · have hpb' : p * 4096 = b := by rw [hpb]; omega
      rw [hpb']
      rcases List.mem_append.1 hx with h1 | h1
      · obtain ⟨hx1, hx2⟩ := mem_split_blocks b x k h1
        have hq := two_pow_ge_page x.1
        left; omega
      · have hy2 := (hout x h1).2
        rw [e1] at hy2
        omega
    · rcases List.mem_append.1 hx with h1 | h1
      · obtain ⟨hx1, hx2⟩ := mem_split_blocks b x k h1
        have hpo := pow_order_le x.1 k hx1
        have hq := two_pow_ge_page x.1
        have := hprot p hpb
        rw [e1] at this
        rw [e2, hx2]
        omega
      · exact hp x (hout x h1).1 p hpb

/-! ## `get_page` and the free-list invariant -/

theorem FreeInv_frame (s s' : State) (F : List (Nat × Nat)) (X : List Nat)
    (hinv : FreeInv s F X) (hfl : s'.free_list = s.free_list) (hbm : s'.bitmap = s.bitmap)
    (hmem : ∀ x, x / 4096 ∉ X → s'.mem x = s.mem x) : FreeInv s' F X := by
  obtain ⟨hl, hbits, hr, hd, hp⟩ := hinv
  refine ⟨?_, ?_, hr, hd, hp⟩
  · intro o ho
    rw [hfl]
    refine IsList_congr s.mem _ _ _ (hl o ho) ?_
    intro c hc x h1 h2
    apply hmem
    intro hx
    have hm := of_order_mem o c F hc
    have := hp _ hm _ hx
    have e2 : block_end (o, c) = c + 2 ^ (o + 12) := rfl
    have e3 : (o, c).2 = c := rfl
    have hq := two_pow_ge_page o
    rw [e2, e3] at this
    omega
  · intro o ho
    rw [hbm]
    exact hbits o ho

theorem FreeInv_mem_map (s : State) (F : List (Nat × Nat)) (X : List Nat)
    (hinv : FreeInv s F X) (mm : Nat → Nat) : FreeInv { s with mem_map := mm } F X :=
  hinv

theorem get_page_inv (K : Xtos) (hD : K.DMW_MASK % 2 ^ 32 = 0) (s : State)
    (F : List (Nat × Nat)) (X : List Nat) (hinv : FreeInv s F X) (r : Nat) (s' : State)
    (h : get_page K s = Result.done r s') :
    ∃ b F', r = b ||| K.DMW_MASK ∧ b % 4096 = 0 ∧ b + 4096 ≤ MEMORY_SIZE ∧
      b / 4096 ∉ X ∧ FreeInv s' F' ((b / 4096) :: X) ∧
      s'.free_list = (buddy_alloc K PAGE_SIZE s).2.free_list ∧
      (∀ x, x / 4096 ∈ X → s'.mem x = s.mem x) ∧
      (∀ x, b ≤ x → x < b + 4096 → s'.mem x = 0) ∧
      (∀ q, s'.mem_map q = if q = b / 4096 then 1 else s.mem_map q) := by
  have hne : (buddy_alloc K PAGE_SIZE s).1 ≠ 0 := by
    intro h0
    rw [get_page, if_pos h0] at h
    cases h
  rw [get_page_done K s hne] at h
  have hr : (buddy_alloc K PAGE_SIZE s).1 = r := by injection h
  have hs : (buddy_alloc K PAGE_SIZE s).2 = s' := by injection h
  obtain ⟨k, _, hk2, hbit, _, halloc⟩ := buddy_alloc_pick K PAGE_SIZE s hne
  rw [get_order_page] at halloc
  obtain ⟨hal, hend, hb0, hprot, hinv'⟩ := alloc_block_inv K hD s F X k hinv hk2 hbit
  have hM : MEMORY_SIZE = 134217728 := rfl
  have h32 : (2 : Nat) ^ 32 = 4294967296 := by norm_num
  have hq := two_pow_ge_page k
  have hb32 : s.free_list k + 2 ^ (k + 12) ≤ 2 ^ 32 := by omega
  refine ⟨s.free_list k, split_blocks (s.free_list k) k ++ pop_order F k, ?_, hal, by omega,
    ?_, ?_, by rw [hs], ?_, ?_, ?_⟩
  · rw [← hr, halloc, alloc_block_val]
  · intro hx
    have := hprot _ hx
    omega
  · rw [← hs, halloc]
    exact hinv'
  · intro x hx
    rw [← hs, halloc]
    apply alloc_block_mem_out K hD 0 k s x hb32
    have := hprot _ hx
    omega
  · intro x h1 h2
    rw [← hs, halloc]
    exact alloc_block_zero K hD 0 k s x (by omega) ⟨h1, h2⟩
  · intro q
    rw [← hs, halloc, alloc_block_mem_map, mark_used_eq, Nat.shiftRight_eq_div_pow]
    have e12 : (2 : Nat) ^ 12 = 4096 := by norm_num
    rw [e12, pow_zero]
    by_cases hqb : q = s.free_list k / 4096
    · rw [if_pos hqb, if_pos (by omega)]
    · rw [if_neg hqb, if_neg (by omega)]

/-! ## Pointers to directory and table entries -/

theorem add64_assoc (p a b : Nat) : add64 (add64 p a) b = add64 p (a + b) := by
  unfold add64
  rw [Nat.add_mod, Nat.mod_mod, ← Nat.add_mod, Nat.add_assoc]

theorem add64_zero (p : Nat) (hp : p < 2 ^ 64) : add64 p 0 = p := by
  unfold add64
  rw [Nat.add_zero, Nat.mod_eq_of_lt hp]

theorem points_to_add (K : Xtos) (hD : K.DMW_MASK % 2 ^ 32 = 0) (hD64 : K.DMW_MASK < 2 ^ 64)
    (p a c : Nat) (h : points_to K p a) (hac : a + c < 2 ^ 32) :
    phys K (add64 p c) = a + c := by
  rcases h with e | e
  · rw [e]; exact phys_add_small K hD a c hac
  · rw [e]; exact phys_add_dmw K hD hD64 a c hac

theorem points_to_lt (K : Xtos) (hD : K.DMW_MASK % 2 ^ 32 = 0) (hD64 : K.DMW_MASK < 2 ^ 64)
    (p a : Nat) (h : points_to K p a) (ha : a < 2 ^ 32) : p < 2 ^ 64 := by
  rcases h with e | e
  · rw [e]; omega
  · rw [e, lor_dmw_eq_add _ _ hD ha]; omega

/-! ## One leaf entry of `copy_page_table` -/

theorem share_page_done (K : Xtos) (page : Nat) (s : State)
    (h : s.mem_map (phys K page >>> 12) ≠ 0) :
    share_page K page s = Result.done ()
      (State.mk s.free_list s.bitmap
        (upd s.mem_map (phys K page >>> 12) ((s.mem_map (phys K page >>> 12) + 1) % 256))
        s.mem) := by
  rw [share_page]
  exact if_neg h

theorem share_page_halt (K : Xtos) (page : Nat) (s : State)
    (h : s.mem_map (phys K page >>> 12) = 0) :
    share_page K page s = Result.halted s := by
  rw [share_page]
  exact if_pos h

theorem copy_leaf_skip (K : Xtos) (fp tp : Nat) (s : State)
    (h : rd K s fp = 0 ∨ cow_skipped K s (rd K s fp)) :
    copy_leaf K fp tp s = Result.done () s := by
  rw [copy_leaf]
  by_cases h0 : rd K s fp = 0
  · exact if_pos h0
  · rw [if_neg h0]
    rcases h with h | h
    · exact absurd h h0
    · exact if_pos h

theorem copy_leaf_share (K : Xtos) (fp tp : Nat) (s : State)
    (h0 : rd K s fp ≠ 0) (h1 : ¬ cow_skipped K s (rd K s fp))
    (h2 : s.mem_map (page_index K (rd K s fp)) ≠ 0) :
    copy_leaf K fp tp s = Result.done ()
      (wr K (wr K (State.mk s.free_list s.bitmap
            (upd s.mem_map (page_index K (rd K s fp))
              ((s.mem_map (page_index K (rd K s fp)) + 1) % 256)) s.mem) fp
          (rd K s fp &&& not64 K.PTE_D)) tp
        (rd K (wr K (State.mk s.free_list s.bitmap
            (upd s.mem_map (page_index K (rd K s fp))
              ((s.mem_map (page_index K (rd K s fp)) + 1) % 256)) s.mem) fp
          (rd K s fp &&& not64 K.PTE_D)) fp)) := by
  rw [copy_leaf, if_neg h0]
  have e := share_page_done K (entry_page K (rd K s fp)) s h2
  simp only [e]
  exact if_neg h1

theorem copy_leaf_halt (K : Xtos) (fp tp : Nat) (s : State)
    (h0 : rd K s fp ≠ 0) (h1 : ¬ cow_skipped K s (rd K s fp))
    (h2 : s.mem_map (page_index K (rd K s fp)) = 0) :
    copy_leaf K fp tp s = Result.halted s := by
  rw [copy_leaf, if_neg h0]
  have e := share_page_halt K (entry_page K (rd K s fp)) s h2
  simp only [e]
  exact if_neg h1

theorem copy_leaf_spec (K : Xtos) (fp tp a a' : Nat) (s s1 : State)
    (hfp : phys K fp = a) (htp : phys K tp = a') (hsep : a + 8 ≤ a' ∨ a' + 8 ≤ a)
    (h : copy_leaf K fp tp s = Result.done () s1) :
    s1.free_list = s.free_list ∧ s1.bitmap = s.bitmap ∧
    (∀ x, (x < a ∨ a + 8 ≤ x) → (x < a' ∨ a' + 8 ≤ x) → s1.mem x = s.mem x) ∧
    (∀ q, (load64 s.mem a ≠ 0 → page_index K (load64 s.mem a) ≠ q) →
      s1.mem_map q = s.mem_map q) ∧
    ((load64 s.mem a = 0 ∨ cow_skipped K s (load64 s.mem a)) → s1 = s) ∧
    (load64 s.mem a ≠ 0 → ¬ cow_skipped K s (load64 s.mem a) →
      s.mem_map (page_index K (load64 s.mem a)) ≠ 0 ∧
      s1.mem_map (page_index K (load64 s.mem a)) =
        (s.mem_map (page_index K (load64 s.mem a)) + 1) % 256 ∧
      load64 s1.mem a = load64 s.mem a &&& not64 K.PTE_D ∧
      load64 s1.mem a' = load64 s.mem a &&& not64 K.PTE_D) := by
  have hrd : rd K s fp = load64 s.mem a := by
    show load64 s.mem (phys K fp) = _
    rw [hfp]
  by_cases hskip : load64 s.mem a = 0 ∨ cow_skipped K s (load64 s.mem a)
  · have e := copy_leaf_skip K fp tp s (by rw [hrd]; exact hskip)
    rw [e] at h
    have hs : s = s1 := by injection h
    subst hs
    refine ⟨rfl, rfl, fun _ _ _ => rfl, fun _ _ => rfl, fun _ => rfl, ?_⟩
    intro h0 h1
    rcases hskip with c | c
    · exact absurd c h0
    · exact absurd c h1
  · have h0 : load64 s.mem a ≠ 0 := fun c => hskip (Or.inl c)
    have h1 : ¬ cow_skipped K s (load64 s.mem a) := fun c => hskip (Or.inr c)
    by_cases h2 : s.mem_map (page_index K (load64 s.mem a)) = 0
    · have e := copy_leaf_halt K fp tp s (by rw [hrd]; exact h0) (by rw [hrd]; exact h1)
        (by rw [hrd]; exact h2)
      rw [e] at h
      cases h
    · have e := copy_leaf_share K fp tp s (by rw [hrd]; exact h0) (by rw [hrd]; exact h1)
        (by rw [hrd]; exact h2)
      rw [e, hrd] at h
      generalize hv : load64 s.mem a &&& not64 K.PTE_D = v at h
      have hv64 : v < 2 ^ 64 := by
        rw [← hv]; exact Nat.and_lt_two_pow _ (not64_lt _)
      generalize hc : (s.mem_map (page_index K (load64 s.mem a)) + 1) % 256 = c at h
      have hrd2 : rd K (wr K (State.mk s.free_list s.bitmap
          (upd s.mem_map (page_index K (load64 s.mem a)) c) s.mem) fp v) fp = v :=
        rd_wr_same K _ fp v hv64
      rw [hrd2] at h
      have hs : State.mk s.free_list s.bitmap
          (upd s.mem_map (page_index K (load64 s.mem a)) c)
          (store64 (store64 s.mem a v) a' v) = s1 := by
        have h' : wr K (wr K (State.mk s.free_list s.bitmap
          (upd s.mem_map (page_index K (load64 s.mem a)) c) s.mem) fp v) tp v = s1 := by
          injection h
        rw [← h']
        show _ = State.mk _ _ _ (store64 (store64 s.mem (phys K fp) v) (phys K tp) v)
        rw [hfp, htp]
        rfl
      subst hs
      refine ⟨rfl, rfl, ?_, ?_, ?_, ?_⟩
      · intro x hx hx'
        show store64 (store64 s.mem a v) a' v x = _
        rw [store64_out _ _ _ _ hx', store64_out _ _ _ _ hx]
      · intro q hq
        show upd s.mem_map _ c q = _
        rw [upd_other _ _ _ _ (fun c' => hq h0 c'.symm)]
      · intro c'
        exact absurd c' hskip
      · intro _ _
        refine ⟨h2, ?_, ?_, ?_⟩
        · show upd s.mem_map _ c _ = _
          rw [upd_same]
        · show load64 (store64 (store64 s.mem a v) a' v) a = _
          rw [load64_store64_other _ _ _ _ (by omega), load64_store64_same,
            Nat.mod_eq_of_lt hv64]
        · show load64 (store64 (store64 s.mem a v) a' v) a' = _
          rw [load64_store64_same, Nat.mod_eq_of_lt hv64]

/-! ## The inner loop of `copy_page_table` -/

theorem copy_leaves_step (K : Xtos) (n fp tp : Nat) (s s' : State)
    (h : copy_leaves K (n + 1) fp tp s = Result.done () s') :
    ∃ s1, copy_leaf K fp tp s = Result.done () s1 ∧
      copy_leaves K n (add64 fp ENTRY_SIZE) (add64 tp ENTRY_SIZE) s1 = Result.done () s' := by
  rw [copy_leaves] at h
  cases hc : copy_leaf K fp tp s with
  | halted h1 => rw [hc] at h; cases h
  | done v s1 => rw [hc] at h; exact ⟨s1, rfl, h⟩

theorem next_entry (p j : Nat) :
    add64 (add64 p (8 * j)) ENTRY_SIZE = add64 p (8 * (j + 1)) := by
  rw [add64_assoc]
  rfl

theorem is_share_page_congr (K : Xtos) (s s1 : State) (e : Nat)
    (h : s1.mem_map (page_index K e) = s.mem_map (page_index K e)) :
    is_share_page K (entry_page K e) s1 = is_share_page K (entry_page K e) s := by
  show char_gt_one K (s1.mem_map (page_index K e)) = char_gt_one K (s.mem_map (page_index K e))
  rw [h]

theorem cow_skipped_congr (K : Xtos) (s s1 : State) (e : Nat)
    (h : s1.mem_map (page_index K e) = s.mem_map (page_index K e)) :
    cow_skipped K s1 e ↔ cow_skipped K s e := by
  unfold cow_skipped
  rw [is_share_page_congr K s s1 e h]

theorem copy_leaves_frame (K : Xtos) (hD : K.DMW_MASK % 2 ^ 32 = 0)
    (hD64 : K.DMW_MASK < 2 ^ 64) (pf pt T T' : Nat) (hpf : points_to K pf T)
    (hpt : points_to K pt T') (hT : T + 4096 ≤ 2 ^ 32) (hT' : T' + 4096 ≤ 2 ^ 32)
    (hTT : T + 4096 ≤ T' ∨ T' + 4096 ≤ T) :
    ∀ n j0 s s', j0 + n = 512 →
      copy_leaves K n (add64 pf (8 * j0)) (add64 pt (8 * j0)) s = Result.done () s' →
      s'.free_list = s.free_list ∧ s'.bitmap = s.bitmap ∧
      (∀ x, (x < T + 8 * j0 ∨ T + 4096 ≤ x) → (x < T' + 8 * j0 ∨ T' + 4096 ≤ x) →
        s'.mem x = s.mem x) ∧
      (∀ q, (∀ j, j0 ≤ j → j < 512 → load64 s.mem (T + 8 * j) ≠ 0 →
          page_index K (load64 s.mem (T + 8 * j)) ≠ q) → s'.mem_map q = s.mem_map q) := by
  intro n
  induction n with
  | zero =>
    intro j0 s s' _ h
    rw [copy_leaves] at h
    have hs : s = s' := by injection h
    subst hs
    exact ⟨rfl, rfl, fun _ _ _ => rfl, fun _ _ => rfl⟩
  | succ n ih =>
    intro j0 s s' hn h
    obtain ⟨s1, h1, h2⟩ := copy_leaves_step K n _ _ s s' h
    rw [next_entry, next_entry] at h2
    have hj0 : j0 < 512 := by omega
    have hfp := points_to_add K hD hD64 pf T (8 * j0) hpf (by omega)
    have htp := points_to_add K hD hD64 pt T' (8 * j0) hpt (by omega)
    obtain ⟨a1, a2, a3, a4, _, _⟩ := copy_leaf_spec K _ _ _ _ s s1 hfp htp (by omega) h1
    obtain ⟨b1, b2, b3, b4⟩ := ih (j0 + 1) s1 s' (by omega) h2
    refine ⟨by rw [b1, a1], by rw [b2, a2], ?_, ?_⟩
    · intro x hx hx'
      rw [b3 x (by omega) (by omega), a3 x (by omega) (by omega)]
    · intro q hq
      rw [b4 q ?_, a4 q (hq j0 (le_refl _) hj0)]
      intro j hj1 hj2
      have e : load64 s1.mem (T + 8 * j) = load64 s.mem (T + 8 * j) :=
        load64_congr _ _ _ (fun x hx1 hx2 => a3 x (by omega) (by omega))
      rw [e]
      exact hq j (by omega) hj2

theorem copy_leaves_effect (K : Xtos) (hD : K.DMW_MASK % 2 ^ 32 = 0)
    (hD64 : K.DMW_MASK < 2 ^ 64) (pf pt T T' : Nat) (hpf : points_to K pf T)
    (hpt : points_to K pt T') (hT : T + 4096 ≤ 2 ^ 32) (hT' : T' + 4096 ≤ 2 ^ 32)
    (hTT : T + 4096 ≤ T' ∨ T' + 4096 ≤ T) (jt : Nat) (hjt : jt < 512) :
    ∀ n j0 s s', j0 + n = 512 → j0 ≤ jt →
      copy_leaves K n (add64 pf (8 * j0)) (add64 pt (8 * j0)) s = Result.done () s' →
      load64 s.mem (T + 8 * jt) ≠ 0 →
      (∀ j, j0 ≤ j → j < 512 → j ≠ jt → load64 s.mem (T + 8 * j) ≠ 0 →
        page_index K (load64 s.mem (T + 8 * j)) ≠
          page_index K (load64 s.mem (T + 8 * jt))) →
      (cow_skipped K s (load64 s.mem (T + 8 * jt)) →
        s'.mem_map (page_index K (load64 s.mem (T + 8 * jt))) =
          s.mem_map (page_index K (load64 s.mem (T + 8 * jt))) ∧
        load64 s'.mem (T + 8 * jt) = load64 s.mem (T + 8 * jt) ∧
        load64 s'.mem (T' + 8 * jt) = load64 s.mem (T' + 8 * jt)) ∧
      (¬ cow_skipped K s (load64 s.mem (T + 8 * jt)) →
        s.mem_map (page_index K (load64 s.mem (T + 8 * jt))) ≠ 0 ∧
        s'.mem_map (page_index K (load64 s.mem (T + 8 * jt))) =
          (s.mem_map (page_index K (load64 s.mem (T + 8 * jt))) + 1) % 256 ∧
        load64 s'.mem (T + 8 * jt) = load64 s.mem (T + 8 * jt) &&& not64 K.PTE_D ∧
        load64 s'.mem (T' + 8 * jt) = load64 s.mem (T + 8 * jt) &&& not64 K.PTE_D) := by
  intro n
  induction n with
  | zero => intro j0 s s' hn hj; omega
  | succ n ih =>
    intro j0 s s' hn hj h he huniq
    obtain ⟨s1, h1, h2⟩ := copy_leaves_step K n _ _ s s' h
    rw [next_entry, next_entry] at h2
    have hj0 : j0 < 512 := by omega
    have hfp := points_to_add K hD hD64 pf T (8 * j0) hpf (by omega)
    have htp := points_to_add K hD hD64 pt T' (8 * j0) hpt (by omega)
    obtain ⟨a1, a2, a3, a4, a5, a6⟩ :=
      copy_leaf_spec K _ _ _ _ s s1 hfp htp (by omega) h1
    have hleaf : ∀ j, j < 512 → j ≠ j0 →
        load64 s1.mem (T + 8 * j) = load64 s.mem (T + 8 * j) := fun j hj1 hj2 =>
      load64_congr _ _ _ (fun x hx1 hx2 => a3 x (by omega) (by omega))
    have hleaf' : ∀ j, j < 512 → j ≠ j0 →
        load64 s1.mem (T' + 8 * j) = load64 s.mem (T' + 8 * j) := fun j hj1 hj2 =>
      load64_congr _ _ _ (fun x hx1 hx2 => a3 x (by omega) (by omega))
    by_cases hc : j0 = jt
    · subst hc
      obtain ⟨b1, b2, b3, b4⟩ := copy_leaves_frame K hD hD64 pf pt T T' hpf hpt hT hT' hTT
        n (j0 + 1) s1 s' (by omega) h2
      have hm : s'.mem_map (page_index K (load64 s.mem (T + 8 * j0))) =
          s1.mem_map (page_index K (load64 s.mem (T + 8 * j0))) := by
        apply b4
        intro j hj1 hj2
        rw [hleaf j hj2 (by omega)]
        exact huniq j (by omega) hj2 (by omega)
      have hl : load64 s'.mem (T + 8 * j0) = load64 s1.mem (T + 8 * j0) :=
        load64_congr _ _ _ (fun x hx1 hx2 => b3 x (by omega) (by omega))
      have hl' : load64 s'.mem (T' + 8 * j0) = load64 s1.mem (T' + 8 * j0) :=
        load64_congr _ _ _ (fun x hx1 hx2 => b3 x (by omega) (by omega))
      constructor
      · intro hsk
        have e := a5 (Or.inr hsk)
        rw [hm, hl, hl', e]
        exact ⟨rfl, rfl, rfl⟩
      · intro hsk
        obtain ⟨c1, c2, c3, c4⟩ := a6 he hsk
        rw [hm, hl, hl']
        exact ⟨c1, c2, c3, c4⟩
    · have hlt : j0 < jt := by omega
      have e1 := hleaf jt hjt (by omega)
      have e2 := hleaf' jt hjt (by omega)
      have hmq : s1.mem_map (page_index K (load64 s.mem (T + 8 * jt))) =
          s.mem_map (page_index K (load64 s.mem (T + 8 * jt))) :=
        a4 _ (fun h0 => huniq j0 (le_refl _) hj0 hc h0)
      have hsk := cow_skipped_congr K s s1 (load64 s.mem (T + 8 * jt)) hmq
      have hih := ih (j0 + 1) s1 s' (by omega) (by omega) h2 (by rw [e1]; exact he)
        (by
          intro j hj1 hj2 hj3
          rw [hleaf j hj2 (by omega), e1]
          exact huniq j (by omega) hj2 hj3)
      rw [e1, e2, hmq] at hih
      exact ⟨fun c => hih.1 (hsk.2 c), fun c => hih.2 (fun c' => c (hsk.1 c'))⟩

/-! ## One directory entry of `copy_page_table` -/

theorem load64_zero (m : Nat → Nat) (a : Nat) (h : ∀ x, a ≤ x → x < a + 8 → m x = 0) :
    load64 m a = 0 := by
  unfold load64 load8
  rw [h a (by omega) (by omega), h (a + 1) (by omega) (by omega),
    h (a + 2) (by omega) (by omega), h (a + 3) (by omega) (by omega),
    h (a + 4) (by omega) (by omega), h (a + 5) (by omega) (by omega),
    h (a + 6) (by omega) (by omega), h (a + 7) (by omega) (by omega)]
  norm_num

theorem copy_table_skip (K : Xtos) (fpde tpde : Nat) (s : State) (h : rd K s fpde = 0) :
    copy_table K fpde tpde s = Result.done () s := by
  rw [copy_table]
  exact if_pos h

theorem copy_table_run (K : Xtos) (fpde tpde : Nat) (s s1 : State) (h0 : rd K s fpde ≠ 0)
    (h : copy_table K fpde tpde s = Result.done () s1) :
    ∃ r sg, get_page K s = Result.done r sg ∧
      copy_leaves K ENTRYS (rd K s fpde ||| K.DMW_MASK) r
        (wr K sg tpde (r &&& not64 K.DMW_MASK)) = Result.done () s1 := by
  rw [copy_table, if_neg h0] at h
  cases hg : get_page K s with
  | halted h1 => simp only [hg] at h; cases h
  | done r sg => simp only [hg] at h; exact ⟨r, sg, rfl, h⟩

theorem page_apart (a b : Nat) (ha : a % 4096 = 0) (hb : b % 4096 = 0)
    (h : a / 4096 ≠ b / 4096) : a + 4096 ≤ b ∨ b + 4096 ≤ a := by
  omega

theorem mem_page (x a : Nat) (ha : a % 4096 = 0) (h1 : a ≤ x) (h2 : x < a + 4096) :
    x / 4096 = a / 4096 := by
  omega

theorem copy_leaves_leaf (K : Xtos) (hD : K.DMW_MASK % 2 ^ 32 = 0)
    (hD64 : K.DMW_MASK < 2 ^ 64) (pf pt T T' : Nat) (hpf : points_to K pf T)
    (hpt : points_to K pt T') (hT : T + 4096 ≤ 2 ^ 32) (hT' : T' + 4096 ≤ 2 ^ 32)
    (hTT : T + 4096 ≤ T' ∨ T' + 4096 ≤ T) :
    ∀ n j0 s s', j0 + n = 512 →
      copy_leaves K n (add64 pf (8 * j0)) (add64 pt (8 * j0)) s = Result.done () s' →
      ∀ j, j0 ≤ j → j < 512 →
        load64 s'.mem (T + 8 * j) = load64 s.mem (T + 8 * j) ∨
        load64 s'.mem (T + 8 * j) = load64 s.mem (T + 8 * j) &&& not64 K.PTE_D := by
  intro n
  induction n with
  | zero => intro j0 s s' hn _ j h1 h2; omega
  | succ n ih =>
    intro j0 s s' hn h j hj1 hj2
    obtain ⟨s1, h1, h2⟩ := copy_leaves_step K n _ _ s s' h
    have h2f := h2
    rw [next_entry, next_entry] at h2
    have hj0 : j0 < 512 := by omega
    have hfp := points_to_add K hD hD64 pf T (8 * j0) hpf (by omega)
    have htp := points_to_add K hD hD64 pt T' (8 * j0) hpt (by omega)
    obtain ⟨a1, a2, a3, a4, a5, a6⟩ :=
      copy_leaf_spec K _ _ _ _ s s1 hfp htp (by omega) h1
    by_cases hc : j = j0
    · subst hc
      obtain ⟨_, _, b3, _⟩ := copy_leaves_frame K hD hD64 pf pt T T' hpf hpt hT hT' hTT
        n (j + 1) s1 s' (by omega) h2
      have hl : load64 s'.mem (T + 8 * j) = load64 s1.mem (T + 8 * j) :=
        load64_congr _ _ _ (fun x hx1 hx2 => b3 x (by omega) (by omega))
      rw [hl]
      by_cases hskip : load64 s.mem (T + 8 * j) = 0 ∨
          cow_skipped K s (load64 s.mem (T + 8 * j))
      · left; rw [a5 hskip]
      · right
        exact (a6 (fun c => hskip (Or.inl c)) (fun c => hskip (Or.inr c))).2.2.1
    · have e : load64 s1.mem (T + 8 * j) = load64 s.mem (T + 8 * j) :=
        load64_congr _ _ _ (fun x hx1 hx2 => a3 x (by omega) (by omega))
      have := ih (j0 + 1) s1 s' (by omega) h2 j (by omega) hj2
      rw [e] at this
      exact this

theorem copy_table_spec (K : Xtos) (hD : K.DMW_MASK % 2 ^ 32 = 0)
    (hD64 : K.DMW_MASK < 2 ^ 64) (pa pb A B : Nat) (hpa : points_to K pa A)
    (hpb : points_to K pb B) (s s1 : State) (F : List (Nat × Nat)) (X : List Nat)
    (hinv : FreeInv s F X) (htree : TreeOK s A X) (hdest : DestOK s A B X)
    (i0 : Nat) (hi0 : i0 < 512)
    (h : copy_table K (add64 pa (8 * i0)) (add64 pb (8 * i0)) s = Result.done () s1) :
    ∃ F1 X1, FreeInv s1 F1 X1 ∧ (∀ p ∈ X, p ∈ X1) ∧
      (∀ x, x / 4096 ∈ X →
        (dir_at s A i0 = 0 ∨ x < dir_at s A i0 ∨ dir_at s A i0 + 4096 ≤ x) →
        (x < B + 8 * i0 ∨ B + 8 * i0 + 8 ≤ x) → s1.mem x = s.mem x) ∧
      (∀ q, q ∈ X →
        (dir_at s A i0 ≠ 0 → ∀ j, j < 512 → leaf_at s A i0 j ≠ 0 →
          page_index K (leaf_at s A i0 j) ≠ q) → s1.mem_map q = s.mem_map q) ∧
      (dir_at s A i0 ≠ 0 → ∀ j, j < 512 →
        load64 s1.mem (dir_at s A i0 + 8 * j) = leaf_at s A i0 j ∨
        load64 s1.mem (dir_at s A i0 + 8 * j) = leaf_at s A i0 j &&& not64 K.PTE_D) ∧
      (dir_at s A i0 ≠ 0 →
        ∃ b, b % 4096 = 0 ∧ b + 4096 ≤ MEMORY_SIZE ∧ b / 4096 ∉ X ∧ b / 4096 ∈ X1 ∧
          load64 s1.mem (B + 8 * i0) = b ∧
          ∀ jt, jt < 512 → leaf_at s A i0 jt ≠ 0 → page_index K (leaf_at s A i0 jt) ∈ X →
            (∀ j, j < 512 → j ≠ jt → leaf_at s A i0 j ≠ 0 →
              page_index K (leaf_at s A i0 j) ≠ page_index K (leaf_at s A i0 jt)) →
            (cow_skipped K s (leaf_at s A i0 jt) →
              s1.mem_map (page_index K (leaf_at s A i0 jt)) =
                s.mem_map (page_index K (leaf_at s A i0 jt)) ∧
              load64 s1.mem (dir_at s A i0 + 8 * jt) = leaf_at s A i0 jt ∧
              load64 s1.mem (b + 8 * jt) = 0) ∧
            (¬ cow_skipped K s (leaf_at s A i0 jt) →
              s.mem_map (page_index K (leaf_at s A i0 jt)) ≠ 0 ∧
              s1.mem_map (page_index K (leaf_at s A i0 jt)) =
                (s.mem_map (page_index K (leaf_at s A i0 jt)) + 1) % 256 ∧
              load64 s1.mem (dir_at s A i0 + 8 * jt) =
                leaf_at s A i0 jt &&& not64 K.PTE_D ∧
              load64 s1.mem (b + 8 * jt) = leaf_at s A i0 jt &&& not64 K.PTE_D)) := by
  have hM : MEMORY_SIZE = 134217728 := rfl
  have h32 : (2 : Nat) ^ 32 = 4294967296 := by norm_num
  have h64 : (2 : Nat) ^ 64 = 18446744073709551616 := by norm_num
  have hE : ENTRYS = 512 := rfl
  obtain ⟨hA1, hA2, hA3, htab⟩ := htree
  obtain ⟨hB1, hB2, hB3, hBA, hBT⟩ := hdest
  have hfp := points_to_add K hD hD64 pa A (8 * i0) hpa (by omega)
  have htp := points_to_add K hD hD64 pb B (8 * i0) hpb (by omega)
  have hrd : rd K s (add64 pa (8 * i0)) = dir_at s A i0 := by
    show load64 s.mem (phys K _) = load64 s.mem _
    rw [hfp]
  by_cases h0 : dir_at s A i0 = 0
  · rw [copy_table_skip K _ _ s (by rw [hrd]; exact h0)] at h
    have hs : s = s1 := by injection h
    subst hs
    exact ⟨F, X, hinv, fun p hp => hp, fun _ _ _ _ => rfl, fun _ _ _ => rfl,
      fun c => absurd h0 c, fun c => absurd h0 c⟩
  · obtain ⟨hT1, hT2, hT3, hTA, _⟩ := htab i0 (by rw [hE]; exact hi0) h0
    have hTB : dir_at s A i0 ≠ B := hBT i0 (by rw [hE]; exact hi0)
    obtain ⟨r, sg, hg, h2⟩ := copy_table_run K _ _ s s1 (by rw [hrd]; exact h0) h
    obtain ⟨b, F', hr, hb1, hb2, hb3, hinv', _, hgm, hgz, hgmm⟩ :=
      get_page_inv K hD s F X hinv r sg hg
    rw [hrd, hE] at h2
    generalize hTdef : dir_at s A i0 = T at *
    have hTb : T / 4096 ≠ b / 4096 := fun c => hb3 (by rw [← c]; exact hT3)
    have hBb : B / 4096 ≠ b / 4096 := fun c => hb3 (by rw [← c]; exact hB3)
    have hTT := page_apart T b hT1 hb1 hTb
    have hBB := page_apart B b hB1 hb1 hBb
    have hTBa : T + 4096 ≤ B ∨ B + 4096 ≤ T := by omega
    -- the state in which the inner loop starts
    have hs2 : wr K sg (add64 pb (8 * i0)) (r &&& not64 K.DMW_MASK) =
        State.mk sg.free_list sg.bitmap sg.mem_map (store64 sg.mem (B + 8 * i0) b) := by
      have e : r &&& not64 K.DMW_MASK = b := by
        rw [hr]; exact phys_lor K hD b (by omega)
      rw [e]
      show State.mk _ _ _ (store64 sg.mem (phys K _) b) = _
      rw [htp]
    rw [hs2] at h2
    generalize hs2def : State.mk sg.free_list sg.bitmap sg.mem_map
      (store64 sg.mem (B + 8 * i0) b) = s2 at h2
    have hs2mem : ∀ x, (x < B + 8 * i0 ∨ B + 8 * i0 + 8 ≤ x) → s2.mem x = sg.mem x := by
      intro x hx
      rw [← hs2def]
      exact store64_out _ _ _ _ hx
    have hs2mm : s2.mem_map = sg.mem_map := by rw [← hs2def]
    have hs2fl : s2.free_list = sg.free_list := by rw [← hs2def]
    have hs2bm : s2.bitmap = sg.bitmap := by rw [← hs2def]
    have hpT : points_to K (T ||| K.DMW_MASK) T := Or.inr rfl
    have hpr : points_to K r b := Or.inr hr
    have e0 : add64 (T ||| K.DMW_MASK) (8 * 0) = T ||| K.DMW_MASK :=
      add64_zero _ (points_to_lt K hD hD64 _ T hpT (by omega))
    have e0' : add64 r (8 * 0) = r := add64_zero _ (points_to_lt K hD hD64 _ b hpr (by omega))
    have h2' : copy_leaves K 512 (add64 (T ||| K.DMW_MASK) (8 * 0)) (add64 r (8 * 0)) s2 =
        Result.done () s1 := by rw [e0, e0']; exact h2
    obtain ⟨f1, f2, f3, f4⟩ := copy_leaves_frame K hD hD64 _ _ T b hpT hpr (by omega)
      (by omega) hTT 512 0 s2 s1 (by omega) h2'
    -- leaves of the source table when the inner loop starts
    have hleaf2 : ∀ j, j < 512 → load64 s2.mem (T + 8 * j) = load64 s.mem (T + 8 * j) := by
      intro j hj
      apply load64_congr
      intro x hx1 hx2
      rw [hs2mem x (by omega), hgm x (by rw [mem_page x T hT1 (by omega) (by omega)]; exact hT3)]
    have hzero2 : ∀ j, j < 512 → load64 s2.mem (b + 8 * j) = 0 := by
      intro j hj
      apply load64_zero
      intro x hx1 hx2
      rw [hs2mem x (by omega), hgz x (by omega) (by omega)]
    have hmm2 : ∀ q, q ∈ X → s2.mem_map q = s.mem_map q := by
      intro q hq
      rw [hs2mm, hgmm, if_neg (fun c => hb3 (by rw [← c]; exact hq))]
    refine ⟨F', (b / 4096) :: X, ?_, fun p hp => List.mem_cons_of_mem _ hp, ?_, ?_, ?_, ?_⟩
    · apply FreeInv_frame sg s1 F' _ hinv' (by rw [f1, hs2fl]) (by rw [f2, hs2bm])
      intro x hx
      have hxb : x / 4096 ≠ b / 4096 := fun c => hx (by rw [c]; exact List.mem_cons_self _ _)
      have hxT : x / 4096 ≠ T / 4096 :=
        fun c => hx (by rw [c]; exact List.mem_cons_of_mem _ hT3)
      have hxB : x / 4096 ≠ B / 4096 :=
        fun c => hx (by rw [c]; exact List.mem_cons_of_mem _ hB3)
      rw [f3 x (by omega) (by omega), hs2mem x (by omega)]
    · intro x hx hxT hxB
      have hxb : x / 4096 ≠ b / 4096 := fun c => hb3 (by rw [← c]; exact hx)
      rw [f3 x (by omega) (by omega), hs2mem x hxB, hgm x hx]
    · intro q hq hj
      rw [f4 q ?_, hmm2 q hq]
      intro j _ hj2
      rw [hleaf2 j hj2]
      have hjj := hj h0 j hj2
      have hlj : leaf_at s A i0 j = load64 s.mem (T + 8 * j) := by
        show load64 s.mem (dir_at s A i0 + 8 * j) = _
        rw [hTdef]
      rw [hlj] at hjj
      exact hjj
    · intro _ j hj
      have hlj : leaf_at s A i0 j = load64 s.mem (T + 8 * j) := by
        show load64 s.mem (dir_at s A i0 + 8 * j) = _
        rw [hTdef]
      have := copy_leaves_leaf K hD hD64 _ _ T b hpT hpr (by omega) (by omega) hTT
        512 0 s2 s1 (by omega) h2' j (by omega) hj
      rw [hleaf2 j hj, ← hlj] at this
      exact this
    · intro _
      refine ⟨b, hb1, hb2, hb3, List.mem_cons_self _ _, ?_, ?_⟩
      · rw [load64_congr s2.mem s1.mem (B + 8 * i0)
          (fun x hx1 hx2 => f3 x (by omega) (by omega)), ← hs2def]
        show load64 (store64 sg.mem (B + 8 * i0) b) (B + 8 * i0) = b
        rw [load64_store64_same, Nat.mod_eq_of_lt (by omega)]
      · intro jt hjt he hq huniq
        have he' : leaf_at s A i0 jt = load64 s.mem (T + 8 * jt) := by
          show load64 s.mem (dir_at s A i0 + 8 * jt) = _
          rw [hTdef]
        have hl : ∀ j, leaf_at s A i0 j = load64 s.mem (T + 8 * j) := by
          intro j
          show load64 s.mem (dir_at s A i0 + 8 * j) = _
          rw [hTdef]
        rw [hl jt] at he hq ⊢
        have hsk := cow_skipped_congr K s s2 (load64 s.mem (T + 8 * jt)) (hmm2 _ hq)
        have heff := copy_leaves_effect K hD hD64 _ _ T b hpT hpr (by omega) (by omega) hTT
          jt hjt 512 0 s2 s1 (by omega) (by omega) h2' (by rw [hleaf2 jt hjt]; exact he)
          (by
            intro j _ hj2 hj3
            rw [hleaf2 j hj2, hleaf2 jt hjt, ← hl j, ← hl jt]
            intro hne
            exact huniq j hj2 hj3 hne)
        rw [hleaf2 jt hjt, hzero2 jt hjt, hmm2 _ hq] at heff
        exact ⟨fun c => heff.1 (hsk.2 c), fun c => heff.2 (fun c' => c (hsk.1 c'))⟩

/-! ## The outer loop of `copy_page_table` -/

theorem copy_tables_step (K : Xtos) (n fp tp : Nat) (s s' : State)
    (h : copy_tables K (n + 1) fp tp s = Result.done () s') :
    ∃ s1, copy_table K fp tp s = Result.done () s1 ∧
      copy_tables K n (add64 fp ENTRY_SIZE) (add64 tp ENTRY_SIZE) s1 = Result.done () s' := by
  rw [copy_tables] at h
  cases hc : copy_table K fp tp s with
  | halted h1 => rw [hc] at h; cases h
  | done v s1 => rw [hc] at h; exact ⟨s1, rfl, h⟩

theorem step_keep (s s1 : State) (A B : Nat) (X X1 : List Nat) (i0 : Nat)
    (htree : TreeOK s A X) (hdest : DestOK s A B X) (hi0 : i0 < 512)
    (hsub : ∀ p ∈ X, p ∈ X1)
    (hframe : ∀ x, x / 4096 ∈ X →
      (dir_at s A i0 = 0 ∨ x < dir_at s A i0 ∨ dir_at s A i0 + 4096 ≤ x) →
      (x < B + 8 * i0 ∨ B + 8 * i0 + 8 ≤ x) → s1.mem x = s.mem x) :
    (∀ i, i < 512 → dir_at s1 A i = dir_at s A i) ∧ TreeOK s1 A X1 ∧ DestOK s1 A B X1 ∧
    (∀ i j, i < 512 → j < 512 → i ≠ i0 → dir_at s A i ≠ 0 →
      leaf_at s1 A i j = leaf_at s A i j) := by
  have hE : ENTRYS = 512 := rfl
  obtain ⟨hA1, hA2, hA3, htab⟩ := htree
  obtain ⟨hB1, hB2, hB3, hBA, hBT⟩ := hdest
  have hT0 : dir_at s A i0 ≠ 0 → dir_at s A i0 % 4096 = 0 ∧ dir_at s A i0 ≠ A :=
    fun c => ⟨(htab i0 (by rw [hE]; exact hi0) c).1, (htab i0 (by rw [hE]; exact hi0) c).2.2.2.1⟩
  have hdir : ∀ i, i < 512 → dir_at s1 A i = dir_at s A i := by
    intro i hi
    apply load64_congr
    intro x hx1 hx2
    apply hframe x (by rw [mem_page x A hA1 (by omega) (by omega)]; exact hA3)
    · by_cases c : dir_at s A i0 = 0
      · exact Or.inl c
      · right
        have := hT0 c
        omega
    · omega
  have hleaf : ∀ i j, i < 512 → j < 512 → i ≠ i0 → dir_at s A i ≠ 0 →
      leaf_at s1 A i j = leaf_at s A i j := by
    intro i j hi hj hne hd
    show load64 s1.mem (dir_at s1 A i + 8 * j) = load64 s.mem (dir_at s A i + 8 * j)
    rw [hdir i hi]
    obtain ⟨t1, t2, t3, t4, t5⟩ := htab i (by rw [hE]; exact hi) hd
    have tB := hBT i (by rw [hE]; exact hi)
    apply load64_congr
    intro x hx1 hx2
    apply hframe x (by rw [mem_page x _ t1 (by omega) (by omega)]; exact t3)
    · by_cases c : dir_at s A i0 = 0
      · exact Or.inl c
      · right
        have := hT0 c
        have := t5 i0 (by rw [hE]; exact hi0) (fun c' => hne c'.symm)
        omega
    · omega
  refine ⟨hdir, ⟨hA1, hA2, hsub _ hA3, ?_⟩, ⟨hB1, hB2, hsub _ hB3, hBA, ?_⟩, hleaf⟩
  · intro i hi hd
    rw [hE] at hi
    rw [hdir i hi] at hd ⊢
    obtain ⟨t1, t2, t3, t4, t5⟩ := htab i (by rw [hE]; exact hi) hd
    refine ⟨t1, t2, hsub _ t3, t4, ?_⟩
    intro i' hi' hne
    rw [hE] at hi'
    rw [hdir i' hi']
    exact t5 i' (by rw [hE]; exact hi') hne
  · intro i hi
    rw [hE] at hi
    rw [hdir i hi]
    exact hBT i (by rw [hE]; exact hi)

theorem and_not64_idem (e d : Nat) : (e &&& not64 d) &&& not64 d = e &&& not64 d := by
  rw [Nat.land_assoc, Nat.and_self]

theorem copy_tables_frame (K : Xtos) (hD : K.DMW_MASK % 2 ^ 32 = 0)
    (hD64 : K.DMW_MASK < 2 ^ 64) (pa pb A B : Nat) (hpa : points_to K pa A)
    (hpb : points_to K pb B) :
    ∀ n i0 s s' F X, i0 + n = 512 → FreeInv s F X → TreeOK s A X → DestOK s A B X →
      copy_tables K n (add64 pa (8 * i0)) (add64 pb (8 * i0)) s = Result.done () s' →
      ∃ F' X', FreeInv s' F' X' ∧ (∀ p ∈ X, p ∈ X') ∧ TreeOK s' A X' ∧ DestOK s' A B X' ∧
        (∀ i, i < 512 → dir_at s' A i = dir_at s A i) ∧
        (∀ x, x / 4096 ∈ X →
          (∀ i, i0 ≤ i → i < 512 → dir_at s A i ≠ 0 →
            x < dir_at s A i ∨ dir_at s A i + 4096 ≤ x) →
          (x < B + 8 * i0 ∨ B + 4096 ≤ x) → s'.mem x = s.mem x) ∧
        (∀ q, q ∈ X →
          (∀ i j, i0 ≤ i → i < 512 → j < 512 → dir_at s A i ≠ 0 → leaf_at s A i j ≠ 0 →
            page_index K (leaf_at s A i j) ≠ q) → s'.mem_map q = s.mem_map q) ∧
        (∀ i j, i < 512 → j < 512 → dir_at s A i ≠ 0 →
          leaf_at s' A i j = leaf_at s A i j ∨
          leaf_at s' A i j = leaf_at s A i j &&& not64 K.PTE_D) := by
  intro n
  induction n with
  | zero =>
    intro i0 s s' F X _ hinv htree hdest h
    rw [copy_tables] at h
    have hs : s = s' := by injection h
    subst hs
    exact ⟨F, X, hinv, fun p hp => hp, htree, hdest, fun _ _ => rfl, fun _ _ _ _ => rfl,
      fun _ _ _ => rfl, fun _ _ _ _ _ => Or.inl rfl⟩
  | succ n ih =>
    intro i0 s s' F X hn hinv htree hdest h
    obtain ⟨s1, h1, h2⟩ := copy_tables_step K n _ _ s s' h
    rw [next_entry, next_entry] at h2
    have hi0 : i0 < 512 := by omega
    obtain ⟨F1, X1, g1, g2, g3, g4, g5, _⟩ :=
      copy_table_spec K hD hD64 pa pb A B hpa hpb s s1 F X hinv htree hdest i0 hi0 h1
    obtain ⟨k1, k2, k3, k4⟩ := step_keep s s1 A B X X1 i0 htree hdest hi0 g2 g3
    obtain ⟨F', X', r1, r2, r3, r4, r5, r6, r7, r8⟩ :=
      ih (i0 + 1) s1 s' F1 X1 (by omega) g1 k2 k3 h2
    refine ⟨F', X', r1, fun p hp => r2 p (g2 p hp), r3, r4, ?_, ?_, ?_, ?_⟩
    · intro i hi
      rw [r5 i hi, k1 i hi]
    · intro x hx hxT hxB
      rw [r6 x (g2 _ hx) ?_ (by omega), g3 x hx ?_ (by omega)]
      · by_cases c : dir_at s A i0 = 0
        · exact Or.inl c
        · exact Or.inr (hxT i0 (le_refl _) hi0 c)
      · intro i hi1 hi2 hd
        rw [k1 i hi2] at hd ⊢
        exact hxT i (by omega) hi2 hd
    · intro q hq huniq
      rw [r7 q (g2 _ hq) ?_, g4 q hq (fun c j hj => huniq i0 j (le_refl _) hi0 hj c)]
      intro i j hi1 hi2 hj hd
      rw [k1 i hi2] at hd
      rw [k4 i j hi2 hj (by omega) hd]
      exact huniq i j (by omega) hi2 hj hd
    · intro i j hi hj hd
      have hd1 : dir_at s1 A i ≠ 0 := by rw [k1 i hi]; exact hd
      have hr := r8 i j hi hj hd1
      by_cases c : i = i0
      · subst c
        have hl1 : leaf_at s1 A i j = load64 s1.mem (dir_at s A i + 8 * j) := by
          show load64 s1.mem (dir_at s1 A i + 8 * j) = _
          rw [k1 i hi]
        rcases g5 hd j hj with e | e
        · rw [hl1, e] at hr
          exact hr
        · rw [hl1, e, and_not64_idem] at hr
          right
          rcases hr with c | c <;> exact c
      · rw [k4 i j hi hj c hd] at hr
        exact hr

theorem copy_tables_effect (K : Xtos) (hD : K.DMW_MASK % 2 ^ 32 = 0)
    (hD64 : K.DMW_MASK < 2 ^ 64) (pa pb A B : Nat) (hpa : points_to K pa A)
    (hpb : points_to K pb B) (it jt : Nat) (hit : it < 512) (hjt : jt < 512) :
    ∀ n i0 s s' F X, i0 + n = 512 → i0 ≤ it → FreeInv s F X → TreeOK s A X →
      DestOK s A B X →
      copy_tables K n (add64 pa (8 * i0)) (add64 pb (8 * i0)) s = Result.done () s' →
      dir_at s A it ≠ 0 → leaf_at s A it jt ≠ 0 → page_index K (leaf_at s A it jt) ∈ X →
      (∀ i j, i0 ≤ i → i < 512 → j < 512 → (i ≠ it ∨ j ≠ jt) → dir_at s A i ≠ 0 →
        leaf_at s A i j ≠ 0 →
        page_index K (leaf_at s A i j) ≠ page_index K (leaf_at s A it jt)) →
      (cow_skipped K s (leaf_at s A it jt) →
        s'.mem_map (page_index K (leaf_at s A it jt)) =
          s.mem_map (page_index K (leaf_at s A it jt)) ∧
        leaf_at s' A it jt = leaf_at s A it jt ∧ leaf_at s' B it jt = 0) ∧
      (¬ cow_skipped K s (leaf_at s A it jt) →
        s.mem_map (page_index K (leaf_at s A it jt)) ≠ 0 ∧
        s'.mem_map (page_index K (leaf_at s A it jt)) =
          (s.mem_map (page_index K (leaf_at s A it jt)) + 1) % 256 ∧
        leaf_at s' A it jt = leaf_at s A it jt &&& not64 K.PTE_D ∧
        leaf_at s' B it jt = leaf_at s A it jt &&& not64 K.PTE_D) := by
  have hE : ENTRYS = 512 := rfl
  have hM : MEMORY_SIZE = 134217728 := rfl
  intro n
  induction n with
  | zero => intro i0 s s' F X hn hi; omega
  | succ n ih =>
    intro i0 s s' F X hn hi hinv htree hdest h hd he hq huniq
    obtain ⟨s1, h1, h2⟩ := copy_tables_step K n _ _ s s' h
    rw [next_entry, next_entry] at h2
    have hi0 : i0 < 512 := by omega
    obtain ⟨F1, X1, g1, g2, g3, g4, g5, g6⟩ :=
      copy_table_spec K hD hD64 pa pb A B hpa hpb s s1 F X hinv htree hdest i0 hi0 h1
    obtain ⟨k1, k2, k3, k4⟩ := step_keep s s1 A B X X1 i0 htree hdest hi0 g2 g3
    by_cases hc : i0 = it
    · subst hc
      obtain ⟨b, b1, b2, b3, b4, b5, b6⟩ := g6 hd
      have heff := b6 jt hjt he hq
        (fun j hj hne => huniq i0 j (le_refl _) hi0 hj (Or.inr hne) hd)
      obtain ⟨F', X', _, _, _, _, r5, r6, r7, _⟩ :=
        copy_tables_frame K hD hD64 pa pb A B hpa hpb n (i0 + 1) s1 s' F1 X1 (by omega)
          g1 k2 k3 h2
      obtain ⟨hA1, hA2, hA3, htab⟩ := htree
      obtain ⟨hB1, hB2, hB3, hBA, hBT⟩ := hdest
      obtain ⟨t1, t2, t3, t4, t5⟩ := htab i0 (by rw [hE]; exact hi0) hd
      have tB := hBT i0 (by rw [hE]; exact hi0)
      -- the rest of the walk leaves the three entries alone
      have hother : ∀ i, i0 + 1 ≤ i → i < 512 → dir_at s1 A i ≠ 0 →
          dir_at s1 A i % 4096 = 0 ∧ dir_at s1 A i / 4096 ∈ X ∧
          dir_at s1 A i ≠ dir_at s A i0 ∧ dir_at s1 A i ≠ B := by
        intro i hi1 hi2 hdi
        rw [k1 i hi2] at hdi ⊢
        obtain ⟨u1, u2, u3, u4, u5⟩ := htab i (by rw [hE]; exact hi2) hdi
        exact ⟨u1, u3, (u5 i0 (by rw [hE]; exact hi0) (by omega)).symm,
          hBT i (by rw [hE]; exact hi2)⟩
      have hmT : ∀ x, dir_at s A i0 ≤ x → x < dir_at s A i0 + 4096 → s'.mem x = s1.mem x := by
        intro x hx1 hx2
        apply r6 x (g2 _ (by rw [mem_page x _ t1 hx1 hx2]; exact t3))
        · intro i hi1 hi2 hdi
          obtain ⟨v1, v2, v3, v4⟩ := hother i hi1 hi2 hdi
          omega
        · omega
      have hmb : ∀ x, b ≤ x → x < b + 4096 → s'.mem x = s1.mem x := by
        intro x hx1 hx2
        have hxb : x / 4096 = b / 4096 := mem_page x b b1 hx1 hx2
        apply r6 x (by rw [hxb]; exact b4)
        · intro i hi1 hi2 hdi
          obtain ⟨v1, v2, v3, v4⟩ := hother i hi1 hi2 hdi
          have hne : dir_at s1 A i / 4096 ≠ b / 4096 := fun c => b3 (by rw [← c]; exact v2)
          omega
        · have hne : B / 4096 ≠ b / 4096 := fun c => b3 (by rw [← c]; exact hB3)
          omega
      have hmB : ∀ x, B + 8 * i0 ≤ x → x < B + 8 * i0 + 8 → s'.mem x = s1.mem x := by
        intro x hx1 hx2
        apply r6 x (g2 _ (by rw [mem_page x B hB1 (by omega) (by omega)]; exact hB3))
        · intro i hi1 hi2 hdi
          obtain ⟨v1, v2, v3, v4⟩ := hother i hi1 hi2 hdi
          omega
        · omega
      have hmq : s'.mem_map (page_index K (leaf_at s A i0 jt)) =
          s1.mem_map (page_index K (leaf_at s A i0 jt)) := by
        apply r7 _ (g2 _ hq)
        intro i j hi1 hi2 hj hdi hlf
        rw [k1 i hi2] at hdi
        rw [k4 i j hi2 hj (by omega) hdi] at hlf ⊢
        exact huniq i j (by omega) hi2 hj (Or.inl (by omega)) hdi hlf
      have hlA : leaf_at s' A i0 jt = load64 s1.mem (dir_at s A i0 + 8 * jt) := by
        show load64 s'.mem (dir_at s' A i0 + 8 * jt) = _
        rw [r5 i0 hi0, k1 i0 hi0]
        exact load64_congr _ _ _ (fun x hx1 hx2 => hmT x (by omega) (by omega))
      have hlB : leaf_at s' B i0 jt = load64 s1.mem (b + 8 * jt) := by
        have hdB : dir_at s' B i0 = b := by
          show load64 s'.mem (B + 8 * i0) = b
          rw [load64_congr s1.mem s'.mem _ (fun x hx1 hx2 => hmB x hx1 hx2), b5]
        show load64 s'.mem (dir_at s' B i0 + 8 * jt) = _
        rw [hdB]
        exact load64_congr _ _ _ (fun x hx1 hx2 => hmb x (by omega) (by omega))
      rw [hmq, hlA, hlB]
      exact heff
    · have hlt : i0 < it := by omega
      have e1 : leaf_at s1 A it jt = leaf_at s A it jt := k4 it jt hit hjt (by omega) hd
      have hmq : s1.mem_map (page_index K (leaf_at s A it jt)) =
          s.mem_map (page_index K (leaf_at s A it jt)) :=
        g4 _ hq (fun c j hj hlf => huniq i0 j (le_refl _) hi0 hj (Or.inl hc) c hlf)
      have hsk := cow_skipped_congr K s s1 (leaf_at s A it jt) hmq
      have hih := ih (i0 + 1) s1 s' F1 X1 (by omega) (by omega) g1 k2 k3 h2
        (by rw [k1 it hit]; exact hd) (by rw [e1]; exact he) (by rw [e1]; exact g2 _ hq)
        (by
          intro i j hi1 hi2 hj hne hdi hlf
          rw [k1 i hi2] at hdi
          rw [e1]
          by_cases ci : i = i0
          · omega
          · rw [k4 i j hi2 hj ci hdi] at hlf ⊢
            exact huniq i j (by omega) hi2 hj hne hdi hlf)
      rw [e1, hmq] at hih
      exact ⟨fun c => hih.1 (hsk.2 c), fun c => hih.2 (fun c' => c (hsk.1 c'))⟩

/-! ## `copy_page_table` -/

theorem and_not64_and (e d : Nat) : (e &&& not64 d) &&& d = 0 := by
  apply Nat.eq_of_testBit_eq
  intro i
  simp only [Nat.testBit_and, testBit_not64, Nat.zero_testBit]
  cases e.testBit i <;> cases d.testBit i <;> simp

theorem entry_page_clear (K : Xtos) (hPD : K.PTE_D < 2 ^ 12) (e : Nat) :
    entry_page K (e &&& not64 K.PTE_D) = entry_page K e := by
  have h : not64 0xfff &&& (e &&& not64 K.PTE_D) = not64 0xfff &&& e := by
    apply Nat.eq_of_testBit_eq
    intro i
    simp only [Nat.testBit_and, testBit_not64]
    by_cases hi : i < 12
    · have e1 : (0xfff : Nat) = 2 ^ 12 - 1 := by norm_num
      rw [e1, Nat.testBit_two_pow_sub_one]
      simp [hi]
    · have hd : K.PTE_D.testBit i = false :=
        Nat.testBit_lt_two_pow
          (lt_of_lt_of_le hPD (Nat.pow_le_pow_right (by norm_num) (by omega)))
      rw [hd]
      cases e.testBit i <;> simp
      intro h _; exact h
  unfold entry_page
  rw [h]

theorem page_index_clear (K : Xtos) (hPD : K.PTE_D < 2 ^ 12) (e : Nat) :
    page_index K (e &&& not64 K.PTE_D) = page_index K e := by
  unfold page_index
  rw [entry_page_clear K hPD e]

theorem not_skipped_clear (K : Xtos) (s : State) (e : Nat) :
    ¬ cow_skipped K s (e &&& not64 K.PTE_D) := by
  intro h
  exact h.2 (and_not64_and e K.PTE_D)

theorem DestOK_keep (s s1 : State) (A B : Nat) (X X1 : List Nat)
    (hdir : ∀ i, i < 512 → dir_at s1 A i = dir_at s A i) (hsub : ∀ p ∈ X, p ∈ X1)
    (h : DestOK s A B X) : DestOK s1 A B X1 := by
  obtain ⟨hB1, hB2, hB3, hBA, hBT⟩ := h
  refine ⟨hB1, hB2, hsub _ hB3, hBA, ?_⟩
  intro i hi
  have hi' : i < 512 := hi
  rw [hdir i hi']
  exact hBT i hi

theorem copy_page_table_run (K : Xtos) (hD : K.DMW_MASK % 2 ^ 32 = 0)
    (hD64 : K.DMW_MASK < 2 ^ 64) (from_p to_p : process) (A B : Nat) (s s' : State)
    (hpa : points_to K from_p.page_directory A) (hpb : points_to K to_p.page_directory B)
    (hA : A < 2 ^ 32) (hB : B < 2 ^ 32)
    (h : copy_page_table K from_p to_p s = Result.done () s') :
    copy_tables K 512 (add64 from_p.page_directory (8 * 0))
      (add64 to_p.page_directory (8 * 0)) s = Result.done () s' := by
  rw [add64_zero _ (points_to_lt K hD hD64 _ A hpa hA),
    add64_zero _ (points_to_lt K hD hD64 _ B hpb hB)]
  exact h

theorem clone_once (K : Xtos) (hK : K.sane) (from_p to_p : process) (A B : Nat)
    (s s' : State) (F : List (Nat × Nat)) (X : List Nat)
    (hpa : points_to K from_p.page_directory A) (hpb : points_to K to_p.page_directory B)
    (hinv : FreeInv s F X) (htree : TreeOK s A X) (hdest : DestOK s A B X)
    (hrun : copy_page_table K from_p to_p s = Result.done () s')
    (i j : Nat) (hi : i < 512) (hj : j < 512) (hd : dir_at s A i ≠ 0)
    (he : leaf_at s A i j ≠ 0) (hq : page_index K (leaf_at s A i j) ∈ X)
    (huniq : ∀ i' j', i' < 512 → j' < 512 → (i' ≠ i ∨ j' ≠ j) → dir_at s A i' ≠ 0 →
      leaf_at s A i' j' ≠ 0 →
      page_index K (leaf_at s A i' j') ≠ page_index K (leaf_at s A i j)) :
    (∃ F' X', FreeInv s' F' X' ∧ (∀ p ∈ X, p ∈ X') ∧ TreeOK s' A X' ∧
      (∀ i, i < 512 → dir_at s' A i = dir_at s A i) ∧
      (∀ i j, i < 512 → j < 512 → dir_at s A i ≠ 0 →
        leaf_at s' A i j = leaf_at s A i j ∨
        leaf_at s' A i j = leaf_at s A i j &&& not64 K.PTE_D)) ∧
    (cow_skipped K s (leaf_at s A i j) →
      s'.mem_map (page_index K (leaf_at s A i j)) =
        s.mem_map (page_index K (leaf_at s A i j)) ∧
      leaf_at s' A i j = leaf_at s A i j ∧ leaf_at s' B i j = 0) ∧
    (¬ cow_skipped K s (leaf_at s A i j) →
      s.mem_map (page_index K (leaf_at s A i j)) ≠ 0 ∧
      s'.mem_map (page_index K (leaf_at s A i j)) =
        (s.mem_map (page_index K (leaf_at s A i j)) + 1) % 256 ∧
      leaf_at s' A i j = leaf_at s A i j &&& not64 K.PTE_D ∧
      leaf_at s' B i j = leaf_at s A i j &&& not64 K.PTE_D) := by
  obtain ⟨_, hD64, hD, _, _, _⟩ := hK
  have hM : MEMORY_SIZE = 134217728 := rfl
  have h32 : (2 : Nat) ^ 32 = 4294967296 := by norm_num
  have hA : A < 2 ^ 32 := by have := htree.2.1; omega
  have hB : B < 2 ^ 32 := by have := hdest.2.1; omega
  have hrun' := copy_page_table_run K hD hD64 from_p to_p A B s s' hpa hpb hA hB hrun
  obtain ⟨F', X', r1, r2, r3, _, r5, _, _, r8⟩ :=
    copy_tables_frame K hD hD64 _ _ A B hpa hpb 512 0 s s' F X (by omega) hinv htree hdest
      hrun'
  have heff := copy_tables_effect K hD hD64 _ _ A B hpa hpb i j hi hj 512 0 s s' F X
    (by omega) (by omega) hinv htree hdest hrun' hd he hq
    (fun i' j' _ h1 h2 h3 h4 h5 => huniq i' j' h1 h2 h3 h4 h5)
  exact ⟨⟨F', X', r1, r2, r3, r5, r8⟩, heff.1, heff.2⟩

theorem clones_step (K : Xtos) (from_p to_p : process) (rest : List process) (s s' : State)
    (h : clones K from_p (to_p :: rest) s = Result.done () s') :
    ∃ s1, copy_page_table K from_p to_p s = Result.done () s1 ∧
      clones K from_p rest s1 = Result.done () s' := by
  rw [clones] at h
  cases hc : copy_page_table K from_p to_p s with
  | halted h1 => rw [hc] at h; cases h
  | done v s1 => rw [hc] at h; exact ⟨s1, rfl, h⟩

theorem clones_count (K : Xtos) (hK : K.sane) (from_p : process) (A : Nat)
    (hpa : points_to K from_p.page_directory A) (i j : Nat) (hi : i < 512) (hj : j < 512) :
    ∀ tos s s' F X, FreeInv s F X → TreeOK s A X →
      (∀ t ∈ tos, ∃ B, points_to K t.page_directory B ∧ DestOK s A B X) →
      dir_at s A i ≠ 0 → leaf_at s A i j ≠ 0 → leaf_at s A i j &&& not64 K.PTE_D ≠ 0 →
      ¬ cow_skipped K s (leaf_at s A i j) → page_index K (leaf_at s A i j) ∈ X →
      (∀ i' j', i' < 512 → j' < 512 → (i' ≠ i ∨ j' ≠ j) → dir_at s A i' ≠ 0 →
        leaf_at s A i' j' ≠ 0 →
        page_index K (leaf_at s A i' j') ≠ page_index K (leaf_at s A i j)) →
      s.mem_map (page_index K (leaf_at s A i j)) + tos.length ≤ 255 →
      clones K from_p tos s = Result.done () s' →
      s'.mem_map (page_index K (leaf_at s A i j)) =
        s.mem_map (page_index K (leaf_at s A i j)) + tos.length := by
  have hPD : K.PTE_D < 2 ^ 12 := hK.2.2.2.2.1
  intro tos
  induction tos with
  | nil =>
    intro s s' F X _ _ _ _ _ _ _ _ _ _ h
    rw [clones] at h
    have hs : s = s' := by injection h
    subst hs
    rfl
  | cons t rest ih =>
    intro s s' F X hinv htree hdests hd he he' hns hq huniq hcnt h
    obtain ⟨s1, h1, h2⟩ := clones_step K from_p t rest s s' h
    obtain ⟨B, hpb, hdest⟩ := hdests t (List.mem_cons_self _ _)
    obtain ⟨⟨F1, X1, g1, g2, g3, g4, g5⟩, _, geff⟩ :=
      clone_once K hK from_p t A B s s1 F X hpa hpb hinv htree hdest h1 i j hi hj hd he hq
        huniq
    obtain ⟨c1, c2, c3, _⟩ := geff hns
    have hlen : (t :: rest).length = rest.length + 1 := rfl
    rw [hlen] at hcnt ⊢
    have hidx := page_index_clear K hPD (leaf_at s A i j)
    have hih := ih s1 s' F1 X1 g1 g3
      (fun t' ht' => by
        obtain ⟨B', hp', hd'⟩ := hdests t' (List.mem_cons_of_mem _ ht')
        exact ⟨B', hp', DestOK_keep s s1 A B' X X1 g4 g2 hd'⟩)
      (by rw [g4 i hi]; exact hd) (by rw [c3]; exact he')
      (by rw [c3, and_not64_idem]; exact he')
      (by rw [c3]; exact not_skipped_clear K s1 _)
      (by rw [c3, hidx]; exact g2 _ hq)
      (by
        intro i' j' hi' hj' hne hd' hl'
        rw [g4 i' hi'] at hd'
        rw [c3, hidx]
        rcases g5 i' j' hi' hj' hd' with e | e
        · rw [e] at hl' ⊢
          exact huniq i' j' hi' hj' hne hd' hl'
        · rw [e] at hl' ⊢
          rw [page_index_clear K hPD]
          refine huniq i' j' hi' hj' hne hd' ?_
          intro z
          rw [z] at hl'
          exact hl' (Nat.zero_and _))
      (by rw [c3, hidx, c2]; omega) h2
    rw [c3, hidx, c2] at hih
    rw [hih]
    omega

theorem Result.done_of_is_done (r : Result Unit) (h : r.is_done = true) :
    r = Result.done () r.state := by
  cases r with
  | done v s => rfl
  | halted s => cases h

/-- The clone `copy_page_table(from, to)` in a state in which the free lists
keep clear of the pages in use: a well-formed source tree (free lists well
formed, directory and tables protected pages) and a clone that runs to
completion.
For a present leaf `(i, j)` whose page is mapped by no other present leaf: if
the page is not both shared and dirty, its count goes up by exactly one,
`PTE_D` is cleared in the source entry and the same value is stored in slot
`(i, j)` of the destination; if it is shared and dirty, the destination slot
is empty and count and source entry are unchanged.  Successive clones into a
list of processes raise the count by the length of the list. -/
theorem copy_page_table_cow (K : Xtos) (hK : K.sane) (from_p : process) (A : Nat)
    (s : State) (F : List (Nat × Nat)) (X : List Nat)
    (hpa : points_to K from_p.page_directory A) (hinv : FreeInv s F X)
    (htree : TreeOK s A X) (i j : Nat) (hi : i < 512) (hj : j < 512)
    (hd : dir_at s A i ≠ 0) (he : leaf_at s A i j ≠ 0)
    (hq : page_index K (leaf_at s A i j) ∈ X)
    (huniq : only_leaf K s A i j) :
    (∀ to_p B s', points_to K to_p.page_directory B → DestOK s A B X →
      copy_page_table K from_p to_p s = Result.done () s' →
      (¬ cow_skipped K s (leaf_at s A i j) →
        s.mem_map (page_index K (leaf_at s A i j)) < 255 →
        s'.mem_map (page_index K (leaf_at s A i j)) =
          s.mem_map (page_index K (leaf_at s A i j)) + 1 ∧
        leaf_at s' A i j = leaf_at s A i j &&& not64 K.PTE_D ∧
        leaf_at s' B i j = leaf_at s A i j &&& not64 K.PTE_D) ∧
      (cow_skipped K s (leaf_at s A i j) →
        s'.mem_map (page_index K (leaf_at s A i j)) =
          s.mem_map (page_index K (leaf_at s A i j)) ∧
        leaf_at s' A i j = leaf_at s A i j ∧ leaf_at s' B i j = 0)) ∧
    (∀ tos s', (∀ t ∈ tos, ∃ B, points_to K t.page_directory B ∧ DestOK s A B X) →
      ¬ cow_skipped K s (leaf_at s A i j) → leaf_at s A i j &&& not64 K.PTE_D ≠ 0 →
      s.mem_map (page_index K (leaf_at s A i j)) + tos.length ≤ 255 →
      clones K from_p tos s = Result.done () s' →
      s'.mem_map (page_index K (leaf_at s A i j)) =
        s.mem_map (page_index K (leaf_at s A i j)) + tos.length) := by
  have huniq' : ∀ i' j', i' < 512 → j' < 512 → (i' ≠ i ∨ j' ≠ j) → dir_at s A i' ≠ 0 →
      leaf_at s A i' j' ≠ 0 →
      page_index K (leaf_at s A i' j') ≠ page_index K (leaf_at s A i j) :=
    fun i' j' h1 h2 h3 h4 h5 => huniq i' h1 h4 j' h2 (fun c => by omega) h5
  constructor
  · intro to_p B s' hpb hdest hrun
    obtain ⟨_, hskip, hshare⟩ := clone_once K hK from_p to_p A B s s' F X hpa hpb hinv htree
      hdest hrun i j hi hj hd he hq huniq'
    refine ⟨fun hns hcnt => ?_, hskip⟩
    obtain ⟨c1, c2, c3, c4⟩ := hshare hns
    refine ⟨?_, c3, c4⟩
    rw [c2]
    omega
  · intro tos s' hdests hns he' hcnt hrun
    exact clones_count K hK from_p A hpa i j hi hj tos s s' F X hinv htree hdests hd he he'
      hns hq huniq' hcnt hrun

set_option maxHeartbeats 4000000 in
theorem copy_page_table_cow_witness :
    (loongarch.sane ∧ points_to loongarch demo_process.page_directory 0x300000 ∧
      FreeInv clone_state clone_free clone_pages ∧
      TreeOK clone_state 0x300000 clone_pages ∧
      (0 : Nat) < 512 ∧ (0 : Nat) < 512 ∧
      dir_at clone_state 0x300000 0 ≠ 0 ∧ leaf_at clone_state 0x300000 0 0 ≠ 0 ∧
      page_index loongarch (leaf_at clone_state 0x300000 0 0) ∈ clone_pages ∧
      only_leaf loongarch clone_state 0x300000 0 0 ∧
      points_to loongarch clone_dest.page_directory 0x303000 ∧
      DestOK clone_state 0x300000 0x303000 clone_pages ∧
      ¬ cow_skipped loongarch clone_state (leaf_at clone_state 0x300000 0 0) ∧
      clone_state.mem_map (page_index loongarch (leaf_at clone_state 0x300000 0 0)) < 255) ∧
    ((copy_page_table loongarch demo_process clone_dest clone_state).state.mem_map
        (page_index loongarch (leaf_at clone_state 0x300000 0 0)) =
      clone_state.mem_map (page_index loongarch (leaf_at clone_state 0x300000 0 0)) + 1 ∧
    leaf_at (copy_page_table loongarch demo_process clone_dest clone_state).state
        0x300000 0 0 =
      leaf_at clone_state 0x300000 0 0 &&& not64 loongarch.PTE_D ∧
    leaf_at (copy_page_table loongarch demo_process clone_dest clone_state).state
        0x303000 0 0 =
      leaf_at clone_state 0x300000 0 0 &&& not64 loongarch.PTE_D) := by
  have h1 : loongarch.sane := by decide
  have h2 : points_to loongarch demo_process.page_directory 0x300000 := by decide!
  have h3 : FreeInv clone_state clone_free clone_pages := by decide!
  have h4 : TreeOK clone_state 0x300000 clone_pages := by decide!
  have h5 : dir_at clone_state 0x300000 0 ≠ 0 := by decide!
  have h6 : leaf_at clone_state 0x300000 0 0 ≠ 0 := by decide!
  have h7 : page_index loongarch (leaf_at clone_state 0x300000 0 0) ∈ clone_pages := by
    decide!
  have h8 : only_leaf loongarch clone_state 0x300000 0 0 := by decide!
  have h9 : points_to loongarch clone_dest.page_directory 0x303000 := by decide!
  have h10 : DestOK clone_state 0x300000 0x303000 clone_pages := by decide!
  have h11 : ¬ cow_skipped loongarch clone_state (leaf_at clone_state 0x300000 0 0) := by
    decide!
  have h12 : clone_state.mem_map (page_index loongarch (leaf_at clone_state 0x300000 0 0))
      < 255 := by decide!
  have h13 : (copy_page_table loongarch demo_process clone_dest clone_state).is_done
      = true := by decide!
  have hrun := Result.done_of_is_done
    (copy_page_table loongarch demo_process clone_dest clone_state) h13
  have hthm := (copy_page_table_cow loongarch h1 demo_process 0x300000 clone_state clone_free
    clone_pages h2 h3 h4 0 0 (by decide) (by decide) h5 h6 h7 h8).1 clone_dest 0x303000
    (copy_page_table loongarch demo_process clone_dest clone_state).state h9 h10 hrun
  have hc := hthm.1 h11 h12
  refine ⟨⟨h1, h2, h3, h4, by decide, by decide, h5, h6, h7, h8, h9, h10, h11, h12⟩, ?_⟩
  exact hc
/-! ## Buddy arithmetic -/

theorem testBit_buddy_of (a o i : Nat) :
    (buddy_of a o).testBit i = (a.testBit i != decide (i = o + 12)) := by
  unfold buddy_of
  rw [Nat.testBit_xor, Nat.testBit_two_pow]
  congr 1
  by_cases h : i = o + 12
  · simp [h]
  · have h' : ¬ (o + 12 = i) := fun e => h e.symm
    simp [h, h']

theorem bit_decomp (n k : Nat) :
    n = 2 * 2 ^ k * (n / (2 * 2 ^ k)) + 2 ^ k * (n / 2 ^ k % 2) + n % 2 ^ k := by
  have h1 := Nat.div_add_mod n (2 ^ k)
  have h2 := Nat.div_add_mod (n / 2 ^ k) 2
  have h3 : n / 2 ^ k / 2 = n / (2 * 2 ^ k) := by
    rw [Nat.div_div_eq_div_mul, Nat.mul_comm]
  rw [h3] at h2
  calc n = 2 ^ k * (n / 2 ^ k) + n % 2 ^ k := h1.symm
    _ = 2 ^ k * (2 * (n / (2 * 2 ^ k)) + n / 2 ^ k % 2) + n % 2 ^ k := by rw [h2]
    _ = _ := by ring

theorem flip_bit_parts (a k : Nat) :
    (a ^^^ 2 ^ k) / (2 * 2 ^ k) = a / (2 * 2 ^ k) ∧
    (a ^^^ 2 ^ k) % 2 ^ k = a % 2 ^ k ∧
    (a ^^^ 2 ^ k) / 2 ^ k % 2 = 1 - a / 2 ^ k % 2 := by
  refine ⟨?_, ?_, ?_⟩
  · have e : 2 * 2 ^ k = 2 ^ (k + 1) := by rw [Nat.pow_succ, Nat.mul_comm]
    rw [e, ← Nat.shiftRight_eq_div_pow, ← Nat.shiftRight_eq_div_pow]
    apply Nat.eq_of_testBit_eq
    intro i
    rw [Nat.testBit_shiftRight, Nat.testBit_shiftRight, Nat.testBit_xor, Nat.testBit_two_pow]
    have h : ¬ (k = k + 1 + i) := by omega
    simp [h]
  · apply Nat.eq_of_testBit_eq
    intro i
    rw [Nat.testBit_mod_two_pow, Nat.testBit_mod_two_pow, Nat.testBit_xor, Nat.testBit_two_pow]
    by_cases h : i < k
    · have h' : ¬ (k = i) := by omega
      simp [h, h']
    · simp [h]
  · have hx := Nat.testBit_xor a (2 ^ k) k
    rw [Nat.testBit_two_pow_self] at hx
    rw [Nat.testBit_to_div_mod, Nat.testBit_to_div_mod] at hx
    have h1 := Nat.mod_two_eq_zero_or_one (a / 2 ^ k)
    have h2 := Nat.mod_two_eq_zero_or_one ((a ^^^ 2 ^ k) / 2 ^ k)
    rcases h1 with h1 | h1 <;> rcases h2 with h2 | h2 <;> simp [h1, h2] at hx ⊢

theorem flip_bit_value (a k : Nat) :
    (a.testBit k = true → (a ^^^ 2 ^ k) + 2 ^ k = a) ∧
    (a.testBit k = false → a ^^^ 2 ^ k = a + 2 ^ k) := by
  obtain ⟨h1, h2, h3⟩ := flip_bit_parts a k
  have da := bit_decomp a k
  have dx := bit_decomp (a ^^^ 2 ^ k) k
  rw [h1, h2, h3] at dx
  have hb := Nat.mod_two_eq_zero_or_one (a / 2 ^ k)
  constructor
  · intro h
    rw [Nat.testBit_to_div_mod] at h
    have h' : a / 2 ^ k % 2 = 1 := by simpa using h
    rw [h'] at da dx
    simp at da dx
    omega
  · intro h
    rw [Nat.testBit_to_div_mod] at h
    have h' : a / 2 ^ k % 2 = 0 := by
      rcases hb with hb | hb
      · exact hb
      · simp [hb] at h
    rw [h'] at da dx
    simp at da dx
    omega

theorem and_flip_bit (a k : Nat) :
    a &&& (a ^^^ 2 ^ k) = if a.testBit k = true then a ^^^ 2 ^ k else a := by
  apply Nat.eq_of_testBit_eq
  intro i
  by_cases hb : a.testBit k = true
  · rw [if_pos hb, Nat.testBit_and, Nat.testBit_xor, Nat.testBit_two_pow]
    by_cases hi : k = i
    · subst hi; simp [hb]
    · simp [hi]
  · rw [if_neg hb, Nat.testBit_and, Nat.testBit_xor, Nat.testBit_two_pow]
    by_cases hi : k = i
    · subst hi; simp [hb]
    · simp [hi]
/-- C20: for every address `a` and every order `o ≤ MAX_ORDER`, `buddy_of a o`
differs from `a` in exactly bit `o + 12`, `buddy_of` is an involution, the
merge expression `a & buddy_of a o` is the smaller of the two addresses, which
is `a` with bit `o + 12` cleared, the block and its buddy together cover
exactly the `2 ^ (o + 13)` bytes from there, and the buddy of an
`unsigned long` is an `unsigned long`. -/
theorem buddy_arithmetic (a o : Nat) (ho : o ≤ MAX_ORDER) :
    (∀ i, (buddy_of a o).testBit i = (a.testBit i != decide (i = o + 12))) ∧
    buddy_of (buddy_of a o) o = a ∧
    a &&& buddy_of a o = min a (buddy_of a o) ∧
    (∀ i, (a &&& buddy_of a o).testBit i = (a.testBit i && !decide (i = o + 12))) ∧
    (∀ x, ((a ≤ x ∧ x < a + 2 ^ (o + 12)) ∨
            (buddy_of a o ≤ x ∧ x < buddy_of a o + 2 ^ (o + 12))) ↔
          (a &&& buddy_of a o ≤ x ∧ x < (a &&& buddy_of a o) + 2 ^ (o + 13))) ∧
    (a < 2 ^ 64 → buddy_of a o < 2 ^ 64) := by
  have hv := flip_bit_value a (o + 12)
  have hand := and_flip_bit a (o + 12)
  have hpos : 0 < 2 ^ (o + 12) := Nat.two_pow_pos _
  have h13 : 2 ^ (o + 13) = 2 * 2 ^ (o + 12) := by
    rw [show o + 13 = (o + 12) + 1 from rfl, Nat.pow_succ, Nat.mul_comm]
  refine ⟨testBit_buddy_of a o, ?_, ?_, ?_, ?_, ?_⟩
  · unfold buddy_of
    rw [Nat.xor_assoc, Nat.xor_self, Nat.xor_zero]
  · unfold buddy_of
    rw [hand]
    by_cases hb : a.testBit (o + 12) = true
    · rw [if_pos hb]
      have := hv.1 hb
      omega
    · rw [if_neg hb]
      have := hv.2 (by simpa using hb)
      omega
  · intro i
    rw [Nat.testBit_and, testBit_buddy_of]
    by_cases hi : i = o + 12
    · simp [hi]
    · simp [hi]
  · intro x
    unfold buddy_of
    rw [hand, h13]
    by_cases hb : a.testBit (o + 12) = true
    · rw [if_pos hb]
      have := hv.1 hb
      omega
    · rw [if_neg hb]
      have := hv.2 (by simpa using hb)
      omega
  · intro ha
    unfold buddy_of
    apply Nat.xor_lt_two_pow ha
    apply Nat.pow_lt_pow_right (by decide)
    unfold MAX_ORDER at ho
    omega

theorem buddy_arithmetic_witness :
    8 ≤ MAX_ORDER ∧ buddy_of 0x300000 8 = 0x200000 ∧
    buddy_of (buddy_of 0x300000 8) 8 = 0x300000 ∧
    0x300000 &&& buddy_of 0x300000 8 = min 0x300000 (buddy_of 0x300000 8) :=
  ⟨by decide, by decide, (buddy_arithmetic 0x300000 8 (by decide)).2.1,
    (buddy_arithmetic 0x300000 8 (by decide)).2.2.1⟩
/-! ## `get_order` of size 0 -/

/-- C14, counterexample: `get_order 0` is neither 0 nor the order of size 1. -/
theorem get_order_zero_not_guarded : ¬ (get_order 0 = 0 ∧ get_order 0 = get_order 1) := by
  decide

/-- C14, as amended: `get_order` has no guard for size 0; `size - 1` wraps to
`0xFFFFFFFF` and the result is 20, above `MAX_ORDER`, so `buddy_alloc` of size
0 returns `NULL` and leaves the state as it was. -/
theorem get_order_zero_wraps :
    uint_pred 0 = 0xFFFFFFFF ∧ get_order 0 = 20 ∧ MAX_ORDER < get_order 0 ∧
    ∀ (K : Xtos) (s : State), buddy_alloc K 0 s = (0, s) := by
  refine ⟨by decide, by decide, by decide, ?_⟩
  intro K s
  have h : get_order 0 = 20 := by decide
  unfold buddy_alloc
  simp only [h, MAX_ORDER]
  rfl

/-! ## Alignment of the arena -/

/-- C18, evaluation: `buddy_init` puts the block `0x300000` on
`free_list[14]`, which is not a multiple of `2 ^ 26`; a request of 2MB then
returns the block `0x300000` at order 9, not a multiple of `2 ^ 21`, and the
half pushed on `free_list[9]` is `0x500000` while `buddy_of` gives
`0x100000`. -/
theorem arena_base_unaligned :
    (buddy_init loongarch power_on).free_list 14 = 0x300000 ∧
    0x300000 % 2 ^ (14 + 12) ≠ 0 ∧
    get_order 0x200000 = 9 ∧
    (buddy_alloc loongarch 0x200000 (buddy_init loongarch power_on)).1
      = 0x9000000000300000 ∧
    0x300000 % 2 ^ (9 + 12) ≠ 0 ∧
    (buddy_alloc loongarch 0x200000 (buddy_init loongarch power_on)).2.free_list 9
      = 0x300000 + 2 ^ (9 + 12) ∧
    buddy_of 0x300000 9 = 0x100000 ∧
    0x300000 + 2 ^ (9 + 12) ≠ buddy_of 0x300000 9 := by
  decide!

/-! ## Zero-fill of an allocated block -/

/-- C13, evaluation: the 8KB block that `buddy_alloc` returns at the end of
`stale_calls` starts at `0x302000`, and its second page still holds the list
pointer `0x301000` that `buddy_free` stored at `0x303000`; likewise the first
8KB block handed out in `stale_boot` keeps the byte `0xAA` at `0x301000`. -/
theorem zero_fill_first_page_only :
    get_order 8192 = 1 ∧
    (run loongarch stale_calls boot).live.head? = some (0x9000000000302000, 8192) ∧
    load8 (run loongarch stale_calls boot).st.mem 0x303001 = 0x10 ∧
    load64 (run loongarch stale_calls boot).st.mem 0x303000 = 0x301000 ∧
    (buddy_alloc loongarch 8192 stale_boot).1 = 0x9000000000300000 ∧
    load8 (buddy_alloc loongarch 8192 stale_boot).2.mem 0x301000 = 0xAA := by
  decide!

/-! ## The merge loop of `buddy_free` and the lists it leaves behind -/

theorem buddy_free_other_lists (K : Xtos) (addr size : Nat) (s : State) (o : Nat)
    (h : o ≠ (merge_loop s.free_list (MAX_ORDER - get_order size) (get_order size)
      (addr &&& not64 K.DMW_MASK) (buddy_of (addr &&& not64 K.DMW_MASK) (get_order size))).1) :
    (buddy_free K addr size s).free_list o = s.free_list o := by
  unfold buddy_free
  simp only []
  split
  · simp only [set_bit, wr]
    exact upd_other _ _ _ _ h
  · rfl

/-- C16: no call of `buddy_free` changes the head of a list other than the one
of the final order, so a buddy that was merged with is never popped.
Evaluation: after `buddy_alloc(4096)` in the state `buddy_init` produces, the
buddy `0x301000` of the returned block heads `free_list[0]`;
`buddy_free` of the block merges up to order 8 and pushes `0x300000` on
`free_list[8]`, but `0x301000` still heads `free_list[0]` with its bit set, so
page `0x301` lies in a block of list 0 and in a block of list 8. -/
theorem merged_buddy_stays_listed :
    (∀ (K : Xtos) (addr size : Nat) (s : State) (o : Nat),
      o ≠ (merge_loop s.free_list (MAX_ORDER - get_order size) (get_order size)
        (addr &&& not64 K.DMW_MASK)
        (buddy_of (addr &&& not64 K.DMW_MASK) (get_order size))).1 →
      (buddy_free K addr size s).free_list o = s.free_list o) ∧
    (buddy_alloc loongarch 4096 (buddy_init loongarch power_on)).1 = 0x9000000000300000 ∧
    (buddy_alloc loongarch 4096 (buddy_init loongarch power_on)).2.free_list 0
      = buddy_of 0x300000 0 ∧
    buddy_of 0x300000 0 = 0x301000 ∧
    (buddy_free loongarch 0x9000000000300000 4096
      (buddy_alloc loongarch 4096 (buddy_init loongarch power_on)).2).free_list 0
      = 0x301000 ∧
    (buddy_free loongarch 0x9000000000300000 4096
      (buddy_alloc loongarch 4096 (buddy_init loongarch power_on)).2).bitmap 0 = 1 ∧
    (buddy_free loongarch 0x9000000000300000 4096
      (buddy_alloc loongarch 4096 (buddy_init loongarch power_on)).2).free_list 8
      = 0x300000 ∧
    (buddy_free loongarch 0x9000000000300000 4096
      (buddy_alloc loongarch 4096 (buddy_init loongarch power_on)).2).bitmap 8 = 1 ∧
    (0x300000 ≤ 0x301000 ∧ 0x301000 + 2 ^ (0 + 12) ≤ 0x300000 + 2 ^ (8 + 12)) := by
  refine ⟨fun K addr size s o h => buddy_free_other_lists K addr size s o h, ?_⟩
  decide!
/-! ## The release loop of `buddy_free` -/

theorem release_loop_map (sp : Nat) (mm : Nat → Nat) :
    ∀ n x, (release_loop sp n mm).1 x =
      if sp ≤ x ∧ x < sp + n then (mm x + 255) % 256 else mm x := by
  intro n
  induction n with
  | zero =>
    intro x
    have h : ¬ (sp ≤ x ∧ x < sp + 0) := by omega
    simp only [release_loop, if_neg h]
  | succ n ih =>
    intro x
    simp only [release_loop]
    by_cases hx : x = sp + n
    · subst hx
      rw [upd_same, ih]
      have h1 : ¬ (sp ≤ sp + n ∧ sp + n < sp + n) := by omega
      have h2 : sp ≤ sp + n ∧ sp + n < sp + (n + 1) := by omega
      rw [if_neg h1, if_pos h2]
    · rw [upd_other _ _ _ _ hx, ih]
      by_cases h1 : sp ≤ x ∧ x < sp + n
      · have h2 : sp ≤ x ∧ x < sp + (n + 1) := by omega
        rw [if_pos h1, if_pos h2]
      · have h2 : ¬ (sp ≤ x ∧ x < sp + (n + 1)) := by omega
        rw [if_neg h1, if_neg h2]

theorem release_loop_flag (sp : Nat) (mm : Nat → Nat) :
    ∀ n, (release_loop sp n mm).2 = true ↔ ∀ j, j < n → (mm (sp + j) + 255) % 256 = 0 := by
  intro n
  induction n with
  | zero => simp [release_loop]
  | succ n ih =>
    simp only [release_loop]
    have hv : (release_loop sp n mm).1 (sp + n) = mm (sp + n) := by
      rw [release_loop_map]
      have h1 : ¬ (sp ≤ sp + n ∧ sp + n < sp + n) := by omega
      rw [if_neg h1]
    rw [hv]
    by_cases h0 : (mm (sp + n) + 255) % 256 = 0
    · have hn : ¬ ((mm (sp + n) + 255) % 256 ≠ 0) := fun h => h h0
      rw [if_neg hn, ih]
      constructor
      · intro h j hj
        by_cases hjn : j = n
        · subst hjn; exact h0
        · exact h j (by omega)
      · intro h j hj
        exact h j (by omega)
    · rw [if_pos h0]
      constructor
      · intro h; cases h
      · intro h; exact absurd (h n (by omega)) h0

theorem buddy_free_mem_map (K : Xtos) (addr size : Nat) (s : State) :
    (buddy_free K addr size s).mem_map =
      (release_loop ((addr &&& not64 K.DMW_MASK) >>> 12) (2 ^ get_order size) s.mem_map).1 := by
  unfold buddy_free
  simp only []
  split
  · simp only [set_bit, wr]
  · rfl

theorem buddy_free_kept (K : Xtos) (addr size : Nat) (s : State)
    (h : (release_loop ((addr &&& not64 K.DMW_MASK) >>> 12) (2 ^ get_order size)
      s.mem_map).2 = false) :
    (buddy_free K addr size s).free_list = s.free_list ∧
    (buddy_free K addr size s).bitmap = s.bitmap ∧
    (buddy_free K addr size s).mem = s.mem := by
  unfold buddy_free
  simp only [h]
  exact ⟨rfl, rfl, rfl⟩

/-- C12: for a block that lies inside the array `mem_map`, `buddy_free`
replaces the count of every page the block spans by the count minus one in
8-bit arithmetic, which is the count minus one when the count is between 1 and
255, and changes no other count; when some spanned page has a non-zero count
afterwards, the free lists, the bitmap and memory are what they were.  The
bound keeps the statement to the blocks for which the accesses `mem_map[i]` of
the C loop stay inside the array of `NR_PAGE` counts. -/
theorem buddy_free_decrements (K : Xtos) (addr size : Nat) (s : State)
    (_hb : (addr &&& not64 K.DMW_MASK) >>> 12 + 2 ^ get_order size ≤ NR_PAGE) :
    (∀ x, (buddy_free K addr size s).mem_map x =
      if (addr &&& not64 K.DMW_MASK) >>> 12 ≤ x ∧
          x < (addr &&& not64 K.DMW_MASK) >>> 12 + 2 ^ get_order size
      then (s.mem_map x + 255) % 256 else s.mem_map x) ∧
    (∀ j, j < 2 ^ get_order size →
      0 < s.mem_map ((addr &&& not64 K.DMW_MASK) >>> 12 + j) →
      s.mem_map ((addr &&& not64 K.DMW_MASK) >>> 12 + j) < 256 →
      (buddy_free K addr size s).mem_map ((addr &&& not64 K.DMW_MASK) >>> 12 + j) =
        s.mem_map ((addr &&& not64 K.DMW_MASK) >>> 12 + j) - 1) ∧
    ((∃ j, j < 2 ^ get_order size ∧
        (buddy_free K addr size s).mem_map ((addr &&& not64 K.DMW_MASK) >>> 12 + j) ≠ 0) →
      (buddy_free K addr size s).free_list = s.free_list ∧
      (buddy_free K addr size s).bitmap = s.bitmap ∧
      (buddy_free K addr size s).mem = s.mem) := by
  have hm : ∀ x, (buddy_free K addr size s).mem_map x =
      if (addr &&& not64 K.DMW_MASK) >>> 12 ≤ x ∧
          x < (addr &&& not64 K.DMW_MASK) >>> 12 + 2 ^ get_order size
      then (s.mem_map x + 255) % 256 else s.mem_map x := by
    intro x
    rw [buddy_free_mem_map, release_loop_map]
  refine ⟨hm, ?_, ?_⟩
  · intro j hj h0 h256
    rw [hm, if_pos (by omega)]
    omega
  · rintro ⟨j, hj, hne⟩
    apply buddy_free_kept
    cases hf : (release_loop ((addr &&& not64 K.DMW_MASK) >>> 12) (2 ^ get_order size)
      s.mem_map).2 with
    | false => rfl
    | true =>
      exfalso
      rw [release_loop_flag] at hf
      apply hne
      rw [hm, if_pos (by omega)]
      exact hf j hj

theorem buddy_free_decrements_witness :
    (0x9000000000300000 &&& not64 loongarch.DMW_MASK) >>> 12 + 2 ^ get_order 8192 ≤ NR_PAGE ∧
    (shared_block.mem_map 0x300 = 2 ∧ shared_block.mem_map 0x301 = 1) ∧
    ((buddy_free loongarch 0x9000000000300000 8192 shared_block).mem_map 0x300 = 1 ∧
      (buddy_free loongarch 0x9000000000300000 8192 shared_block).mem_map 0x301 = 0) ∧
    (buddy_free loongarch 0x9000000000300000 8192 shared_block).free_list
      = shared_block.free_list ∧
    (buddy_free loongarch 0x9000000000300000 8192 shared_block).bitmap
      = shared_block.bitmap :=
  ⟨by decide, by decide!, by decide!,
    ((buddy_free_decrements loongarch 0x9000000000300000 8192 shared_block (by decide)).2.2
      ⟨0, by decide, by decide!⟩).1,
    ((buddy_free_decrements loongarch 0x9000000000300000 8192 shared_block (by decide)).2.2
      ⟨0, by decide, by decide!⟩).2.1⟩

/-- C19: for a block that lies inside the array `mem_map`, when every page the
block spans has count 0, `buddy_free` returns (it has no error path), each of
those counts becomes 255, the 8-bit pattern of -1, no other count changes, and
the free lists, the bitmap and memory are what they were.  The bound keeps the
statement to the blocks for which the accesses `mem_map[i]` of the C loop stay
inside the array of `NR_PAGE` counts. -/
theorem double_free_wraps (K : Xtos) (addr size : Nat) (s : State)
    (_hb : (addr &&& not64 K.DMW_MASK) >>> 12 + 2 ^ get_order size ≤ NR_PAGE)
    (h : ∀ j, j < 2 ^ get_order size →
      s.mem_map ((addr &&& not64 K.DMW_MASK) >>> 12 + j) = 0) :
    (∀ j, j < 2 ^ get_order size →
      (buddy_free K addr size s).mem_map ((addr &&& not64 K.DMW_MASK) >>> 12 + j) = 255) ∧
    (∀ x, ¬ ((addr &&& not64 K.DMW_MASK) >>> 12 ≤ x ∧
        x < (addr &&& not64 K.DMW_MASK) >>> 12 + 2 ^ get_order size) →
      (buddy_free K addr size s).mem_map x = s.mem_map x) ∧
    (buddy_free K addr size s).free_list = s.free_list ∧
    (buddy_free K addr size s).bitmap = s.bitmap ∧
    (buddy_free K addr size s).mem = s.mem := by
  have hm : ∀ x, (buddy_free K addr size s).mem_map x =
      if (addr &&& not64 K.DMW_MASK) >>> 12 ≤ x ∧
          x < (addr &&& not64 K.DMW_MASK) >>> 12 + 2 ^ get_order size
      then (s.mem_map x + 255) % 256 else s.mem_map x := by
    intro x
    rw [buddy_free_mem_map, release_loop_map]
  refine ⟨?_, ?_, ?_⟩
  · intro j hj
    rw [hm, if_pos (by omega), h j hj]
  · intro x hx
    rw [hm, if_neg hx]
  · apply buddy_free_kept
    cases hf : (release_loop ((addr &&& not64 K.DMW_MASK) >>> 12) (2 ^ get_order size)
      s.mem_map).2 with
    | false => rfl
    | true =>
      exfalso
      rw [release_loop_flag] at hf
      have h1 := hf 0 (Nat.two_pow_pos _)
      rw [h 0 (Nat.two_pow_pos _)] at h1
      omega
theorem double_free_wraps_witness :
    (0x9000000000300000 &&& not64 loongarch.DMW_MASK) >>> 12 + 2 ^ get_order 4096 ≤ NR_PAGE ∧
    (∀ j, j < 2 ^ get_order 4096 →
      freed_once.mem_map ((0x9000000000300000 &&& not64 loongarch.DMW_MASK) >>> 12 + j) = 0) ∧
    (buddy_alloc loongarch 4096 boot).1 = 0x9000000000300000 ∧
    (buddy_free loongarch 0x9000000000300000 4096 freed_once).mem_map
      ((0x9000000000300000 &&& not64 loongarch.DMW_MASK) >>> 12 + 0) = 255 ∧
    (buddy_free loongarch 0x9000000000300000 4096 freed_once).free_list
      = freed_once.free_list ∧
    (buddy_free loongarch 0x9000000000300000 4096 freed_once).bitmap = freed_once.bitmap :=
  ⟨by decide, by decide!, by decide!,
    (double_free_wraps loongarch 0x9000000000300000 4096 freed_once (by decide)
      (by decide!)).1 0 (by decide),
    (double_free_wraps loongarch 0x9000000000300000 4096 freed_once (by decide)
      (by decide!)).2.2.1,
    (double_free_wraps loongarch 0x9000000000300000 4096 freed_once (by decide)
      (by decide!)).2.2.2.1⟩

/-! ## Selection and splitting in `buddy_alloc` -/

theorem split_loop_next_ord (K : Xtos) (hD : K.DMW_MASK % 2 ^ 32 = 0) (order b : Nat) :
    ∀ i s j, order ≤ j → j < i → b + 2 ^ (i + 12) ≤ 2 ^ 32 → s.free_list j < 2 ^ 64 →
      load64 (split_loop K order b i s).mem (b + 2 ^ (j + 12)) = s.free_list j := by
  intro i
  induction i with
  | zero => intro s j _ h; omega
  | succ i ih =>
    intro s j hoj hj hb hf
    have hp := two_pow_succ_order i
    have hq := two_pow_ge_page i
    have hb' : b + 2 ^ (i + 12) ≤ 2 ^ 32 := by omega
    have hlt : b + 2 ^ (i + 12) < 2 ^ 32 := by omega
    rw [split_loop, if_pos (by omega)]
    show load64 (split_loop K order b i _).mem _ = _
    by_cases hji : j = i
    · subst hji
      rw [load64_congr _ _ _ (fun x h1 h2 =>
        split_loop_mem_out K hD order b j _ x hb' (Or.inr h1))]
      show load64 (store64 s.mem (phys K (add64 b (2 ^ (j + 12)))) _) _ = _
      rw [phys_add_small K hD _ _ hlt, load64_store64_same, Nat.mod_eq_of_lt hf]
    · have hj' : j < i := by omega
      rw [ih _ j hoj hj' hb']
      · show upd _ i _ j = _
        rw [upd_other _ _ _ _ hji]
        rfl
      · show upd _ i _ j < _
        rw [upd_other _ _ _ _ hji]
        exact hf

theorem alloc_block_next_ord (K : Xtos) (hD : K.DMW_MASK % 2 ^ 32 = 0) (order i : Nat)
    (s : State) (j : Nat) (hoj : order ≤ j) (hj : j < i)
    (hb : s.free_list i + 2 ^ (i + 12) ≤ 2 ^ 32) (hf : s.free_list j < 2 ^ 64) :
    load64 (alloc_block K order i s).2.mem (s.free_list i + 2 ^ (j + 12)) = s.free_list j := by
  have hq := two_pow_ge_page j
  have hq' := two_pow_ge_page i
  have hlt : s.free_list i < 2 ^ 32 := by omega
  have hfj : (if upd s.free_list i (rd K s (s.free_list i)) i = 0 then
        clear_bit i { s with free_list := upd s.free_list i (rd K s (s.free_list i)) }
      else { s with free_list := upd s.free_list i (rd K s (s.free_list i)) }).free_list j =
      s.free_list j := by
    rw [(clear_if_mem _ _ _).2.2]
    show upd _ i _ j = _
    rw [upd_other _ _ _ _ (by omega)]
  show load64 (set_mem (split_loop K order (s.free_list i) i _).mem
    (phys K (s.free_list i ||| K.DMW_MASK)) 0 PAGE_SIZE) _ = _
  rw [phys_lor K hD _ hlt]
  rw [load64_congr (split_loop K order (s.free_list i) i _).mem _ _ (fun x h1 h2 => by
    unfold set_mem
    rw [if_neg (by simp only [PAGE_SIZE]; omega)])]
  have key : ∀ s2 : State, s2.free_list j = s.free_list j →
      load64 (split_loop K order (s.free_list i) i s2).mem (s.free_list i + 2 ^ (j + 12)) =
        s.free_list j := fun s2 h2 => by
    rw [split_loop_next_ord K hD order _ i s2 j hoj hj hb (by rw [h2]; exact hf), h2]
  exact key _ hfj
/-- Splitting in a state whose free lists are well formed (`FreeInv`): when
`buddy_alloc(size)` succeeds in such a state, there is a least order `k ≥ get_order size` whose presence bit is
set; with `b` the head of `free_list[k]`, the call returns `b | DMW_MASK`,
list `k` becomes the rest of the list after `b`, every list `j` with
`get_order size ≤ j < k` gets the one block `b + 2 ^ (j + 12)` pushed on its
head with its bit set, and the lists and bits of all other orders are
unchanged. -/
theorem buddy_alloc_splits (K : Xtos) (hD : K.DMW_MASK % 2 ^ 32 = 0) (size : Nat)
    (s : State) (F : List (Nat × Nat)) (hinv : FreeInv s F [])
    (hok : (buddy_alloc K size s).1 ≠ 0) :
    ∃ k, get_order size ≤ k ∧ k ≤ MAX_ORDER ∧ s.bitmap k ≠ 0 ∧
      (∀ j, get_order size ≤ j → j < k → s.bitmap j = 0) ∧
      (buddy_alloc K size s).1 = s.free_list k ||| K.DMW_MASK ∧
      (∃ t, of_order F k = s.free_list k :: t ∧
        (buddy_alloc K size s).2.free_list k = load64 s.mem (s.free_list k) ∧
        IsList (buddy_alloc K size s).2.mem ((buddy_alloc K size s).2.free_list k) t) ∧
      (∀ j, get_order size ≤ j → j < k →
        (buddy_alloc K size s).2.free_list j = s.free_list k + 2 ^ (j + 12) ∧
        load64 (buddy_alloc K size s).2.mem (s.free_list k + 2 ^ (j + 12)) = s.free_list j ∧
        IsList (buddy_alloc K size s).2.mem ((buddy_alloc K size s).2.free_list j)
          ((s.free_list k + 2 ^ (j + 12)) :: of_order F j) ∧
        (buddy_alloc K size s).2.bitmap j = 1) ∧
      (∀ o, o ≤ MAX_ORDER → (o < get_order size ∨ k < o) →
        (buddy_alloc K size s).2.free_list o = s.free_list o ∧
        IsList (buddy_alloc K size s).2.mem ((buddy_alloc K size s).2.free_list o)
          (of_order F o) ∧
        (buddy_alloc K size s).2.bitmap o = s.bitmap o) := by
  obtain ⟨k, hk1, hk, hbit, hleast, he⟩ := buddy_alloc_pick K size s hok
  refine ⟨k, hk1, hk, hbit, hleast, ?_⟩
  rw [he]
  generalize get_order size = order at hk1 hleast
  obtain ⟨hl, hbits, hr, hd, _⟩ := hinv
  have hne := (hbits k hk).2 hbit
  have hlk := hl k hk
  obtain ⟨t, ht⟩ : ∃ t, of_order F k = s.free_list k :: t := by
    cases hc : of_order F k with
    | nil => exact absurd hc hne
    | cons c t =>
      rw [hc] at hlk
      exact ⟨t, by rw [hlk.1]⟩
  rw [ht] at hlk
  obtain ⟨_, hb0, htail⟩ := hlk
  have hmemF : (k, s.free_list k) ∈ F :=
    of_order_mem k _ F (by rw [ht]; exact List.mem_cons_self _ _)
  obtain ⟨hal, hend⟩ := hr _ hmemF
  have hM : MEMORY_SIZE = 134217728 := rfl
  have h32 : (2 : Nat) ^ 32 = 4294967296 := by norm_num
  have h64 : (2 : Nat) ^ 64 = 18446744073709551616 := by norm_num
  have hqk := two_pow_ge_page k
  have hend' : s.free_list k + 2 ^ (k + 12) ≤ MEMORY_SIZE := hend
  have hb32 : s.free_list k + 2 ^ (k + 12) ≤ 2 ^ 32 := by omega
  have hblt : s.free_list k < 2 ^ 32 := by omega
  have hrd : rd K s (s.free_list k) = load64 s.mem (s.free_list k) := by
    show load64 s.mem (phys K (s.free_list k)) = _
    rw [phys_small K hD _ hblt]
  have hout : ∀ y ∈ pop_order F k,
      y ∈ F ∧ (block_end (k, s.free_list k) ≤ y.2 ∨ block_end y ≤ s.free_list k) :=
    fun y hy => ⟨(of_order_head_pop k _ t F ht y hy).1,
      (of_order_head_pop k _ t F ht y hy).2 hd⟩
  have hframe : ∀ o c, c ∈ of_order (pop_order F k) o → ∀ x, c ≤ x → x < c + 8 →
      (alloc_block K order k s).2.mem x = s.mem x := by
    intro o c hc x h1 h2
    have hm := of_order_mem o c _ hc
    obtain ⟨hy1, hy2⟩ := hout _ hm
    have hq := two_pow_ge_page o
    have e1 : block_end (k, s.free_list k) = s.free_list k + 2 ^ (k + 12) := rfl
    have e2 : block_end (o, c) = c + 2 ^ (o + 12) := rfl
    rw [e1, e2] at hy2
    apply alloc_block_mem_out K hD order k s x hb32
    have : (o, c).2 = c := rfl
    rw [this] at hy2
    omega
  have hheadlt : ∀ o, o ≤ MAX_ORDER → s.free_list o < 2 ^ 64 := by
    intro o ho
    rcases IsList_head _ _ _ (hl o ho) with e | e
    · rw [e]; norm_num
    · have := (hr _ (of_order_mem o _ F e)).2
      have e2 : block_end (o, s.free_list o) = s.free_list o + 2 ^ (o + 12) := rfl
      have hq := two_pow_ge_page o
      rw [e2] at this
      omega
  refine ⟨rfl, ⟨t, ht, ?_, ?_⟩, ?_, ?_⟩
  · rw [alloc_block_free_list, if_neg (by omega), upd_same, hrd]
  · rw [alloc_block_free_list, if_neg (by omega), upd_same, hrd]
    refine IsList_congr s.mem _ _ _ htail ?_
    intro c hc
    exact hframe k c (by rw [of_order_pop_same, ht]; exact hc)
  · intro j hj1 hj2
    have hjM : j ≤ MAX_ORDER := by omega
    have hq := two_pow_ge_page j
    have hpo := pow_order_le j k hj2
    have hfl : (alloc_block K order k s).2.free_list j = s.free_list k + 2 ^ (j + 12) := by
      rw [alloc_block_free_list, if_pos ⟨hj1, hj2⟩, add64_eq _ _ (by omega)]
    have hn := alloc_block_next_ord K hD order k s j hj1 hj2 hb32 (hheadlt j hjM)
    refine ⟨hfl, hn, ?_, ?_⟩
    · rw [hfl]
      refine ⟨rfl, by omega, ?_⟩
      rw [hn]
      refine IsList_congr s.mem _ _ _ (hl j hjM) ?_
      intro c hc
      exact hframe j c (by rw [of_order_pop_other k j (by omega)]; exact hc)
    · rw [alloc_block_bitmap, if_pos ⟨hj1, hj2⟩, if_neg (fun h => by omega), hleast j hj1 hj2]
      rfl
  · intro o ho hout'
    have hok' : o ≠ k := by omega
    refine ⟨?_, ?_, ?_⟩
    · rw [alloc_block_free_list, if_neg (by omega), upd_other _ _ _ _ hok']
    · rw [alloc_block_free_list, if_neg (by omega), upd_other _ _ _ _ hok']
      refine IsList_congr s.mem _ _ _ (hl o ho) ?_
      intro c hc
      exact hframe o c (by rw [of_order_pop_other k o hok']; exact hc)
    · rw [alloc_block_bitmap, if_neg (by omega), if_neg (fun h => hok' h.2)]

set_option maxHeartbeats 4000000 in
theorem buddy_alloc_splits_witness :
    loongarch.DMW_MASK % 2 ^ 32 = 0 ∧ FreeInv boot [(14, 0x300000)] [] ∧
    (buddy_alloc loongarch 0x4000 boot).1 ≠ 0 ∧
    ∃ k, get_order 0x4000 ≤ k ∧ k ≤ MAX_ORDER ∧ boot.bitmap k ≠ 0 ∧
      (∀ j, get_order 0x4000 ≤ j → j < k → boot.bitmap j = 0) ∧
      (buddy_alloc loongarch 0x4000 boot).1 = boot.free_list k ||| loongarch.DMW_MASK := by
  have h1 : loongarch.DMW_MASK % 2 ^ 32 = 0 := by decide
  have h2 : FreeInv boot [(14, 0x300000)] [] := by decide!
  have h3 : (buddy_alloc loongarch 0x4000 boot).1 ≠ 0 := by decide!
  refine ⟨h1, h2, h3, ?_⟩
  obtain ⟨k, a, b, c, d, e, _⟩ := buddy_alloc_splits loongarch h1 0x4000 boot _ h2 h3
  exact ⟨k, a, b, c, d, e⟩
/-! ## `free_page_table` -/

theorem forall_lt_of_halves (P : Nat → Prop) (a b : Nat) (h1 : ∀ j, j < a → P j)
    (h2 : ∀ j, j < b → P (a + j)) : ∀ j, j < a + b → P j := by
  intro j hj
  by_cases h : j < a
  · exact h1 j h
  · have := h2 (j - a) (by omega)
    rwa [show a + (j - a) = j by omega] at this

theorem free_leaf_skip (K : Xtos) (pte : Nat) (w : Walk) (h : rd K w.st pte = 0) :
    free_leaf K pte w = w := by
  unfold free_leaf
  rw [if_pos h]

theorem free_leaf_shared (K : Xtos) (pte : Nat) (w : Walk) (h : rd K w.st pte ≠ 0)
    (hs : is_share_page K (entry_page K (rd K w.st pte)) w.st = true)
    (hd : rd K w.st pte &&& K.PTE_D ≠ 0) :
    free_leaf K pte w =
      Walk.mk (shmem_release (entry_page K (rd K w.st pte)) w.sh 0).1
        (wr K (free_page K (entry_page K (rd K w.st pte)) w.st) pte 0)
        (shmem_release (entry_page K (rd K w.st pte)) w.sh 0).2 := by
  unfold free_leaf
  rw [if_neg h]
  simp only [if_pos (And.intro hs hd)]

theorem free_leaves_skip (K : Xtos) :
    ∀ n pte w, pte < 2 ^ 64 → (∀ j, j < n → rd K w.st (add64 pte (8 * j)) = 0) →
      free_leaves K n pte w = w := by
  intro n
  induction n with
  | zero => intro pte w _ _; rfl
  | succ n ih =>
    intro pte w hp h
    have h0 : rd K w.st pte = 0 := by
      have := h 0 (by omega)
      rwa [Nat.mul_zero, add64_zero pte hp] at this
    rw [free_leaves, free_leaf_skip K pte w h0]
    have hp' : add64 pte ENTRY_SIZE < 2 ^ 64 := Nat.mod_lt _ (by norm_num)
    apply ih (add64 pte ENTRY_SIZE) w hp'
    intro j hj
    have := h (j + 1) (by omega)
    rw [add64_assoc]
    simp only [ENTRY_SIZE]
    rwa [show 8 + 8 * j = 8 * (j + 1) by ring]

theorem free_table_skip (K : Xtos) (pde : Nat) (w : Walk) (h : rd K w.st pde = 0) :
    free_table K pde w = w := by
  unfold free_table
  rw [if_pos h]

theorem free_table_run (K : Xtos) (pde : Nat) (w : Walk) (h : rd K w.st pde ≠ 0) :
    free_table K pde w =
      Walk.mk (free_leaves K ENTRYS (rd K w.st pde ||| K.DMW_MASK) w).i
        (wr K (free_page K
          (rd K (free_leaves K ENTRYS (rd K w.st pde ||| K.DMW_MASK) w).st pde
            ||| K.DMW_MASK)
          (free_leaves K ENTRYS (rd K w.st pde ||| K.DMW_MASK) w).st) pde 0)
        (free_leaves K ENTRYS (rd K w.st pde ||| K.DMW_MASK) w).sh := by
  unfold free_table
  rw [if_neg h]

theorem free_tables_skip (K : Xtos) :
    ∀ fuel pde w, pde < 2 ^ 64 → ENTRYS - w.i < fuel →
      (∀ j, w.i + j < ENTRYS → rd K w.st (add64 pde (8 * j)) = 0) →
      ∃ w', free_tables K fuel pde w = some w' ∧ w'.st = w.st ∧ w'.sh = w.sh ∧
        ENTRYS ≤ w'.i := by
  intro fuel
  induction fuel with
  | zero => intro pde w _ h; omega
  | succ fuel ih =>
    intro pde w hp hf h
    rw [free_tables]
    by_cases hi : w.i < ENTRYS
    · rw [if_pos hi]
      have h0 : rd K w.st pde = 0 := by
        have := h 0 (by omega)
        rwa [Nat.mul_zero, add64_zero pde hp] at this
      simp only [free_table_skip K pde w h0]
      have hp' : add64 pde ENTRY_SIZE < 2 ^ 64 := Nat.mod_lt _ (by norm_num)
      apply ih (add64 pde ENTRY_SIZE) (Walk.mk (w.i + 1) w.st w.sh) hp'
      · show ENTRYS - (w.i + 1) < fuel
        omega
      · intro j hj
        have hj' : w.i + (j + 1) < ENTRYS := by
          have : (Walk.mk (w.i + 1) w.st w.sh).i = w.i + 1 := rfl
          rw [this] at hj
          omega
        have := h (j + 1) hj'
        show rd K w.st (add64 (add64 pde ENTRY_SIZE) (8 * j)) = 0
        rw [add64_assoc]
        simp only [ENTRY_SIZE]
        rwa [show 8 + 8 * j = 8 * (j + 1) by ring]
    · rw [if_neg hi]
      exact ⟨w, rfl, rfl, rfl, by omega⟩
theorem free_leaves_first_shared (K : Xtos) (pt page : Nat) (w : Walk) (sA : State)
    (hrd : rd K w.st pt ≠ 0) (hpage : entry_page K (rd K w.st pt) = page)
    (hs : is_share_page K page w.st = true) (hd : rd K w.st pt &&& K.PTE_D ≠ 0)
    (hA : wr K (free_page K page w.st) pt 0 = sA)
    (hz : ∀ j, j < 511 → rd K sA (add64 (add64 pt ENTRY_SIZE) (8 * j)) = 0) :
    free_leaves K ENTRYS pt w =
      Walk.mk (shmem_release page w.sh 0).1 sA (shmem_release page w.sh 0).2 := by
  have hl0 : free_leaf K pt w =
      Walk.mk (shmem_release page w.sh 0).1 sA (shmem_release page w.sh 0).2 := by
    rw [free_leaf_shared K pt w hrd (by rw [hpage]; exact hs) hd, hpage, hA]
  show free_leaves K (511 + 1) pt w = _
  rw [free_leaves, hl0]
  exact free_leaves_skip K 511 _ _ (Nat.mod_lt _ (by norm_num)) hz

theorem free_table_one_leaf (K : Xtos) (pde pt pt2 i : Nat) (w : Walk) (sA sB : State)
    (sh : List shmem) (h1 : rd K w.st pde ≠ 0) (hpt : rd K w.st pde ||| K.DMW_MASK = pt)
    (hl : free_leaves K ENTRYS pt w = Walk.mk i sA sh)
    (hpt2 : rd K sA pde ||| K.DMW_MASK = pt2)
    (hB : wr K (free_page K pt2 sA) pde 0 = sB) :
    free_table K pde w = Walk.mk i sB sh := by
  rw [free_table_run K pde w h1, hpt, hl]
  show Walk.mk i (wr K (free_page K (rd K sA pde ||| K.DMW_MASK) sA) pde 0) sh = _
  rw [hpt2, hB]

set_option maxHeartbeats 4000000 in
theorem teardown_leaves_empty_a : ∀ j, j < 128 →
    rd loongarch teardown_after_leaf (add64 (add64 0x9000000000302000 ENTRY_SIZE) (8 * j)) = 0 := by
  decide!

set_option maxHeartbeats 4000000 in
theorem teardown_leaves_empty_b : ∀ j, j < 128 →
    rd loongarch teardown_after_leaf (add64 (add64 0x9000000000302000 ENTRY_SIZE) (8 * (128 + j))) = 0 := by
  decide!

set_option maxHeartbeats 4000000 in
theorem teardown_leaves_empty_c : ∀ j, j < 128 →
    rd loongarch teardown_after_leaf (add64 (add64 0x9000000000302000 ENTRY_SIZE) (8 * (256 + j))) = 0 := by
  decide!

set_option maxHeartbeats 4000000 in
theorem teardown_leaves_empty_d : ∀ j, j < 127 →
    rd loongarch teardown_after_leaf (add64 (add64 0x9000000000302000 ENTRY_SIZE) (8 * (384 + j))) = 0 := by
  decide!

/-- After leaf 0 of the table `0x302000` was released in `teardown_state`, the
leaf entries 1 to 511 of that table read 0. -/
theorem teardown_leaves_empty : ∀ j, j < 511 →
    rd loongarch teardown_after_leaf (add64 (add64 0x9000000000302000 ENTRY_SIZE) (8 * j)) = 0 :=
  forall_lt_of_halves
    (fun j => rd loongarch teardown_after_leaf (add64 (add64 0x9000000000302000 ENTRY_SIZE) (8 * j)) = 0)
    384 127 (forall_lt_of_halves
    (fun j => rd loongarch teardown_after_leaf (add64 (add64 0x9000000000302000 ENTRY_SIZE) (8 * j)) = 0)
    256 128 (forall_lt_of_halves
    (fun j => rd loongarch teardown_after_leaf (add64 (add64 0x9000000000302000 ENTRY_SIZE) (8 * j)) = 0)
    128 128 (teardown_leaves_empty_a) teardown_leaves_empty_b) teardown_leaves_empty_c) teardown_leaves_empty_d

set_option maxHeartbeats 4000000 in
theorem teardown_first_table (sh : List shmem) :
    free_table loongarch 0x9000000000300000 (Walk.mk 0 teardown_state sh) =
      Walk.mk (shmem_release 0x9000000000301000 sh 0).1 teardown_after_table
        (shmem_release 0x9000000000301000 sh 0).2 := by
  have h1 : rd loongarch teardown_state 0x9000000000300000 ≠ 0 := by decide!
  have e_pt : rd loongarch teardown_state 0x9000000000300000 ||| loongarch.DMW_MASK
      = 0x9000000000302000 := by decide!
  have hrd : rd loongarch teardown_state 0x9000000000302000 ≠ 0 := by decide!
  have eP : entry_page loongarch (rd loongarch teardown_state 0x9000000000302000)
      = 0x9000000000301000 := by decide!
  have hs : is_share_page loongarch 0x9000000000301000 teardown_state = true := by decide!
  have hd : rd loongarch teardown_state 0x9000000000302000 &&& loongarch.PTE_D ≠ 0 := by
    decide!
  have e_pt2 : rd loongarch teardown_after_leaf 0x9000000000300000 ||| loongarch.DMW_MASK
      = 0x9000000000302000 := by decide!
  exact free_table_one_leaf loongarch 0x9000000000300000 0x9000000000302000
    0x9000000000302000 (shmem_release 0x9000000000301000 sh 0).1
    (Walk.mk 0 teardown_state sh) teardown_after_leaf teardown_after_table
    (shmem_release 0x9000000000301000 sh 0).2 h1 e_pt
    (free_leaves_first_shared loongarch 0x9000000000302000 0x9000000000301000
      (Walk.mk 0 teardown_state sh) teardown_after_leaf hrd eP hs hd rfl
      teardown_leaves_empty)
    e_pt2 rfl
theorem free_tables_step (K : Xtos) (fuel pde : Nat) (w w1 : Walk) (hi : w.i < ENTRYS)
    (h : free_table K pde w = w1) :
    free_tables K (fuel + 1) pde w =
      free_tables K fuel (add64 pde ENTRY_SIZE) (Walk.mk (w1.i + 1) w1.st w1.sh) := by
  rw [free_tables, if_pos hi, h]

set_option maxHeartbeats 4000000 in
theorem teardown_entries_empty_a : ∀ j, j < 128 →
    rd loongarch teardown_after_table (add64 (add64 0x9000000000300000 ENTRY_SIZE) (8 * j)) = 0 := by
  decide!

set_option maxHeartbeats 4000000 in
theorem teardown_entries_empty_b : ∀ j, j < 128 →
    rd loongarch teardown_after_table (add64 (add64 0x9000000000300000 ENTRY_SIZE) (8 * (128 + j))) = 0 := by
  decide!

set_option maxHeartbeats 4000000 in
theorem teardown_entries_empty_c : ∀ j, j < 128 →
    rd loongarch teardown_after_table (add64 (add64 0x9000000000300000 ENTRY_SIZE) (8 * (256 + j))) = 0 := by
  decide!

set_option maxHeartbeats 4000000 in
theorem teardown_entries_empty_d : ∀ j, j < 126 →
    rd loongarch teardown_after_table (add64 (add64 0x9000000000300000 ENTRY_SIZE) (8 * (384 + j))) = 0 := by
  decide!

/-- After the first table was released in `teardown_state`, the directory
entries 1 to 510 read 0. -/
theorem teardown_entries_empty : ∀ j, j < 510 →
    rd loongarch teardown_after_table (add64 (add64 0x9000000000300000 ENTRY_SIZE) (8 * j)) = 0 :=
  forall_lt_of_halves
    (fun j => rd loongarch teardown_after_table (add64 (add64 0x9000000000300000 ENTRY_SIZE) (8 * j)) = 0)
    384 126 (forall_lt_of_halves
    (fun j => rd loongarch teardown_after_table (add64 (add64 0x9000000000300000 ENTRY_SIZE) (8 * j)) = 0)
    256 128 (forall_lt_of_halves
    (fun j => rd loongarch teardown_after_table (add64 (add64 0x9000000000300000 ENTRY_SIZE) (8 * j)) = 0)
    128 128 (teardown_entries_empty_a) teardown_entries_empty_b) teardown_entries_empty_c) teardown_entries_empty_d

set_option maxHeartbeats 4000000 in
/-- The teardown of `teardown_state` with a table in which the search for the
page `0x301000` ends at an index other than 0: the walk returns after the
first table, with the state `teardown_after_table`. -/
theorem teardown_under_run (sh : List shmem) (fuel : Nat) (hf : 513 ≤ fuel)
    (ht : (shmem_release 0x9000000000301000 sh 0).1 ≠ 0) :
    ∃ w, free_page_table loongarch fuel demo_process teardown_state sh = some w ∧
      w.st = teardown_after_table := by
  obtain ⟨f, rfl⟩ : ∃ f, fuel = f + 1 := ⟨fuel - 1, by omega⟩
  have e1 : free_page_table loongarch (f + 1) demo_process teardown_state sh =
      free_tables loongarch f (add64 0x9000000000300000 ENTRY_SIZE)
        (Walk.mk ((shmem_release 0x9000000000301000 sh 0).1 + 1) teardown_after_table
          (shmem_release 0x9000000000301000 sh 0).2) :=
    free_tables_step loongarch f 0x9000000000300000 (Walk.mk 0 teardown_state sh) _
      (show 0 < ENTRYS by decide) (teardown_first_table sh)
  obtain ⟨w', h1, h2, _, _⟩ := free_tables_skip loongarch f
    (add64 0x9000000000300000 ENTRY_SIZE)
    (Walk.mk ((shmem_release 0x9000000000301000 sh 0).1 + 1) teardown_after_table
      (shmem_release 0x9000000000301000 sh 0).2)
    (Nat.mod_lt _ (by norm_num))
    (by
      show ENTRYS - ((shmem_release 0x9000000000301000 sh 0).1 + 1) < f
      simp only [ENTRYS]
      omega)
    (by
      intro j hj
      have hj' : (shmem_release 0x9000000000301000 sh 0).1 + 1 + j < 512 := hj
      exact teardown_entries_empty j (by omega))
  exact ⟨w', by rw [e1, h1], h2⟩
/-! ## The closed forms agree with the loops -/

theorem mark_used_closed (sp n : Nat) (mm : Nat → Nat) :
    mark_used sp n mm = mark_range sp n mm := by
  funext x
  exact mark_used_eq sp n mm x

theorem release_loop_closed (sp n : Nat) (mm : Nat → Nat) :
    release_loop sp n mm = release_range sp n mm := by
  apply Prod.ext
  · funext x
    exact release_loop_map sp mm n x
  · show (release_loop sp n mm).2 = decide (∀ j, j < n → (mm (sp + j) + 255) % 256 = 0)
    cases h : (release_loop sp n mm).2 with
    | true =>
      symm
      exact decide_eq_true ((release_loop_flag sp mm n).1 h)
    | false =>
      symm
      apply decide_eq_false
      intro hp
      have := (release_loop_flag sp mm n).2 hp
      rw [h] at this
      cases this

theorem alloc_block_closed_eq (K : Xtos) (order i : Nat) (s : State) :
    alloc_block K order i s = alloc_block_closed K order i s := by
  unfold alloc_block alloc_block_closed
  simp only [mark_used_closed]

theorem alloc_scan_closed_eq (K : Xtos) (order : Nat) :
    ∀ n i s, alloc_scan K order n i s = alloc_scan_closed K order n i s := by
  intro n
  induction n with
  | zero => intro i s; rfl
  | succ n ih =>
    intro i s
    rw [alloc_scan, alloc_scan_closed, alloc_block_closed_eq, ih]

theorem buddy_alloc_closed_eq (K : Xtos) (size : Nat) (s : State) :
    buddy_alloc K size s = buddy_alloc_closed K size s := by
  unfold buddy_alloc buddy_alloc_closed
  exact alloc_scan_closed_eq K _ _ _ s

theorem buddy_free_closed_eq (K : Xtos) (addr size : Nat) (s : State) :
    buddy_free K addr size s = buddy_free_closed K addr size s := by
  unfold buddy_free buddy_free_closed
  simp only [release_loop_closed]

theorem step_closed_eq (K : Xtos) (r : Run) (c : Call) : step K r c = step_closed K r c := by
  cases c with
  | alloc size =>
    simp only [step, step_closed, buddy_alloc_closed_eq]
  | free k =>
    simp only [step, step_closed]
    cases r.live.get? k with
    | none => rfl
    | some b => simp only [buddy_free_closed_eq]

theorem run_closed_eq (K : Xtos) (calls : List Call) (s : State) :
    run K calls s = run_closed K calls s := by
  unfold run run_closed
  congr 1
  funext r c
  exact step_closed_eq K r c
theorem free_table_no_leaf (K : Xtos) (pde pt : Nat) (w : Walk) (sB : State)
    (h1 : rd K w.st pde ≠ 0) (hpt : rd K w.st pde ||| K.DMW_MASK = pt) (hp : pt < 2 ^ 64)
    (hz : ∀ j, j < ENTRYS → rd K w.st (add64 pt (8 * j)) = 0)
    (hB : wr K (free_page K pt w.st) pde 0 = sB) :
    free_table K pde w = Walk.mk w.i sB w.sh := by
  have hl : free_leaves K ENTRYS pt w = w := free_leaves_skip K ENTRYS pt w hp hz
  rw [free_table_run K pde w h1, hpt, hl, hpt, hB]

theorem free_tables_next (K : Xtos) (fuel pde pde2 i2 : Nat) (w w1 : Walk)
    (hi : w.i < ENTRYS) (h : free_table K pde w = w1) (hp : add64 pde ENTRY_SIZE = pde2)
    (hi2 : w1.i + 1 = i2) :
    free_tables K (fuel + 1) pde w = free_tables K fuel pde2 (Walk.mk i2 w1.st w1.sh) := by
  subst hp hi2
  rw [free_tables, if_pos hi, h]

theorem free_tables_done (K : Xtos) (fuel pde : Nat) (w : Walk) (h : ¬ w.i < ENTRYS) :
    free_tables K (fuel + 1) pde w = some w := by
  rw [free_tables, if_neg h]

theorem free_tables_skip_n (K : Xtos) :
    ∀ n fuel pde w, pde < 2 ^ 64 → w.i + n ≤ ENTRYS →
      (∀ j, j < n → rd K w.st (add64 pde (8 * j)) = 0) →
      free_tables K (fuel + n) pde w =
        free_tables K fuel (add64 pde (8 * n)) (Walk.mk (w.i + n) w.st w.sh) := by
  intro n
  induction n with
  | zero =>
    intro fuel pde w hp _ _
    rw [Nat.mul_zero, add64_zero pde hp]
    rfl
  | succ n ih =>
    intro fuel pde w hp hn h
    have h0 : rd K w.st pde = 0 := by
      have := h 0 (by omega)
      rwa [Nat.mul_zero, add64_zero pde hp] at this
    have hp2 : add64 pde ENTRY_SIZE < 2 ^ 64 := Nat.mod_lt _ (by norm_num)
    have e1 : free_tables K (fuel + n + 1) pde w =
        free_tables K (fuel + n) (add64 pde ENTRY_SIZE) (Walk.mk (w.i + 1) w.st w.sh) := by
      have := free_tables_next K (fuel + n) pde (add64 pde ENTRY_SIZE) (w.i + 1) w w
        (by omega) (free_table_skip K pde w h0) rfl rfl
      exact this
    have e2 := ih fuel (add64 pde ENTRY_SIZE) (Walk.mk (w.i + 1) w.st w.sh) hp2
      (by show w.i + 1 + n ≤ ENTRYS; omega)
      (by
        intro j hj
        have := h (j + 1) (by omega)
        show rd K w.st (add64 (add64 pde ENTRY_SIZE) (8 * j)) = 0
        rw [add64_assoc]
        simp only [ENTRY_SIZE]
        rwa [show 8 + 8 * j = 8 * (j + 1) by ring])
    have e3 : add64 (add64 pde ENTRY_SIZE) (8 * n) = add64 pde (8 * (n + 1)) := by
      rw [add64_assoc]
      simp only [ENTRY_SIZE]
      rw [show 8 + 8 * n = 8 * (n + 1) by ring]
    have e4 : w.i + 1 + n = w.i + (n + 1) := by omega
    rw [show fuel + (n + 1) = fuel + n + 1 from rfl, e1, e2, e3]
    show free_tables K fuel _ (Walk.mk (w.i + 1 + n) w.st w.sh) = _
    rw [e4]

theorem free_tables_skip_to (K : Xtos) (n fuel pde pde2 i2 : Nat) (w : Walk)
    (hp : pde < 2 ^ 64) (hn : w.i + n ≤ ENTRYS)
    (hz : ∀ j, j < n → rd K w.st (add64 pde (8 * j)) = 0)
    (hp2 : add64 pde (8 * n) = pde2) (hi2 : w.i + n = i2) :
    free_tables K (fuel + n) pde w = free_tables K fuel pde2 (Walk.mk i2 w.st w.sh) := by
  subst hp2 hi2
  exact free_tables_skip_n K n fuel pde w hp hn hz
set_option maxHeartbeats 4000000 in
theorem overrun_leaves_empty_a : ∀ j, j < 128 →
    rd loongarch overrun_after_leaf (add64 (add64 0x9000000000302000 ENTRY_SIZE) (8 * j)) = 0 := by
  decide!

set_option maxHeartbeats 4000000 in
theorem overrun_leaves_empty_b : ∀ j, j < 128 →
    rd loongarch overrun_after_leaf (add64 (add64 0x9000000000302000 ENTRY_SIZE) (8 * (128 + j))) = 0 := by
  decide!

set_option maxHeartbeats 4000000 in
theorem overrun_leaves_empty_c : ∀ j, j < 128 →
    rd loongarch overrun_after_leaf (add64 (add64 0x9000000000302000 ENTRY_SIZE) (8 * (256 + j))) = 0 := by
  decide!

set_option maxHeartbeats 4000000 in
theorem overrun_leaves_empty_d : ∀ j, j < 127 →
    rd loongarch overrun_after_leaf (add64 (add64 0x9000000000302000 ENTRY_SIZE) (8 * (384 + j))) = 0 := by
  decide!

/-- After leaf 0 of the table `0x302000` was released in `overrun_state`, the
leaf entries 1 to 511 of that table read 0. -/
theorem overrun_leaves_empty : ∀ j, j < 511 →
    rd loongarch overrun_after_leaf (add64 (add64 0x9000000000302000 ENTRY_SIZE) (8 * j)) = 0 :=
  forall_lt_of_halves
    (fun j => rd loongarch overrun_after_leaf (add64 (add64 0x9000000000302000 ENTRY_SIZE) (8 * j)) = 0)
    384 127 (forall_lt_of_halves
    (fun j => rd loongarch overrun_after_leaf (add64 (add64 0x9000000000302000 ENTRY_SIZE) (8 * j)) = 0)
    256 128 (forall_lt_of_halves
    (fun j => rd loongarch overrun_after_leaf (add64 (add64 0x9000000000302000 ENTRY_SIZE) (8 * j)) = 0)
    128 128 (overrun_leaves_empty_a) overrun_leaves_empty_b) overrun_leaves_empty_c) overrun_leaves_empty_d

set_option maxHeartbeats 4000000 in
theorem overrun_entries_empty_a : ∀ j, j < 128 →
    rd loongarch overrun_after_table (add64 0x9000000000300010 (8 * j)) = 0 := by
  decide!

set_option maxHeartbeats 4000000 in
theorem overrun_entries_empty_b : ∀ j, j < 128 →
    rd loongarch overrun_after_table (add64 0x9000000000300010 (8 * (128 + j))) = 0 := by
  decide!

set_option maxHeartbeats 4000000 in
theorem overrun_entries_empty_c : ∀ j, j < 128 →
    rd loongarch overrun_after_table (add64 0x9000000000300010 (8 * (256 + j))) = 0 := by
  decide!

set_option maxHeartbeats 4000000 in
theorem overrun_entries_empty_d : ∀ j, j < 126 →
    rd loongarch overrun_after_table (add64 0x9000000000300010 (8 * (384 + j))) = 0 := by
  decide!

/-- After the table of directory entry 1 was released in `overrun_state`, the
directory entries 2 to 511 read 0. -/
theorem overrun_entries_empty : ∀ j, j < 510 →
    rd loongarch overrun_after_table (add64 0x9000000000300010 (8 * j)) = 0 :=
  forall_lt_of_halves
    (fun j => rd loongarch overrun_after_table (add64 0x9000000000300010 (8 * j)) = 0)
    384 126 (forall_lt_of_halves
    (fun j => rd loongarch overrun_after_table (add64 0x9000000000300010 (8 * j)) = 0)
    256 128 (forall_lt_of_halves
    (fun j => rd loongarch overrun_after_table (add64 0x9000000000300010 (8 * j)) = 0)
    128 128 (overrun_entries_empty_a) overrun_entries_empty_b) overrun_entries_empty_c) overrun_entries_empty_d

set_option maxHeartbeats 4000000 in
theorem overrun_stray_empty_a : ∀ j, j < 128 →
    rd loongarch overrun_after_table (add64 0x9000000000305000 (8 * j)) = 0 := by
  decide!

set_option maxHeartbeats 4000000 in
theorem overrun_stray_empty_b : ∀ j, j < 128 →
    rd loongarch overrun_after_table (add64 0x9000000000305000 (8 * (128 + j))) = 0 := by
  decide!

set_option maxHeartbeats 4000000 in
theorem overrun_stray_empty_c : ∀ j, j < 128 →
    rd loongarch overrun_after_table (add64 0x9000000000305000 (8 * (256 + j))) = 0 := by
  decide!

set_option maxHeartbeats 4000000 in
theorem overrun_stray_empty_d : ∀ j, j < 128 →
    rd loongarch overrun_after_table (add64 0x9000000000305000 (8 * (384 + j))) = 0 := by
  decide!

/-- Every entry of the page `0x305000`, which the walk takes for a table, reads
0. -/
theorem overrun_stray_empty : ∀ j, j < ENTRYS →
    rd loongarch overrun_after_table (add64 0x9000000000305000 (8 * j)) = 0 :=
  forall_lt_of_halves
    (fun j => rd loongarch overrun_after_table (add64 0x9000000000305000 (8 * j)) = 0)
    384 128 (forall_lt_of_halves
    (fun j => rd loongarch overrun_after_table (add64 0x9000000000305000 (8 * j)) = 0)
    256 128 (forall_lt_of_halves
    (fun j => rd loongarch overrun_after_table (add64 0x9000000000305000 (8 * j)) = 0)
    128 128 (overrun_stray_empty_a) overrun_stray_empty_b) overrun_stray_empty_c) overrun_stray_empty_d

set_option maxHeartbeats 4000000 in
/-- The teardown of `overrun_state` with a table in which the search for the
page `0x301000` ends at index 0: after the table of directory entry 1 the walk
goes on to the word after the directory and treats it as entry 512. -/
theorem teardown_over_run (sh : List shmem)
    (ht : (shmem_release 0x9000000000301000 sh 0).1 = 0) :
    free_page_table loongarch 514 demo_process overrun_state sh =
      some (Walk.mk 512 overrun_after_stray (shmem_release 0x9000000000301000 sh 0).2) := by
  have f1 : rd loongarch overrun_state 0x9000000000300000 = 0 := by decide!
  have p1 : add64 0x9000000000300000 ENTRY_SIZE = 0x9000000000300008 := by decide
  have h1 : rd loongarch overrun_state 0x9000000000300008 ≠ 0 := by decide!
  have e_pt : rd loongarch overrun_state 0x9000000000300008 ||| loongarch.DMW_MASK
      = 0x9000000000302000 := by decide!
  have hrd : rd loongarch overrun_state 0x9000000000302000 ≠ 0 := by decide!
  have eP : entry_page loongarch (rd loongarch overrun_state 0x9000000000302000)
      = 0x9000000000301000 := by decide!
  have hs : is_share_page loongarch 0x9000000000301000 overrun_state = true := by decide!
  have hd : rd loongarch overrun_state 0x9000000000302000 &&& loongarch.PTE_D ≠ 0 := by
    decide!
  have e_pt2 : rd loongarch overrun_after_leaf 0x9000000000300008 ||| loongarch.DMW_MASK
      = 0x9000000000302000 := by decide!
  have p2 : add64 0x9000000000300008 ENTRY_SIZE = 0x9000000000300010 := by decide
  have p3 : add64 0x9000000000300010 (8 * 510) = 0x9000000000301000 := by decide
  have h4 : rd loongarch overrun_after_table 0x9000000000301000 ≠ 0 := by decide!
  have e_pt4 : rd loongarch overrun_after_table 0x9000000000301000 ||| loongarch.DMW_MASK
      = 0x9000000000305000 := by decide!
  have e0 : free_page_table loongarch 514 demo_process overrun_state sh =
      free_tables loongarch 513 0x9000000000300008 (Walk.mk 1 overrun_state sh) :=
    free_tables_next loongarch 513 0x9000000000300000 0x9000000000300008 1
      (Walk.mk 0 overrun_state sh) (Walk.mk 0 overrun_state sh)
      (show 0 < ENTRYS by decide) (free_table_skip loongarch _ _ f1) p1 rfl
  have e1 : free_tables loongarch 513 0x9000000000300008 (Walk.mk 1 overrun_state sh) =
      free_tables loongarch 512 0x9000000000300010
        (Walk.mk 1 overrun_after_table (shmem_release 0x9000000000301000 sh 0).2) :=
    free_tables_next loongarch 512 0x9000000000300008 0x9000000000300010 1
      (Walk.mk 1 overrun_state sh)
      (Walk.mk (shmem_release 0x9000000000301000 sh 0).1 overrun_after_table
        (shmem_release 0x9000000000301000 sh 0).2)
      (show 1 < ENTRYS by decide)
      (free_table_one_leaf loongarch 0x9000000000300008 0x9000000000302000
        0x9000000000302000 (shmem_release 0x9000000000301000 sh 0).1
        (Walk.mk 1 overrun_state sh) overrun_after_leaf overrun_after_table
        (shmem_release 0x9000000000301000 sh 0).2 h1 e_pt
        (free_leaves_first_shared loongarch 0x9000000000302000 0x9000000000301000
          (Walk.mk 1 overrun_state sh) overrun_after_leaf hrd eP hs hd rfl overrun_leaves_empty)
        e_pt2 rfl)
      p2 (show (shmem_release 0x9000000000301000 sh 0).1 + 1 = 1 by rw [ht])
  have e2 : free_tables loongarch 512 0x9000000000300010
        (Walk.mk 1 overrun_after_table (shmem_release 0x9000000000301000 sh 0).2) =
      free_tables loongarch 2 0x9000000000301000
        (Walk.mk 511 overrun_after_table (shmem_release 0x9000000000301000 sh 0).2) :=
    free_tables_skip_to loongarch 510 2 0x9000000000300010 0x9000000000301000 511
      (Walk.mk 1 overrun_after_table (shmem_release 0x9000000000301000 sh 0).2)
      (by norm_num) (show 1 + 510 ≤ ENTRYS by decide) overrun_entries_empty p3 rfl
  have e3 : free_tables loongarch 2 0x9000000000301000
        (Walk.mk 511 overrun_after_table (shmem_release 0x9000000000301000 sh 0).2) =
      free_tables loongarch 1 (add64 0x9000000000301000 ENTRY_SIZE)
        (Walk.mk 512 overrun_after_stray (shmem_release 0x9000000000301000 sh 0).2) :=
    free_tables_next loongarch 1 0x9000000000301000 _ 512
      (Walk.mk 511 overrun_after_table (shmem_release 0x9000000000301000 sh 0).2)
      (Walk.mk 511 overrun_after_stray (shmem_release 0x9000000000301000 sh 0).2)
      (show 511 < ENTRYS by decide)
      (free_table_no_leaf loongarch 0x9000000000301000 0x9000000000305000
        (Walk.mk 511 overrun_after_table (shmem_release 0x9000000000301000 sh 0).2)
        overrun_after_stray h4 e_pt4 (by norm_num) overrun_stray_empty rfl)
      rfl rfl
  have e4 : free_tables loongarch 1 (add64 0x9000000000301000 ENTRY_SIZE)
        (Walk.mk 512 overrun_after_stray (shmem_release 0x9000000000301000 sh 0).2) =
      some (Walk.mk 512 overrun_after_stray (shmem_release 0x9000000000301000 sh 0).2) :=
    free_tables_done loongarch 0 _ _ (show ¬ 512 < ENTRYS by decide)
  exact e0.trans (e1.trans (e2.trans (e3.trans e4)))

/-! ## Evaluation on states reached after a merging free -/

set_option maxHeartbeats 4000000 in
/-- C15, evaluation: after the calls of `test_buddy_allocator` the block
`0x300000` heads the lists 1, 2 and 8, each time followed by `0x400000`.  The
request `buddy_alloc(8192)` has order 1 and finds bit 1 set, so `k` is 1; it
returns `0x300000 | DMW_MASK` and list 1 becomes `0x400000`.  The lists 2 and
8, outside `[order, k]`, keep their head `0x300000` but lose `0x400000`: the
returned block is zero-filled, and its first word is the next pointer of all
three lists. -/
theorem alloc_truncates_other_lists :
    get_order 8192 = 1 ∧ after_self_test.bitmap 1 ≠ 0 ∧
    after_self_test.free_list 1 = 0x300000 ∧
    (buddy_alloc loongarch 8192 after_self_test).1 = 0x9000000000300000 ∧
    (buddy_alloc loongarch 8192 after_self_test).2.free_list 1 = 0x400000 ∧
    IsList after_self_test.mem (after_self_test.free_list 2) [0x300000, 0x400000] ∧
    IsList after_self_test.mem (after_self_test.free_list 8) [0x300000, 0x400000] ∧
    IsList (buddy_alloc loongarch 8192 after_self_test).2.mem
      ((buddy_alloc loongarch 8192 after_self_test).2.free_list 2) [0x300000] ∧
    IsList (buddy_alloc loongarch 8192 after_self_test).2.mem
      ((buddy_alloc loongarch 8192 after_self_test).2.free_list 8) [0x300000] := by
  decide!

set_option maxHeartbeats 4000000 in
/-- C10, evaluation: in `wp_state` the leaf entry of virtual address 0 of
`wp_process` maps the page `0x302000`, whose count is 2, whose first word is
`0x1122334455667788` and which heads no free list.  The write fault runs to
completion, rewrites the entry to the new page `0x300000` with
`PTE_PLV | PTE_D | PTE_V`, gives the new page count 1 and takes the count of
the old page to 1.  But afterwards the first word of the old page and of the
new page is 0, the old page heads `free_list[1]` with bit 1 set, and entry 0
of the page directory is 0: `get_page` took the block `0x300000` of order 8,
which `buddy_free` had pushed while the blocks inside it stayed listed, and
splitting it wrote list pointers into `0x301000` and `0x302000`. -/
theorem wp_fault_overwrites_old_page :
    rd loongarch wp_state (pde_ptr wp_process 0) = 0x303000 ∧
    rd loongarch wp_state 0x9000000000303000 = 0x302000 ||| 13 ∧
    is_share_page loongarch (entry_page loongarch (0x302000 ||| 13)) wp_state = true ∧
    wp_state.mem_map 0x302 = 2 ∧
    load64 wp_state.mem 0x302000 = 0x1122334455667788 ∧
    (∀ o, o ≤ MAX_ORDER → wp_state.free_list o ≠ 0x302000) ∧
    wp_fault.is_done = true ∧
    rd loongarch wp_fault.state 0x9000000000303000 =
      0x300000 ||| loongarch.PTE_PLV ||| loongarch.PTE_D ||| loongarch.PTE_V ∧
    wp_fault.state.mem_map 0x300 = 1 ∧
    wp_fault.state.mem_map 0x302 = 1 ∧
    load64 wp_fault.state.mem 0x302000 = 0 ∧
    load64 wp_fault.state.mem 0x300000 = 0 ∧
    wp_fault.state.bitmap 1 = 1 ∧
    wp_fault.state.free_list 1 = 0x302000 ∧
    rd loongarch wp_fault.state (pde_ptr wp_process 0) = 0 := by
  decide!

theorem copy_leaves_empty (K : Xtos) : ∀ n fp tp s, fp < 2 ^ 64 →
    (∀ j, j < n → rd K s (add64 fp (8 * j)) = 0) →
    copy_leaves K n fp tp s = Result.done () s := by
  intro n
  induction n with
  | zero => intro fp tp s _ _; rfl
  | succ n ih =>
    intro fp tp s hp h
    have h0 : rd K s fp = 0 := by
      have := h 0 (by omega)
      rwa [Nat.mul_zero, add64_zero fp hp] at this
    rw [copy_leaves, copy_leaf_skip K fp tp s (Or.inl h0)]
    exact ih _ _ s (Nat.mod_lt _ (by norm_num)) (fun j hj => by
      have := h (j + 1) (by omega)
      rw [add64_assoc]
      simp only [ENTRY_SIZE]
      rwa [show 8 + 8 * j = 8 * (j + 1) by ring])

theorem copy_tables_empty (K : Xtos) : ∀ n fp tp s, fp < 2 ^ 64 →
    (∀ j, j < n → rd K s (add64 fp (8 * j)) = 0) →
    copy_tables K n fp tp s = Result.done () s := by
  intro n
  induction n with
  | zero => intro fp tp s _ _; rfl
  | succ n ih =>
    intro fp tp s hp h
    have h0 : rd K s fp = 0 := by
      have := h 0 (by omega)
      rwa [Nat.mul_zero, add64_zero fp hp] at this
    rw [copy_tables, copy_table_skip K fp tp s h0]
    exact ih _ _ s (Nat.mod_lt _ (by norm_num)) (fun j hj => by
      have := h (j + 1) (by omega)
      rw [add64_assoc]
      simp only [ENTRY_SIZE]
      rwa [show 8 + 8 * j = 8 * (j + 1) by ring])

theorem get_page_result (K : Xtos) (s : State) (r : Nat)
    (hr : (buddy_alloc K PAGE_SIZE s).1 = r) (h0 : r ≠ 0) :
    get_page K s = Result.done r (get_page K s).state := by
  subst hr
  rw [get_page_done K s h0]
  rfl

theorem copy_table_no_leaf (K : Xtos) (fpde tpde pt r : Nat) (s sg s2 : State)
    (h0 : rd K s fpde ≠ 0) (hpt : rd K s fpde ||| K.DMW_MASK = pt) (hp : pt < 2 ^ 64)
    (hg : get_page K s = Result.done r sg)
    (hs2 : wr K sg tpde (r &&& not64 K.DMW_MASK) = s2)
    (hz : ∀ j, j < ENTRYS → rd K s2 (add64 pt (8 * j)) = 0) :
    copy_table K fpde tpde s = Result.done () s2 := by
  rw [copy_table, if_neg h0]
  simp only [hg, hpt, hs2]
  exact copy_leaves_empty K ENTRYS pt r s2 hp hz

theorem copy_tables_first (K : Xtos) (n fp tp : Nat) (s s1 : State)
    (h : copy_table K fp tp s = Result.done () s1)
    (hz : ∀ j, j < n → rd K s1 (add64 (add64 fp ENTRY_SIZE) (8 * j)) = 0) :
    copy_tables K (n + 1) fp tp s = Result.done () s1 := by
  rw [copy_tables, h]
  exact copy_tables_empty K n _ _ s1 (Nat.mod_lt _ (by norm_num)) hz

set_option maxHeartbeats 4000000 in
theorem fork_leaves_a : ∀ j, j < 128 →
    rd loongarch fork_after_entry (add64 0x9000000000304000 (8 * j)) = 0 := by
  decide!

set_option maxHeartbeats 4000000 in
theorem fork_leaves_b : ∀ j, j < 128 →
    rd loongarch fork_after_entry (add64 0x9000000000304000 (8 * (128 + j))) = 0 := by
  decide!

set_option maxHeartbeats 4000000 in
theorem fork_leaves_c : ∀ j, j < 128 →
    rd loongarch fork_after_entry (add64 0x9000000000304000 (8 * (256 + j))) = 0 := by
  decide!

set_option maxHeartbeats 4000000 in
theorem fork_leaves_d : ∀ j, j < 128 →
    rd loongarch fork_after_entry (add64 0x9000000000304000 (8 * (384 + j))) = 0 := by
  decide!

/-- After the first table page of the clone was taken, every leaf entry of the
table `0x304000` of `fork_parent` reads 0. -/
theorem fork_leaves_empty : ∀ j, j < ENTRYS →
    rd loongarch fork_after_entry (add64 0x9000000000304000 (8 * j)) = 0 :=
  forall_lt_of_halves
    (fun j => rd loongarch fork_after_entry (add64 0x9000000000304000 (8 * j)) = 0) 384 128
    (forall_lt_of_halves
      (fun j => rd loongarch fork_after_entry (add64 0x9000000000304000 (8 * j)) = 0) 256 128
      (forall_lt_of_halves
        (fun j => rd loongarch fork_after_entry (add64 0x9000000000304000 (8 * j)) = 0)
        128 128 fork_leaves_a fork_leaves_b)
      fork_leaves_c)
    fork_leaves_d

set_option maxHeartbeats 4000000 in
theorem fork_entries_a : ∀ j, j < 128 →
    rd loongarch fork_after_entry
      (add64 (add64 0x9000000000302000 ENTRY_SIZE) (8 * j)) = 0 := by
  decide!

set_option maxHeartbeats 4000000 in
theorem fork_entries_b : ∀ j, j < 128 →
    rd loongarch fork_after_entry
      (add64 (add64 0x9000000000302000 ENTRY_SIZE) (8 * (128 + j))) = 0 := by
  decide!

set_option maxHeartbeats 4000000 in
theorem fork_entries_c : ∀ j, j < 128 →
    rd loongarch fork_after_entry
      (add64 (add64 0x9000000000302000 ENTRY_SIZE) (8 * (256 + j))) = 0 := by
  decide!

set_option maxHeartbeats 4000000 in
theorem fork_entries_d : ∀ j, j < 127 →
    rd loongarch fork_after_entry
      (add64 (add64 0x9000000000302000 ENTRY_SIZE) (8 * (384 + j))) = 0 := by
  decide!

/-- After the first table page of the clone was taken, the directory entries 1
to 511 of `fork_parent` read 0. -/
theorem fork_entries_empty : ∀ j, j < 511 →
    rd loongarch fork_after_entry
      (add64 (add64 0x9000000000302000 ENTRY_SIZE) (8 * j)) = 0 :=
  forall_lt_of_halves
    (fun j => rd loongarch fork_after_entry
      (add64 (add64 0x9000000000302000 ENTRY_SIZE) (8 * j)) = 0) 384 127
    (forall_lt_of_halves
      (fun j => rd loongarch fork_after_entry
        (add64 (add64 0x9000000000302000 ENTRY_SIZE) (8 * j)) = 0) 256 128
      (forall_lt_of_halves
        (fun j => rd loongarch fork_after_entry
          (add64 (add64 0x9000000000302000 ENTRY_SIZE) (8 * j)) = 0)
        128 128 fork_entries_a fork_entries_b)
      fork_entries_c)
    fork_entries_d

set_option maxHeartbeats 4000000 in
/-- The clone of `fork_parent` in `fork_state` runs to completion and ends in
the state `fork_after_entry`: after `get_page` returned the table page, both
loops find only empty entries. -/
theorem fork_clone_result : fork_clone = Result.done () fork_after_entry := by
  have h0 : rd loongarch fork_state 0x9000000000302000 ≠ 0 := by decide!
  have hpt : rd loongarch fork_state 0x9000000000302000 ||| loongarch.DMW_MASK
      = 0x9000000000304000 := by decide!
  have hr : (buddy_alloc loongarch PAGE_SIZE fork_state).1 = 0x9000000000300000 := by
    decide!
  exact copy_tables_first loongarch 511 0x9000000000302000 0x9000000000305000
    fork_state fork_after_entry
    (copy_table_no_leaf loongarch 0x9000000000302000 0x9000000000305000
      0x9000000000304000 0x9000000000300000 fork_state
      (get_page loongarch fork_state).state fork_after_entry h0 hpt (by norm_num)
      (get_page_result loongarch fork_state 0x9000000000300000 hr (by norm_num))
      rfl fork_leaves_empty)
    fork_entries_empty

set_option maxHeartbeats 4000000 in
/-- C9, evaluation: in `fork_state` entry 0 of the directory of `fork_parent`
names the table `0x304000`, whose leaf 0 maps the page `0x303000` with
`PTE_D` set; the page has count 1, so it is not shared, and it is the only
page that `put_page` mapped.  The clone into `fork_child` runs to completion, yet the count of the page
is still 1 and leaf 0 of the new table `0x300000` of `fork_child` is empty;
the leaf entry of `fork_parent` and entry 0 of its directory read 0
afterwards.  The first `get_page` of the clone took the block `0x300000` of
order 8, which `buddy_free` had pushed while the blocks inside it stayed
listed, and splitting it wrote list pointers into the table `0x304000` and
the directory `0x302000` before the inner loop read the leaf. -/
theorem clone_skips_present_leaf :
    dir_at fork_state 0x302000 0 = 0x304000 ∧
    leaf_at fork_state 0x302000 0 0 = 0x303000 ||| 15 ∧
    fork_state.mem_map 0x303 = 1 ∧
    is_share_page loongarch (entry_page loongarch (0x303000 ||| 15)) fork_state = false ∧
    fork_clone.is_done = true ∧
    fork_clone.state.mem_map 0x303 = 1 ∧
    dir_at fork_clone.state 0x305000 0 = 0x300000 ∧
    leaf_at fork_clone.state 0x305000 0 0 = 0 ∧
    load64 fork_clone.state.mem 0x304000 = 0 ∧
    dir_at fork_clone.state 0x302000 0 = 0 := by
  rw [fork_clone_result]
  decide!
/-! ## Presence bits and list heads -/

set_option maxHeartbeats 4000000 in
/-- C17, evaluation: in the boot state every presence bit agrees with its
list head; after the calls of `null_push` bit 11 is set while `free_list[11]`
is `NULL`, and the next request of 8MB takes that `NULL` head and returns
`NULL | DMW_MASK`, a pointer to physical address 0. -/
theorem null_pushed_on_free_list :
    (∀ o ≤ MAX_ORDER, boot.bitmap o ≠ 0 ↔ boot.free_list o ≠ 0) ∧
    (run loongarch null_push boot).live = [(0x9000000000300000, 0x100000)] ∧
    (run loongarch null_push boot).st.bitmap 11 = 1 ∧
    (run loongarch null_push boot).st.free_list 11 = 0 ∧
    get_order 0x800000 = 11 ∧
    (buddy_alloc loongarch 0x800000 (run loongarch null_push boot).st).1
      = 0x9000000000000000 := by
  rw [run_closed_eq]
  decide!

/-! ## The directory walk of `free_page_table` -/

set_option maxHeartbeats 4000000 in
/-- C11, evaluation.  In `teardown_state` directory entries 0 and 511 are
present and leaf 0 of the first table maps the shared page `0x301000` with
`PTE_D` set.  For every shared-memory table in which the search for that page
ends at an index other than 0, `free_page_table` returns with directory entry
511 and its leaf still in place and the pages `0x303000` and `0x304000` never
released: the search loop assigns the loop variable `i` of the directory
walk.  In `overrun_state` the shared page is mapped under directory entry 1;
for every table in which the search ends at index 0, the walk goes on to the
word after the directory, at `0x301000`, takes it for a directory entry,
clears it and decrements the count of the page `0x305000` it names. -/
theorem teardown_misses_entries :
    (dir_at teardown_state 0x300000 0 = 0x302000 ∧
      leaf_at teardown_state 0x300000 0 0 = 0x30100f ∧
      teardown_state.mem_map 0x301 = 2 ∧
      dir_at teardown_state 0x300000 511 = 0x304000 ∧
      leaf_at teardown_state 0x300000 511 0 = 0x30300f) ∧
    (∀ (sh : List shmem) (fuel : Nat), 513 ≤ fuel →
      (shmem_release 0x9000000000301000 sh 0).1 ≠ 0 →
      ∃ w, free_page_table loongarch fuel demo_process teardown_state sh = some w ∧
        dir_at w.st 0x300000 511 = 0x304000 ∧
        leaf_at w.st 0x300000 511 0 = 0x30300f ∧
        w.st.mem_map 0x303 = 1 ∧ w.st.mem_map 0x304 = 1) ∧
    (shmem_release 0x9000000000301000 teardown_shmem 0).1 = 1 ∧
    (dir_at overrun_state 0x300000 1 = 0x302000 ∧
      leaf_at overrun_state 0x300000 1 0 = 0x30100f ∧
      overrun_state.mem_map 0x301 = 2 ∧
      dir_at overrun_state 0x300000 512 = 0x305000 ∧
      overrun_state.mem_map 0x305 = 0) ∧
    (∀ (sh : List shmem), (shmem_release 0x9000000000301000 sh 0).1 = 0 →
      ∃ w, free_page_table loongarch 514 demo_process overrun_state sh = some w ∧
        w.i = 512 ∧ dir_at w.st 0x300000 512 = 0 ∧ w.st.mem_map 0x305 = 255) ∧
    (shmem_release 0x9000000000301000 overrun_shmem 0).1 = 0 := by
  refine ⟨by decide!, ?_, by decide!, by decide!, ?_, by decide!⟩
  · intro sh fuel hf ht
    obtain ⟨w, h1, h2⟩ := teardown_under_run sh fuel hf ht
    refine ⟨w, h1, ?_⟩
    rw [h2]
    decide!
  · intro sh ht
    refine ⟨_, teardown_over_run sh ht, rfl, ?_⟩
    show dir_at overrun_after_stray 0x300000 512 = 0 ∧ overrun_after_stray.mem_map 0x305 = 255
    decide!

end BGOS
